import Mathlib

/-!
# lf-cli: the push reconciliation engine (`src/commands/push.js`)

A shallow embedding of `parseHostString`, `buildPayloadFromLocal` and
`pushCommand`, and the properties of the reconciliation plan, the payload
builder, the host resolver and the plan executor that follow from the code.

Conventions of the embedding

* JavaScript values read from JSON documents are `JVal`.  An array or a plain
  object is kept as `JVal.object prim`, where `prim` is the string that
  `ToPrimitive` gives for it (`Array.prototype.join` for an array,
  `[object Object]` for a plain object); this is all that `Number(v)`,
  `String(v)` and truthiness look at.
* JavaScript numbers are `JSNum`: the finite doubles sit inside `ℚ`
  (`-0` is identified with `0`, which `===` cannot tell apart either).
* The parts of the JavaScript runtime that the code calls and that are not
  arithmetic on these values (parsing a numeric literal, printing a number,
  `new URL`) are the fields of `Builtins`, an argument of every definition
  that needs them.
* The API client is a state machine `Client σ` over an arbitrary state `σ`;
  a run threads a `Run σ` that records every client call with its reply.
* Of `src/commands/create.js` only the host check of `createTestCommand` is
  embedded, as `createTestCommandHost`.
-/

namespace LfCli

/-! ## JavaScript values -/

/-- A JavaScript number: a finite value, an infinity, or NaN. -/
inductive JSNum where
  | fin (q : ℚ)
  | inf (negative : Bool)
  | nan
deriving DecidableEq

instance : OfNat JSNum n := ⟨JSNum.fin n⟩

/-- The test `Number.isFinite(n)`. -/
def JSNum.isFinite : JSNum → Bool
  | .fin _ => true
  | _ => false

/-- Truthiness of a number: `0` and `NaN` are falsy. -/
def JSNum.truthy : JSNum → Bool
  | .fin q => q != 0
  | .inf _ => true
  | .nan => false

/-- Strict equality `a === b` on numbers: `NaN` equals nothing. -/
def JSNum.strictEq : JSNum → JSNum → Bool
  | .nan, _ => false
  | _, .nan => false
  | a, b => a == b

/-- A value of a parsed JSON document, or `undefined` for a missing key. -/
inductive JVal where
  | undefined
  | null
  | bool (b : Bool)
  | num (n : JSNum)
  | str (s : String)
  | object (prim : String)
deriving DecidableEq

/-- Truthiness, as tested by `!v`, `v ? a : b`, `v && w`, `v || w`. -/
def JVal.truthy : JVal → Bool
  | .undefined => false
  | .null => false
  | .bool b => b
  | .num n => n.truthy
  | .str s => s != ""
  | .object _ => true

/-- The record that `new URL(s)` exposes to `parseHostString`. -/
structure URLRecord where
  protocol : String
  hostname : String
  port : String
deriving DecidableEq

/-- Runtime functions the code relies on and the embedding does not define. -/
structure Builtins where
  /-- The value of a non-blank string as a `StrNumericLiteral`; `NaN` when it is none. -/
  strNumericLiteral : String → JSNum
  /-- The result of `Number.prototype.toString`. -/
  numberToString : JSNum → String
  /-- The call `new URL(s)`: `none` when the constructor throws. -/
  newURL : String → Option URLRecord

/-- The characters that `StringToNumber` strips as `StrWhiteSpaceChar`. -/
def isStrWhiteSpaceChar (c : Char) : Bool :=
  let n := c.toNat
  n == 0x09 || n == 0x0A || n == 0x0B || n == 0x0C || n == 0x0D || n == 0x20 ||
  n == 0xA0 || n == 0x1680 || (0x2000 ≤ n && n ≤ 0x200A) || n == 0x2028 ||
  n == 0x2029 || n == 0x202F || n == 0x205F || n == 0x3000 || n == 0xFEFF

/-- Strip leading and trailing white space. -/
def trimWhiteSpace (cs : List Char) : List Char :=
  ((cs.dropWhile isStrWhiteSpaceChar).reverse.dropWhile isStrWhiteSpaceChar).reverse

/-- The abstract operation `StringToNumber`: a blank string is `+0`. -/
def stringToNumber (env : Builtins) (s : String) : JSNum :=
  let core := trimWhiteSpace s.data
  if core.isEmpty then .fin 0 else env.strNumericLiteral (String.mk core)

/-- The conversion `Number(v)`. -/
def JVal.toNumber (env : Builtins) : JVal → JSNum
  | .undefined => .nan
  | .null => .fin 0
  | .bool b => if b then .fin 1 else .fin 0
  | .num n => n
  | .str s => stringToNumber env s
  | .object prim => stringToNumber env prim

/-- The conversion `String(v)`. -/
def JVal.toStr (env : Builtins) : JVal → String
  | .undefined => "undefined"
  | .null => "null"
  | .bool b => if b then "true" else "false"
  | .num n => env.numberToString n
  | .str s => s
  | .object prim => prim

/-! ## Data model -/

/-- The fields of `config.json` that `push` reads; a missing key is `undefined`. -/
structure LocalConfig where
  rate : JVal := .undefined
  servers : JVal := .undefined
  users : JVal := .undefined
  host : JVal := .undefined
  region : JVal := .undefined
  apdex_target : JVal := .undefined
  p95_target : JVal := .undefined
  error_perc_target : JVal := .undefined
  region_servers : JVal := .undefined
deriving DecidableEq

/-- One entry pushed by `loadLocalTestsFromDir`. -/
structure LocalTest where
  folder : String
  name : String
  config : LocalConfig
  locustfile : String
deriving DecidableEq

/-- One element of the array returned by `client.listTests()`.  The string
fields are `none` when the key is missing or `null`. -/
structure RemoteTest where
  id : JVal
  name : Option String
  test_type : Option String := none
  region : Option String := none
  host_id : JVal := .undefined
deriving DecidableEq

/-- One element of the array returned by `client.listHosts()`. -/
structure RemoteHost where
  id : JVal
  protocol : JVal
  url : JVal
  port : JVal
deriving DecidableEq

/-- The object returned by `parseHostString`, also the body of `createHost`. -/
structure HostSpec where
  protocol : String
  url : String
  port : JSNum
deriving DecidableEq

/-- The request body built by `buildPayloadFromLocal`.  A field that is
`none` (or `JVal.undefined`) holds `undefined` and is left out of the JSON
body. -/
structure Payload where
  name : Option String
  rate : Option JSNum
  servers : Option JSNum
  users : Option JSNum
  region : Option String
  locustfile : String
  apdex_target : Option JSNum := none
  p95_target : Option JSNum := none
  error_perc_target : Option JSNum := none
  region_servers : JVal := .undefined
  host_id : JVal := .undefined
deriving DecidableEq

/-! ## The payload builder -/

/-- The helper `toNum` of `buildPayloadFromLocal`. -/
def toNum (env : Builtins) (v : JVal) : Option JSNum :=
  if v = .null ∨ v = .undefined ∨ v = .str "" then none
  else
    let n := v.toNumber env
    if n.isFinite then some n else none

/-- Truthiness of an optional string field (`none`: missing or `null`). -/
def strTruthy : Option String → Bool
  | none => false
  | some s => s != ""

/-- The function `buildPayloadFromLocal(local, includeExtended, remote, { includeName })`. -/
def buildPayloadFromLocal (env : Builtins) (loc : LocalTest) (includeExtended : Bool)
    (remote : Option RemoteTest) (includeName : Bool) : Payload :=
  let base : Payload :=
    { name := if includeName then some loc.name else none
      rate := toNum env loc.config.rate
      servers := toNum env loc.config.servers
      users := toNum env loc.config.users
      region :=
        if loc.config.region.truthy then some (loc.config.region.toStr env)
        else match remote with
          | some r => if strTruthy r.region then r.region else none
          | none => none
      locustfile := loc.locustfile }
  if !includeExtended then base
  else
    { base with
      apdex_target := toNum env loc.config.apdex_target
      p95_target := toNum env loc.config.p95_target
      error_perc_target := toNum env loc.config.error_perc_target
      region_servers := loc.config.region_servers }

/-! ## The reconciliation plan -/

/-- The filter `(t.test_type || 'load') === 'load'`. -/
def isLoad (t : RemoteTest) : Bool :=
  (if strTruthy t.test_type then t.test_type.getD "load" else "load") == "load"

/-- The method `Map.prototype.set`: an existing key keeps its place. -/
def mapSet (m : List (String × RemoteTest)) (k : String) (v : RemoteTest) :
    List (String × RemoteTest) :=
  match m with
  | [] => [(k, v)]
  | (k0, v0) :: rest => if k0 = k then (k, v) :: rest else (k0, v0) :: mapSet rest k v

/-- The method `Map.prototype.get`. -/
def mapGet (m : List (String × RemoteTest)) (k : String) : Option RemoteTest :=
  (m.find? (fun kv => kv.1 == k)).map (·.2)

/-- The method `Map.prototype.has`. -/
def mapHas (m : List (String × RemoteTest)) (k : String) : Bool :=
  (mapGet m k).isSome

/-- The method `Set.prototype.add`, keeping insertion order. -/
def setAdd (s : List String) (k : String) : List String :=
  if s.contains k then s else s ++ [k]

/-- The constructor `new Set(iterable)`. -/
def setOf (xs : List String) : List String :=
  xs.foldl setAdd []

/-- The loop that fills `remoteByName`, skipping entities without a name. -/
def buildRemoteByName (remoteLoad : List RemoteTest) : List (String × RemoteTest) :=
  remoteLoad.foldl
    (fun m t => if !strTruthy t.name then m else mapSet m (t.name.getD "") t) []

/-- The plan computed at the start of `pushCommand`. -/
structure Plan where
  remoteByName : List (String × RemoteTest)
  toUpdate : List LocalTest
  toCreate : List LocalTest
  toDelete : List String

/-- Lines 98 to 111 of `pushCommand`. -/
def pushPlan (localTests : List LocalTest) (remoteAll : List RemoteTest) : Plan :=
  let remoteLoad := remoteAll.filter isLoad
  let remoteByName := buildRemoteByName remoteLoad
  let localNames := setOf (localTests.map (·.name))
  let remoteNames := setOf ((remoteLoad.map (·.name)).filterMap
    (fun n => if strTruthy n then n else none))
  { remoteByName := remoteByName
    toUpdate := localTests.filter (fun t => mapHas remoteByName t.name)
    toCreate := localTests.filter (fun t => !mapHas remoteByName t.name)
    toDelete := remoteNames.filter (fun name => !localNames.contains name) }

/-! ## The API client and the effects of a run -/

/-- A rejected client call; `status` is `err?.response?.status`. -/
structure Rejection where
  status : Option Nat
deriving DecidableEq

/-- A value thrown out of `pushCommand`. -/
inductive Failure where
  /-- A rejection of a client call, rethrown. -/
  | rejected (e : Rejection)
  /-- The error `Create requires 'region' in <rootDir>/<folder>/config.json`. -/
  | createRequiresRegion (rootDir folder file : String)
  /-- An error thrown by `loadLocalTestsFromDir`. -/
  | loadFailed (message : String)
  /-- A `TypeError` raised by reading a property of `undefined`. -/
  | typeError
deriving DecidableEq

/-- The response of `client.createHost`. -/
structure CreatedHost where
  id : JVal := .undefined
  host_id : JVal := .undefined
deriving DecidableEq

/-- A call made on the client. -/
inductive Call where
  | listTests
  | listHosts
  | createHost (spec : HostSpec)
  | updateTest (id : JVal) (payload : Payload)
  | createTest (payload : Payload)
  | deleteTest (id : JVal)
deriving DecidableEq

/-- What the client answered. -/
inductive Reply where
  | tests (ts : List RemoteTest)
  | hosts (hs : List RemoteHost)
  | host (created : Option CreatedHost)
  | value (v : JVal)
  | rejected (e : Rejection)
deriving DecidableEq

/-- A client call together with its reply. -/
structure Exchange where
  call : Call
  reply : Reply
deriving DecidableEq

/-- The abstract API client, a state machine over the state `σ` of the
remote service.  `createHost` answers `none` for a falsy response body. -/
structure Client (σ : Type) where
  listTests : σ → Except Rejection (List RemoteTest) × σ
  updateTest : JVal → Payload → σ → Except Rejection JVal × σ
  createTest : Payload → σ → Except Rejection JVal × σ
  deleteTest : JVal → σ → Except Rejection JVal × σ
  listHosts : σ → Except Rejection (List RemoteHost) × σ
  createHost : HostSpec → σ → Except Rejection (Option CreatedHost) × σ

/-- The severity of a console line. -/
inductive Level where
  | log | warn | error
deriving DecidableEq

/-- The lines `pushCommand` writes to the console, by content. -/
inductive Report where
  | plan (update create delete : Nat)
  | dryRun
  | debugUpdatePayload (name : String) (payload : Payload)
  | debugRetryBasePayload (name : String) (payload : Payload)
  | debugCreatePayload (name : String) (payload : Payload)
  | debugRetryCreateBasePayload (name : String) (payload : Payload)
  | updated (name : String) (id : JVal)
  | updatedBaseOnly (name : String) (id : JVal)
  | baseUpdateFailed (name : String) (err : Failure)
  | updateFailed (name : String) (err : Failure)
  | skippingCreate (name : String)
  | created (name : String) (res : JVal)
  | createdBaseOnly (name : String) (res : JVal)
  | baseCreateFailed (name : String) (err : Failure)
  | createFailed (name : String) (err : Failure)
  | deleted (name : String) (id : JVal)
  | skippingDeletion (count : Nat)
deriving DecidableEq

/-- The console method each line is written with. -/
def Report.level : Report → Level
  | .updatedBaseOnly _ _ => .warn
  | .skippingCreate _ => .warn
  | .createdBaseOnly _ _ => .warn
  | .skippingDeletion _ => .warn
  | .baseUpdateFailed _ _ => .error
  | .updateFailed _ _ => .error
  | .baseCreateFailed _ _ => .error
  | .createFailed _ _ => .error
  | _ => .log

/-- The state threaded through one run of `pushCommand`. -/
structure Run (σ : Type) where
  /-- The state of the remote service. -/
  remote : σ
  /-- The variable `hosts`, the host cache of the run. -/
  hosts : List RemoteHost := []
  /-- The client calls made so far, oldest first. -/
  calls : List Exchange := []
  /-- The console lines written so far, oldest first. -/
  console : List Report := []

/-- An effectful computation: it may throw, and it always leaves a state. -/
def Eff (σ α : Type) : Type := Run σ → Except Failure α × Run σ

instance {ε α : Type} [DecidableEq ε] [DecidableEq α] : DecidableEq (Except ε α) :=
  fun a b => match a, b with
    | .ok x, .ok y =>
      if h : x = y then isTrue (by rw [h]) else isFalse (fun h2 => h (Except.ok.inj h2))
    | .error x, .error y =>
      if h : x = y then isTrue (by rw [h]) else isFalse (fun h2 => h (Except.error.inj h2))
    | .ok _, .error _ => isFalse (fun h => by cases h)
    | .error _, .ok _ => isFalse (fun h => by cases h)

/-- Return a value. -/
def Eff.ret {σ α : Type} (a : α) : Eff σ α := fun w => (.ok a, w)

/-- Sequence two computations; a throw skips the second. -/
def Eff.andThen {σ α β : Type} (m : Eff σ α) (f : α → Eff σ β) : Eff σ β := fun w =>
  match m w with
  | (.ok a, w1) => f a w1
  | (.error e, w1) => (.error e, w1)

instance {σ : Type} : Monad (Eff σ) where
  pure := Eff.ret
  bind := Eff.andThen

/-- The statement `throw e`. -/
def Eff.raise {σ α : Type} (e : Failure) : Eff σ α := fun w => (.error e, w)

/-- A `try` block: the outcome of `m` as a value. -/
def Eff.attempt {σ α : Type} (m : Eff σ α) : Eff σ (Except Failure α) := fun w =>
  match m w with
  | (r, w1) => (.ok r, w1)

/-- Write one console line. -/
def say {σ : Type} (r : Report) : Eff σ Unit := fun w =>
  (.ok (), { w with console := w.console ++ [r] })

/-- Read the variable `hosts`. -/
def getHosts {σ : Type} : Eff σ (List RemoteHost) := fun w => (.ok w.hosts, w)

/-- Assign the variable `hosts`. -/
def setHosts {σ : Type} (hs : List RemoteHost) : Eff σ Unit := fun w =>
  (.ok (), { w with hosts := hs })

/-- Perform one client call and record it with its reply. -/
def perform {σ α : Type} (call : Call) (reply : α → Reply)
    (op : σ → Except Rejection α × σ) : Eff σ α := fun w =>
  match op w.remote with
  | (.ok a, s) => (.ok a, { w with remote := s, calls := w.calls ++ [⟨call, reply a⟩] })
  | (.error e, s) =>
    (.error (.rejected e), { w with remote := s, calls := w.calls ++ [⟨call, .rejected e⟩] })

/-- The test `err?.response?.status === 400`. -/
def Failure.isStatus400 : Failure → Bool
  | .rejected e => e.status == some 400
  | _ => false

/-! ## The host resolver -/

/-- The function `parseHostString(hostStr)`. -/
def parseHostString (env : Builtins) (hostStr : JVal) : Option HostSpec :=
  match hostStr with
  | .str s =>
    if s = "" then none
    else match env.newURL s with
      | none => none
      | some u =>
        let protocol := String.mk (u.protocol.data.erase ':')
        let url := u.hostname
        let port : JSNum :=
          if u.port != "" then stringToNumber env u.port
          else if protocol == "https" then 443 else 80
        if protocol == "" || url == "" || !port.truthy then none
        else some { protocol := protocol, url := url, port := port }
  | _ => none

/-- The predicate of `hosts.find` in `findOrCreateHostId`. -/
def hostMatches (env : Builtins) (parsed : HostSpec) (h : RemoteHost) : Bool :=
  h.protocol.toStr env == parsed.protocol && h.url.toStr env == parsed.url &&
    (h.port.toNumber env).strictEq parsed.port

/-- The value `(created && (created.id ?? created.host_id)) || undefined`. -/
def createdHostId (created : Option CreatedHost) : JVal :=
  match created with
  | none => .undefined
  | some c =>
    let v := if c.id = .null ∨ c.id = .undefined then c.host_id else c.id
    if v.truthy then v else .undefined

/-- The closure `findOrCreateHostId(hostStr)` of `pushCommand`. -/
def findOrCreateHostId {σ : Type} (env : Builtins) (client : Client σ) (hostStr : JVal) :
    Eff σ JVal :=
  if !hostStr.truthy then pure .undefined
  else match parseHostString env hostStr with
    | none => pure .undefined
    | some parsed => do
      let hosts ← getHosts
      match hosts.find? (hostMatches env parsed) with
      | some found => pure found.id
      | none => do
        let created ← perform (.createHost parsed) .host (client.createHost parsed)
        let refreshed ← Eff.attempt (perform .listHosts .hosts client.listHosts)
        (match refreshed with
          | .ok hs => setHosts hs
          | .error _ => pure ())
        pure (createdHostId created)

/-- Lines 107 to 117 of `createTestCommand` in `create.js`, whose
`parseHostString` is that of `push.js` word for word: the `host` written to
`config.json`, or the message of the error thrown for a host string that does
not parse. -/
def createTestCommandHost (env : Builtins) (finalHost : JVal) : Except String String :=
  match parseHostString env finalHost with
  | none => .error "Host must be protocol://url:port"
  | some parsed =>
    .ok (parsed.protocol ++ "://" ++ parsed.url ++ ":" ++ env.numberToString parsed.port)

/-- The host string `protocol://host`, or `protocol://host:port` with the
port in decimal. -/
def hostString (protocol host : String) (port : Option Nat) : String :=
  protocol ++ "://" ++ host ++
    (match port with
      | none => ""
      | some p => ":" ++ toString p)

/-- The port the code takes when `new URL` reports none. -/
def defaultPort (protocol : String) : Nat :=
  if protocol = "https" then 443 else 80

/-- Modelled from the spec: what `new URL`, a built-in of the runtime, reports
for the host string `protocol://host` or `protocol://host:port` of an `http`
or `https` host, as the URL standard has it: the scheme followed by a colon,
the host, and the port in decimal, or the empty string when no port is
written or the port written is the default of the scheme (80 for `http`, 443
for `https`). -/
def standardURL (protocol host : String) (port : Option Nat) : URLRecord :=
  { protocol := protocol ++ ":"
    hostname := host
    port := match port with
      | none => ""
      | some p => if p = defaultPort protocol then "" else toString p }

/-! ## The plan executor -/

/-- The options of `pushCommand`, with the defaults of its signature. -/
structure Options where
  rootDir : String
  allowCreate : Bool
  allowDelete : Bool
  dryRun : Bool := true
  tryExtended : Bool := true
  verbose : Bool := false

/-- Lines 143 to 149: the update payload with its `host_id`. -/
def updatePayload {σ : Type} (env : Builtins) (client : Client σ) (opts : Options)
    (remote : Option RemoteTest) (loc : LocalTest) : Eff σ Payload :=
  let built := buildPayloadFromLocal env loc opts.tryExtended remote true
  if loc.config.host.truthy then do
    let hostId ← findOrCreateHostId env client loc.config.host
    pure { built with host_id := hostId }
  else match remote with
    | some r => pure (if r.host_id.truthy then { built with host_id := r.host_id } else built)
    | none => pure built

/-- Lines 150 to 173: the `updateTest` call and its retry with base fields. -/
def sendUpdate {σ : Type} (env : Builtins) (client : Client σ) (opts : Options)
    (remote : Option RemoteTest) (loc : LocalTest) (withExtended : Payload) : Eff σ Unit := do
  (if opts.verbose then say (.debugUpdatePayload loc.name withExtended) else pure ())
  let first ← Eff.attempt (match remote with
    | some r => do
      let _ ← perform (.updateTest r.id withExtended) .value (client.updateTest r.id withExtended)
      say (.updated loc.name r.id)
    | none => Eff.raise .typeError)
  match first with
  | .ok _ => pure ()
  | .error err =>
    if opts.tryExtended && err.isStatus400 then do
      (if opts.verbose then
        say (.debugRetryBasePayload loc.name (buildPayloadFromLocal env loc false remote false))
        else pure ())
      let second ← Eff.attempt (match remote with
        | some r => do
          let _ ← perform (.updateTest r.id (buildPayloadFromLocal env loc false remote false))
            .value (client.updateTest r.id (buildPayloadFromLocal env loc false remote false))
          say (.updatedBaseOnly loc.name r.id)
        | none => Eff.raise .typeError)
      match second with
      | .ok _ => pure ()
      | .error e2 => do
        say (.baseUpdateFailed loc.name e2)
        Eff.raise e2
    else do
      say (.updateFailed loc.name err)
      Eff.raise err

/-- The body of the loop `for (const local of toUpdate)`. -/
def updateItem {σ : Type} (env : Builtins) (client : Client σ) (opts : Options)
    (remoteByName : List (String × RemoteTest)) (loc : LocalTest) : Eff σ Unit := do
  let withExtended ← updatePayload env client opts (mapGet remoteByName loc.name) loc
  sendUpdate env client opts (mapGet remoteByName loc.name) loc withExtended

/-- The loop `for (const local of toUpdate)`. -/
def updatePhase {σ : Type} (env : Builtins) (client : Client σ) (opts : Options)
    (remoteByName : List (String × RemoteTest)) : List LocalTest → Eff σ Unit
  | [] => pure ()
  | loc :: rest => do
    updateItem env client opts remoteByName loc
    updatePhase env client opts remoteByName rest

/-- Lines 186 to 189: the create payload with its `host_id`. -/
def createPayload {σ : Type} (env : Builtins) (client : Client σ) (opts : Options)
    (loc : LocalTest) : Eff σ Payload :=
  let built := buildPayloadFromLocal env loc opts.tryExtended none true
  if loc.config.host.truthy then do
    let hostId ← findOrCreateHostId env client loc.config.host
    pure { built with host_id := hostId }
  else pure built

/-- Lines 190 to 213: the `createTest` call and its retry with base fields. -/
def sendCreate {σ : Type} (env : Builtins) (client : Client σ) (opts : Options)
    (loc : LocalTest) (withExtended : Payload) : Eff σ Unit := do
  (if opts.verbose then say (.debugCreatePayload loc.name withExtended) else pure ())
  let first ← Eff.attempt (do
    let res ← perform (.createTest withExtended) .value (client.createTest withExtended)
    say (.created loc.name res))
  match first with
  | .ok _ => pure ()
  | .error err =>
    if opts.tryExtended && err.isStatus400 then do
      (if opts.verbose then
        say (.debugRetryCreateBasePayload loc.name (buildPayloadFromLocal env loc false none true))
        else pure ())
      let second ← Eff.attempt (do
        let res ← perform (.createTest (buildPayloadFromLocal env loc false none true)) .value
          (client.createTest (buildPayloadFromLocal env loc false none true))
        say (.createdBaseOnly loc.name res))
      match second with
      | .ok _ => pure ()
      | .error e2 => do
        say (.baseCreateFailed loc.name e2)
        Eff.raise e2
    else do
      say (.createFailed loc.name err)
      Eff.raise err

/-- The body of the loop `for (const local of toCreate)`. -/
def createItem {σ : Type} (env : Builtins) (client : Client σ) (opts : Options)
    (loc : LocalTest) : Eff σ Unit :=
  if !opts.allowCreate then say (.skippingCreate loc.name)
  else if !loc.config.region.truthy then
    Eff.raise (.createRequiresRegion opts.rootDir loc.folder "config.json")
  else do
    let withExtended ← createPayload env client opts loc
    sendCreate env client opts loc withExtended

/-- The loop `for (const local of toCreate)`. -/
def createPhase {σ : Type} (env : Builtins) (client : Client σ) (opts : Options) :
    List LocalTest → Eff σ Unit
  | [] => pure ()
  | loc :: rest => do
    createItem env client opts loc
    createPhase env client opts rest

/-- The loop `for (const name of toDelete)`. -/
def deletePhase {σ : Type} (client : Client σ)
    (remoteByName : List (String × RemoteTest)) : List String → Eff σ Unit
  | [] => pure ()
  | name :: rest => do
    (match mapGet remoteByName name with
      | none => pure ()
      | some r => do
        let _ ← perform (.deleteTest r.id) .value (client.deleteTest r.id)
        say (.deleted name r.id))
    deletePhase client remoteByName rest

/-- Lines 139 to 226: the three phases, updates, creates, deletes. -/
def applyPlan {σ : Type} (env : Builtins) (client : Client σ) (opts : Options)
    (plan : Plan) : Eff σ Unit := do
  updatePhase env client opts plan.remoteByName plan.toUpdate
  createPhase env client opts plan.toCreate
  if opts.allowDelete then
    deletePhase client plan.remoteByName plan.toDelete
  else if plan.toDelete.length > 0 then
    say (.skippingDeletion plan.toDelete.length)
  else pure ()

/-- The function `pushCommand`.  The outcome of `loadLocalTestsFromDir(rootDir)`
is the argument `loaded`. -/
def pushCommand {σ : Type} (env : Builtins) (client : Client σ) (opts : Options)
    (loaded : Except String (List LocalTest)) : Eff σ Unit := do
  let localTests ← (match loaded with
    | .ok ts => pure ts
    | .error msg => Eff.raise (.loadFailed msg) : Eff σ (List LocalTest))
  let remoteAll ← perform .listTests .tests client.listTests
  let plan := pushPlan localTests remoteAll
  say (.plan plan.toUpdate.length plan.toCreate.length plan.toDelete.length)
  if opts.dryRun then
    say .dryRun
  else do
    let preload ← Eff.attempt (perform .listHosts .hosts client.listHosts)
    setHosts (match preload with
      | .ok hs => hs
      | .error _ => [])
    applyPlan env client opts plan

/-- The state of a run when the three phases start: `listTests` has answered
`remoteAll` and left the service in `s`, the plan line is written and the
host list is preloaded (empty when `listHosts` is rejected). -/
def afterPreload {σ : Type} (client : Client σ) (localTests : List LocalTest)
    (remoteAll : List RemoteTest) (s : σ) (w : Run σ) : Run σ :=
  match client.listHosts s with
  | (.ok hs, s2) =>
    { remote := s2, hosts := hs,
      calls := w.calls ++ [⟨.listTests, .tests remoteAll⟩] ++ [⟨.listHosts, .hosts hs⟩],
      console := w.console ++ [.plan (pushPlan localTests remoteAll).toUpdate.length
        (pushPlan localTests remoteAll).toCreate.length
        (pushPlan localTests remoteAll).toDelete.length] }
  | (.error e, s2) =>
    { remote := s2, hosts := [],
      calls := w.calls ++ [⟨.listTests, .tests remoteAll⟩] ++ [⟨.listHosts, .rejected e⟩],
      console := w.console ++ [.plan (pushPlan localTests remoteAll).toUpdate.length
        (pushPlan localTests remoteAll).toCreate.length
        (pushPlan localTests remoteAll).toDelete.length] }

/-! ## Observing a run -/

/-- The computation `m` only adds client calls, and every call it adds
satisfies `q`. -/
structure Emits {σ α : Type} (q : Exchange → Prop) (m : Eff σ α) : Prop where
  out : ∀ w : Run σ, ∃ new, (m w).2.calls = w.calls ++ new ∧ ∀ x ∈ new, q x

/-- The computation `m` writes nothing to the console. -/
structure Quiet {σ α : Type} (m : Eff σ α) : Prop where
  out : ∀ w : Run σ, (m w).2.console = w.console

/-- The call is one of the two host calls. -/
def Call.isHostCall : Call → Bool
  | .listHosts => true
  | .createHost _ => true
  | _ => false

/-- The call is `updateTest`. -/
def Call.isUpdateTest : Call → Bool
  | .updateTest _ _ => true
  | _ => false

/-- The call is `createTest`. -/
def Call.isCreateTest : Call → Bool
  | .createTest _ => true
  | _ => false

/-- The call is `deleteTest`. -/
def Call.isDeleteTest : Call → Bool
  | .deleteTest _ => true
  | _ => false

/-- The call is `createHost`. -/
def Call.isCreateHost : Call → Bool
  | .createHost _ => true
  | _ => false

/-- The call changes the remote service. -/
def Call.isMutation (c : Call) : Bool :=
  c.isUpdateTest || c.isCreateTest || c.isDeleteTest || c.isCreateHost

/-- The reply is a rejection. -/
def Reply.isRejected : Reply → Bool
  | .rejected _ => true
  | _ => false

/-- The ids passed to `deleteTest`, in call order. -/
def deletedIds (calls : List Exchange) : List JVal :=
  calls.filterMap (fun x => match x.call with
    | .deleteTest id => some id
    | _ => none)

/-- The host cache after one exchange: an answered `listHosts` replaces it. -/
def cacheAfter (cache : List RemoteHost) (x : Exchange) : List RemoteHost :=
  match x.call, x.reply with
  | .listHosts, .hosts hs => hs
  | _, _ => cache

/-- The host cache after a sequence of exchanges. -/
def cacheFrom (cache : List RemoteHost) (tr : List Exchange) : List RemoteHost :=
  tr.foldl cacheAfter cache

/-- The tuples passed to `createHost`, in call order. -/
def createdSpecs (tr : List Exchange) : List HostSpec :=
  tr.filterMap (fun x => match x.call with
    | .createHost spec => some spec
    | _ => none)

/-- Every `createHost` of the trace is for a tuple that no host of the cache
matches at the time of the call. -/
def respectsCache (env : Builtins) : List RemoteHost → List Exchange → Prop
  | _, [] => True
  | cache, x :: rest =>
    (∀ spec, x.call = .createHost spec → cache.find? (hostMatches env spec) = none) ∧
      respectsCache env (cacheAfter cache x) rest

/-- Every `listHosts` of the trace is answered, with a list that has a host
matching each tuple of `seen` and each tuple created earlier in the trace. -/
def listsCreated (env : Builtins) : List HostSpec → List Exchange → Prop
  | _, [] => True
  | seen, x :: rest =>
    (x.call = .listHosts → ∀ spec ∈ seen,
      ∃ hs, x.reply = .hosts hs ∧ hs.any (hostMatches env spec) = true) ∧
      listsCreated env (seen ++ createdSpecs [x]) rest

/-- The computation `m` leaves the host cache as it is. -/
structure KeepsHosts {σ α : Type} (m : Eff σ α) : Prop where
  out : ∀ w : Run σ, (m w).2.hosts = w.hosts

/-- The computation `m` keeps the cache equal to the reply of the latest
answered `listHosts`, calls `createHost` only for tuples the cache does not
match, and, as long as every `listHosts` lists what was created, creates no
tuple twice and ends with a cache that matches every tuple known so far. -/
structure Disciplined {σ α : Type} (env : Builtins) (m : Eff σ α) : Prop where
  out : ∀ w : Run σ, ∃ new,
    (m w).2.calls = w.calls ++ new ∧
    (m w).2.hosts = cacheFrom w.hosts new ∧
    respectsCache env w.hosts new ∧
    ∀ seen, (∀ spec ∈ seen, w.hosts.any (hostMatches env spec) = true) →
      listsCreated env seen new →
      (createdSpecs new).Nodup ∧ (∀ spec ∈ createdSpecs new, spec ∉ seen) ∧
      ((∃ a, (m w).1 = .ok a) →
        ∀ spec ∈ seen ++ createdSpecs new, (m w).2.hosts.any (hostMatches env spec) = true)

/-- The exchange `x` may come before the exchange `y` in a run: `y` is no
`updateTest` made after a `createTest` or a `deleteTest`, and no `createTest`
made after a `deleteTest`. -/
def phaseOrdered (x y : Exchange) : Bool :=
  !(y.call.isUpdateTest && (x.call.isCreateTest || x.call.isDeleteTest)) &&
    !(y.call.isCreateTest && x.call.isDeleteTest)

/-- The exchange is a rejected `updateTest` or a rejected `createTest`. -/
def Exchange.isRejectedTest (x : Exchange) : Bool :=
  x.reply.isRejected && (x.call.isUpdateTest || x.call.isCreateTest)

/-- The reply is a rejection whose status is 400. -/
def Reply.isStatus400 : Reply → Bool
  | .rejected e => e.status == some 400
  | _ => false

/-- The exchanges `pre` end with a rejected `updateTest` or `createTest`: a
test call made right after them is a retry with base fields. -/
def endsRejected (pre : List Exchange) : Bool :=
  match pre.getLast? with
  | some y => y.isRejectedTest
  | none => false

/-- The exchange `x`, made right after the exchanges `pre`, is a planned
operation that failed: a rejected `deleteTest`, a rejected `createHost`, or a
rejected `updateTest` or `createTest` that gets no retry, because
`tryExtended` is off, or the status is not 400, or the call is a retry
itself. -/
def failedOperation (opts : Options) (pre : List Exchange) (x : Exchange) : Bool :=
  x.reply.isRejected &&
    (x.call.isDeleteTest || x.call.isCreateHost ||
      ((x.call.isUpdateTest || x.call.isCreateTest) &&
        (!opts.tryExtended || !x.reply.isStatus400 || endsRejected pre)))

/-- The computation `m` stops at a failed operation: a failed operation among
the calls it adds is the last of them and `m` throws its rejection; and when
`m` returns, its calls do not end with a rejected test call. -/
structure FailFast {σ α : Type} (opts : Options) (m : Eff σ α) : Prop where
  out : ∀ w : Run σ, ∃ new,
    (m w).2.calls = w.calls ++ new ∧
    (∀ pre x post e, new = pre ++ x :: post → x.reply = .rejected e →
      failedOperation opts pre x = true →
      post = [] ∧ (m w).1 = .error (.rejected e)) ∧
    ((∃ a, (m w).1 = .ok a) → endsRejected new = false)

/-! ## The remote inventory after a push -/

/-- The ids a completed delete phase passes to `deleteTest`. -/
def plannedDeletes (plan : Plan) : List JVal :=
  plan.toDelete.filterMap (fun n => (mapGet plan.remoteByName n).map (fun r => r.id))

/-- The first payload a run sends for a local item: what
`buildPayloadFromLocal` builds against the matched remote entity, with the
`host_id` the run attaches to it. -/
def sentPayload (env : Builtins) (opts : Options) (plan : Plan) (hostId : LocalTest → JVal)
    (t : LocalTest) : Payload :=
  { buildPayloadFromLocal env t opts.tryExtended (mapGet plan.remoteByName t.name) true with
    host_id := hostId t }

/-- Modelled from the spec: the effect of an accepted `updateTest(id, payload)`
on the entity with that id, which the remote service (no part of the
repository) carries out: the entity takes the fields the payload has and
keeps the others. -/
def updatedEntity (p : Payload) (r : RemoteTest) : RemoteTest :=
  { r with
    name := match p.name with
      | some n => some n
      | none => r.name
    region := match p.region with
      | some x => some x
      | none => r.region
    host_id := if p.host_id = .undefined then r.host_id else p.host_id }

/-- Modelled from the spec: the entity an accepted `createTest(payload)` adds
to the remote inventory: a load test with the fields of the payload and an id
of the service's choosing. -/
def createdEntity (id : JVal) (p : Payload) : RemoteTest :=
  { id := id, name := p.name, test_type := some "load", region := p.region,
    host_id := p.host_id }

/-- Modelled from the spec: what an accepted `updateTest(id, payload)` does to
one entity of the inventory: the entity with that id is updated, any other is
left as it is. -/
def applyUpdate (id : JVal) (p : Payload) (r : RemoteTest) : RemoteTest :=
  if r.id = id then updatedEntity p r else r

/-- The entity `r` after the update phase: the updates of the plan applied to
it in the order of the loop, each with the id of the matched remote entity. -/
def afterUpdates (env : Builtins) (opts : Options) (plan : Plan) (hostId : LocalTest → JVal)
    (r : RemoteTest) : RemoteTest :=
  plan.toUpdate.foldl
    (fun acc t =>
      match mapGet plan.remoteByName t.name with
      | some m => applyUpdate m.id (sentPayload env opts plan hostId t) acc
      | none => acc) r

/-- Modelled from the spec: the remote inventory after a push with creation
and deletion enabled has applied every planned operation, the remote service
doing what each accepted call asks: `deleteTest(id)` removes the entity with
that id, `updateTest` and `createTest` act as `updatedEntity` and
`createdEntity` say.  `hostId` gives the `host_id` sent for each local item
and `newId` the id the service gives each created test. -/
def resultingInventory (env : Builtins) (opts : Options) (hostId newId : LocalTest → JVal)
    (localTests : List LocalTest) (remoteAll : List RemoteTest) : List RemoteTest :=
  ((remoteAll.filter
      (fun r => !(plannedDeletes (pushPlan localTests remoteAll)).contains r.id)).map
    (afterUpdates env opts (pushPlan localTests remoteAll) hostId)) ++
  (pushPlan localTests remoteAll).toCreate.map
    (fun t => createdEntity (newId t)
      (sentPayload env opts (pushPlan localTests remoteAll) hostId t))

/-! ## Sample inputs -/

/-- A local test folder `checkout` without a region. -/
def localCheckout : LocalTest :=
  { folder := "checkout", name := "checkout", config := { users := .str "", rate := .num 7 },
    locustfile := "from locust import HttpUser" }

/-- A local test folder `search` with a region. -/
def localSearch : LocalTest :=
  { folder := "search", name := "search", config := { users := .num 10, region := .str "eu-west" },
    locustfile := "from locust import HttpUser" }

/-- A remote load test named `checkout`. -/
def remoteCheckout : RemoteTest :=
  { id := .num 11, name := some "checkout", region := some "us-east" }

/-- A remote load test named `legacy`, with no local folder. -/
def remoteLegacy : RemoteTest :=
  { id := .num 12, name := some "legacy", test_type := some "load" }

/-- A client that replays a script of replies, one per call; a reply of the
wrong kind, or the end of the script, stands for an empty success. -/
def scriptedClient : Client (List Reply) where
  listTests := fun s => match s with
    | .tests ts :: rest => (.ok ts, rest)
    | .rejected e :: rest => (.error e, rest)
    | _ :: rest => (.ok [], rest)
    | [] => (.ok [], [])
  updateTest := fun _ _ s => match s with
    | .value v :: rest => (.ok v, rest)
    | .rejected e :: rest => (.error e, rest)
    | _ :: rest => (.ok .null, rest)
    | [] => (.ok .null, [])
  createTest := fun _ s => match s with
    | .value v :: rest => (.ok v, rest)
    | .rejected e :: rest => (.error e, rest)
    | _ :: rest => (.ok .null, rest)
    | [] => (.ok .null, [])
  deleteTest := fun _ s => match s with
    | .value v :: rest => (.ok v, rest)
    | .rejected e :: rest => (.error e, rest)
    | _ :: rest => (.ok .null, rest)
    | [] => (.ok .null, [])
  listHosts := fun s => match s with
    | .hosts hs :: rest => (.ok hs, rest)
    | .rejected e :: rest => (.error e, rest)
    | _ :: rest => (.ok [], rest)
    | [] => (.ok [], [])
  createHost := fun _ s => match s with
    | .host c :: rest => (.ok c, rest)
    | .rejected e :: rest => (.error e, rest)
    | _ :: rest => (.ok none, rest)
    | [] => (.ok none, [])

/-- The start of a run against `scriptedClient`. -/
def startOf (script : List Reply) : Run (List Reply) :=
  { remote := script }

/-- A runtime tabulated on the strings used by the sample inputs: the decimal
literals `8080` and `0`, the numbers `7` and `10`, and a few host strings.
`new URL` reports no port when the port written is the default of the scheme
(443 for `https`, 21 for `ftp`), and refuses `example.com` for want of a
scheme.  It is to be read on these inputs only. -/
def tableRuntime : Builtins where
  strNumericLiteral := fun s => if s = "8080" then 8080 else if s = "0" then 0 else .nan
  numberToString := fun n => if n = 7 then "7" else if n = 10 then "10" else "NaN"
  newURL := fun s =>
    if s = "https://example.com:443" then some ⟨"https:", "example.com", ""⟩
    else if s = "http://example.com:8080" then some ⟨"http:", "example.com", "8080"⟩
    else if s = "http://example.com" then some ⟨"http:", "example.com", ""⟩
    else if s = "http://example.com:0" then some ⟨"http:", "example.com", "0"⟩
    else if s = "ftp://example.com:21" then some ⟨"ftp:", "example.com", ""⟩
    else if s = "example.com" then none
    else none

/-- A local test folder whose `users` is a blank string. -/
def localBlankUsers : LocalTest :=
  { folder := "blank", name := "blank", config := { users := .str " ", rate := .num 7 },
    locustfile := "" }

/-- A local test folder whose `users` is `false`. -/
def localFalseUsers : LocalTest :=
  { folder := "flag", name := "flag", config := { users := .bool false, rate := .num 7 },
    locustfile := "" }

/-- Options of a run that applies everything: no dry run, creation and
deletion allowed. -/
def applyAll : Options :=
  { rootDir := "tests", allowCreate := true, allowDelete := true, dryRun := false }

/-- A run that updates `checkout` and deletes `legacy`; every call succeeds. -/
def updateAndDeleteRun : Except Failure Unit × Run (List Reply) :=
  pushCommand tableRuntime scriptedClient applyAll (.ok [localCheckout])
    (startOf [.tests [remoteCheckout, remoteLegacy], .hosts [], .value .null, .value .null])

/-- A run whose only local folder, `checkout`, has no region and no remote
counterpart, while the remote test `legacy` has no local folder. -/
def missingRegionRun : Except Failure Unit × Run (List Reply) :=
  pushCommand tableRuntime scriptedClient applyAll (.ok [localCheckout])
    (startOf [.tests [remoteLegacy], .hosts []])

/-- The update of `checkout` against a service that rejects the first
`updateTest` with status 400 and accepts the second. -/
def degradedUpdate : Except Failure Unit × Run (List Reply) :=
  updateItem tableRuntime scriptedClient applyAll [("checkout", remoteCheckout)] localCheckout
    (startOf [.rejected { status := some 400 }, .value .null])

/-- A local test folder `checkout` whose host string has no scheme. -/
def localBadHost : LocalTest :=
  { folder := "checkout", name := "checkout",
    config := { users := .num 10, host := .str "example.com" }, locustfile := "" }

/-- A remote load test named `checkout` that points at host `5`. -/
def remoteWithHost : RemoteTest :=
  { id := .num 11, name := some "checkout", region := some "us-east", host_id := .num 5 }

/-- The update of `checkout` from a folder whose host string does not parse. -/
def badHostUpdate : Except Failure Unit × Run (List Reply) :=
  updateItem tableRuntime scriptedClient applyAll [("checkout", remoteWithHost)] localBadHost
    (startOf [.value .null])

/-- A local test folder `api` aimed at `http://example.com:8080`. -/
def localApi : LocalTest :=
  { folder := "api", name := "api", config := { host := .str "http://example.com:8080" },
    locustfile := "" }

/-- A local test folder `web` aimed at the same host. -/
def localWeb : LocalTest :=
  { folder := "web", name := "web", config := { host := .str "http://example.com:8080" },
    locustfile := "" }

/-- The remote load test `api`. -/
def remoteApi : RemoteTest := { id := .num 21, name := some "api" }

/-- The remote load test `web`. -/
def remoteWeb : RemoteTest := { id := .num 22, name := some "web" }

/-- The tuple both folders parse to. -/
def exampleSpec : HostSpec := { protocol := "http", url := "example.com", port := 8080 }

/-- The host `example.com:8080` as the service lists it once created. -/
def exampleHost : RemoteHost :=
  { id := .num 1, protocol := .str "http", url := .str "example.com", port := .num 8080 }

/-- A push of `api` and `web` in which no host exists at first and every
refresh of the host list after a `createHost` is rejected. -/
@[irreducible] def refreshRejectedRun : Except Failure Unit × Run (List Reply) :=
  pushCommand tableRuntime scriptedClient applyAll (.ok [localApi, localWeb])
    (startOf [.tests [remoteApi, remoteWeb], .hosts [],
      .host (some { id := .num 1 }), .rejected { status := some 503 }, .value .null,
      .host (some { id := .num 2 }), .rejected { status := some 503 }, .value .null])

/-- The same push against a service whose host list stays empty. -/
@[irreducible] def refreshStaleRun : Except Failure Unit × Run (List Reply) :=
  pushCommand tableRuntime scriptedClient applyAll (.ok [localApi, localWeb])
    (startOf [.tests [remoteApi, remoteWeb], .hosts [],
      .host (some { id := .num 1 }), .hosts [], .value .null,
      .host (some { id := .num 2 }), .hosts [], .value .null])

/-- The same push against a service that lists the host once it is created. -/
@[irreducible] def refreshListedRun : Except Failure Unit × Run (List Reply) :=
  pushCommand tableRuntime scriptedClient applyAll (.ok [localApi, localWeb])
    (startOf [.tests [remoteApi, remoteWeb], .hosts [],
      .host (some { id := .num 1 }), .hosts [exampleHost], .value .null, .value .null])

/-- A remote load test named `search`. -/
def remoteSearch : RemoteTest := { id := .num 13, name := some "search" }

/-- A push of `checkout` and `search`, both matched remotely, with `legacy`
to delete, against a service that rejects the first `updateTest` with status
500. -/
@[irreducible] def abortedRun : Except Failure Unit × Run (List Reply) :=
  pushCommand tableRuntime scriptedClient applyAll (.ok [localCheckout, localSearch])
    (startOf [.tests [remoteCheckout, remoteSearch, remoteLegacy], .hosts [],
      .rejected { status := some 500 }])

/-- A push that updates `checkout`, creates `search` and deletes `legacy`;
every call succeeds. -/
@[irreducible] def threePhaseRun : Except Failure Unit × Run (List Reply) :=
  pushCommand tableRuntime scriptedClient applyAll (.ok [localCheckout, localSearch])
    (startOf [.tests [remoteCheckout, remoteLegacy], .hosts [], .value .null, .value .null,
      .value .null])

/-- The update of `checkout`, whose folder names no host, matched with a
remote test that points at host `5`; the first `updateTest` is rejected with
status 400 and the second accepted. -/
def degradedHostUpdate : Except Failure Unit × Run (List Reply) :=
  updateItem tableRuntime scriptedClient applyAll [("checkout", remoteWithHost)] localCheckout
    (startOf [.rejected { status := some 400 }, .value .null])

/-- A second remote load test named `legacy`. -/
def remoteLegacyTwin : RemoteTest := { id := .num 14, name := some "legacy" }

/-- A push of `search` against a remote inventory of two tests, both named
`legacy`; every call succeeds. -/
@[irreducible] def twinRun : Except Failure Unit × Run (List Reply) :=
  pushCommand tableRuntime scriptedClient applyAll (.ok [localSearch])
    (startOf [.tests [remoteLegacy, remoteLegacyTwin], .hosts [], .value .null, .value .null])

/-- A push whose first `updateTest` is rejected with status 400 and whose
retry with base fields is rejected with status 503. -/
@[irreducible] def failedRetryRun : Except Failure Unit × Run (List Reply) :=
  pushCommand tableRuntime scriptedClient applyAll (.ok [localCheckout, localSearch])
    (startOf [.tests [remoteCheckout, remoteSearch, remoteLegacy], .hosts [],
      .rejected { status := some 400 }, .rejected { status := some 503 }])

/-! ## Maps and sets of the plan -/

theorem mapGet_nil (k : String) : mapGet [] k = none := rfl

theorem mapGet_cons (k0 : String) (v0 : RemoteTest) (rest : List (String × RemoteTest))
    (k : String) :
    mapGet ((k0, v0) :: rest) k = if k0 = k then some v0 else mapGet rest k := by
  unfold mapGet
  rw [List.find?_cons]
  by_cases h : k0 = k
  · have hb : (k0 == k) = true := by simpa using h
    simp only [hb, if_pos h, Option.map_some']
  · have hb : (k0 == k) = false := by simpa using h
    simp only [hb, if_neg h]

theorem mapGet_mapSet (m : List (String × RemoteTest)) (k : String) (v : RemoteTest)
    (k2 : String) :
    mapGet (mapSet m k v) k2 = if k = k2 then some v else mapGet m k2 := by
  induction m with
  | nil => simp only [mapSet, mapGet_cons, mapGet_nil]
  | cons kv rest ih =>
    obtain ⟨k0, v0⟩ := kv
    by_cases h0 : k0 = k
    · subst h0
      simp only [mapSet, if_true, mapGet_cons]
      by_cases h : k0 = k2 <;> simp [h]
    · simp only [mapSet, if_neg h0, mapGet_cons, ih]
      by_cases h2 : k0 = k2
      · have h : ¬ k = k2 := by rw [← h2]; exact fun e => h0 e.symm
        simp [h, h2]
      · simp [h2]

theorem mem_mapSet (m : List (String × RemoteTest)) (k : String) (v : RemoteTest)
    (kv : String × RemoteTest) (h : kv ∈ mapSet m k v) : kv = (k, v) ∨ kv ∈ m := by
  induction m with
  | nil => simpa [mapSet] using h
  | cons kv0 rest ih =>
    obtain ⟨k0, v0⟩ := kv0
    by_cases h0 : k0 = k
    · simp only [mapSet, h0, if_true, List.mem_cons] at h
      rcases h with h | h
      · exact Or.inl h
      · exact Or.inr (List.mem_cons_of_mem _ h)
    · simp only [mapSet, h0, if_false, List.mem_cons] at h
      rcases h with h | h
      · exact Or.inr (by rw [h]; exact List.mem_cons_self _ _)
      · rcases ih h with h | h
        · exact Or.inl h
        · exact Or.inr (List.mem_cons_of_mem _ h)

/-- One step of the loop filling `remoteByName`. -/
theorem mapGet_step (m : List (String × RemoteTest)) (t : RemoteTest) (n : String) :
    mapGet (if !strTruthy t.name then m else mapSet m (t.name.getD "") t) n =
      if t.name = some n ∧ n ≠ "" then some t else mapGet m n := by
  cases hn : t.name with
  | none => simp [strTruthy]
  | some s =>
    by_cases hs : s = ""
    · subst hs
      have : ¬ ("" = n ∧ n ≠ "") := fun ⟨a, b⟩ => b a.symm
      simp [strTruthy, this]
    · by_cases hsn : s = n
      · subst hsn
        simp [strTruthy, hs, mapGet_mapSet]
      · simp [strTruthy, hs, mapGet_mapSet, hsn]

theorem mapGet_fold_some (ts : List RemoteTest) (m : List (String × RemoteTest))
    (n : String) (r : RemoteTest)
    (h : mapGet (ts.foldl
      (fun m t => if !strTruthy t.name then m else mapSet m (t.name.getD "") t) m) n = some r) :
    (r ∈ ts ∧ r.name = some n ∧ n ≠ "") ∨ mapGet m n = some r := by
  induction ts generalizing m with
  | nil => exact Or.inr h
  | cons t rest ih =>
    rw [List.foldl_cons] at h
    rcases ih _ h with h1 | h1
    · exact Or.inl ⟨List.mem_cons_of_mem _ h1.1, h1.2⟩
    · rw [mapGet_step] at h1
      by_cases c : t.name = some n ∧ n ≠ ""
      · rw [if_pos c] at h1
        have e : t = r := Option.some.inj h1
        subst e
        exact Or.inl ⟨List.mem_cons_self _ _, c⟩
      · rw [if_neg c] at h1
        exact Or.inr h1

theorem mapGet_fold_isSome (ts : List RemoteTest) (m : List (String × RemoteTest))
    (n : String)
    (h : (∃ r ∈ ts, r.name = some n ∧ n ≠ "") ∨ (mapGet m n).isSome) :
    (mapGet (ts.foldl
      (fun m t => if !strTruthy t.name then m else mapSet m (t.name.getD "") t) m) n).isSome := by
  induction ts generalizing m with
  | nil =>
    rcases h with ⟨r, hr, _⟩ | h
    · cases hr
    · exact h
  | cons t rest ih =>
    rw [List.foldl_cons]
    apply ih
    by_cases c : t.name = some n ∧ n ≠ ""
    · right
      rw [mapGet_step, if_pos c]; rfl
    · rcases h with ⟨r, hr, hrn⟩ | h
      · rcases List.mem_cons.mp hr with e | hr
        · subst e; exact absurd hrn c
        · exact Or.inl ⟨r, hr, hrn⟩
      · right
        rw [mapGet_step, if_neg c]; exact h

theorem mem_fold_entries (ts : List RemoteTest) (m : List (String × RemoteTest))
    (kv : String × RemoteTest)
    (h : kv ∈ ts.foldl
      (fun m t => if !strTruthy t.name then m else mapSet m (t.name.getD "") t) m) :
    (kv.2 ∈ ts ∧ kv.2.name = some kv.1 ∧ kv.1 ≠ "") ∨ kv ∈ m := by
  induction ts generalizing m with
  | nil => exact Or.inr h
  | cons t rest ih =>
    rw [List.foldl_cons] at h
    rcases ih _ h with h1 | h1
    · exact Or.inl ⟨List.mem_cons_of_mem _ h1.1, h1.2⟩
    · cases hn : t.name with
      | none =>
        simp only [hn, strTruthy, Bool.not_false, if_true] at h1
        exact Or.inr h1
      | some s =>
        by_cases hs : s = ""
        · simp [hn, strTruthy, hs] at h1
          exact Or.inr h1
        · have h3 : kv ∈ mapSet m s t := by simpa [hn, strTruthy, hs] using h1
          rcases mem_mapSet m s t kv h3 with e | h2
          · subst e
            exact Or.inl ⟨List.mem_cons_self _ _, hn, hs⟩
          · exact Or.inr h2

/-- Membership in `remoteByName`, in terms of the remote inventory. -/
theorem mapHas_buildRemoteByName (ts : List RemoteTest) (n : String) :
    mapHas (buildRemoteByName ts) n = true ↔ ∃ r ∈ ts, r.name = some n ∧ n ≠ "" := by
  unfold mapHas buildRemoteByName
  constructor
  · intro h
    obtain ⟨r, hr⟩ := Option.isSome_iff_exists.mp h
    rcases mapGet_fold_some ts [] n r hr with h1 | h1
    · exact ⟨r, h1⟩
    · rw [mapGet_nil] at h1; cases h1
  · intro h
    exact mapGet_fold_isSome ts [] n (Or.inl h)

theorem mem_setAdd_fold (xs acc : List String) (n : String) :
    n ∈ xs.foldl setAdd acc ↔ n ∈ acc ∨ n ∈ xs := by
  induction xs generalizing acc with
  | nil => simp
  | cons x rest ih =>
    rw [List.foldl_cons, ih]
    unfold setAdd
    by_cases c : acc.contains x = true
    · have hx : x ∈ acc := by simpa using c
      rw [if_pos c]
      constructor
      · rintro (h | h)
        · exact Or.inl h
        · exact Or.inr (List.mem_cons_of_mem _ h)
      · rintro (h | h)
        · exact Or.inl h
        · rcases List.mem_cons.mp h with e | h
          · exact Or.inl (e ▸ hx)
          · exact Or.inr h
    · rw [if_neg c]
      simp only [List.mem_append, List.mem_singleton, List.mem_cons]
      tauto

theorem nodup_setAdd_fold (xs acc : List String) (h : acc.Nodup) :
    (xs.foldl setAdd acc).Nodup := by
  induction xs generalizing acc with
  | nil => exact h
  | cons x rest ih =>
    rw [List.foldl_cons]
    apply ih
    unfold setAdd
    by_cases c : acc.contains x = true
    · rw [if_pos c]; exact h
    · rw [if_neg c]
      have hx : x ∉ acc := by simpa using c
      rw [List.nodup_append]
      refine ⟨h, List.nodup_singleton x, ?_⟩
      intro a ha hb
      rw [List.mem_singleton] at hb
      exact hx (hb ▸ ha)

theorem mem_setOf (xs : List String) (n : String) : n ∈ setOf xs ↔ n ∈ xs := by
  unfold setOf
  rw [mem_setAdd_fold]
  simp

theorem nodup_setOf (xs : List String) : (setOf xs).Nodup :=
  nodup_setAdd_fold xs [] List.nodup_nil

/-! ## The reconciliation plan -/

theorem mapHas_plan (localTests : List LocalTest) (remoteAll : List RemoteTest) (n : String) :
    mapHas (pushPlan localTests remoteAll).remoteByName n = true ↔
      ∃ r ∈ remoteAll, isLoad r = true ∧ r.name = some n ∧ n ≠ "" := by
  unfold pushPlan
  simp only [mapHas_buildRemoteByName, List.mem_filter]
  constructor
  · rintro ⟨r, ⟨h1, h2⟩, h3⟩
    exact ⟨r, h1, h2, h3⟩
  · rintro ⟨r, h1, h2, h3⟩
    exact ⟨r, ⟨h1, h2⟩, h3⟩

theorem mapGet_plan (localTests : List LocalTest) (remoteAll : List RemoteTest) (n : String)
    (r : RemoteTest) (h : mapGet (pushPlan localTests remoteAll).remoteByName n = some r) :
    r ∈ remoteAll ∧ isLoad r = true ∧ r.name = some n ∧ n ≠ "" := by
  unfold pushPlan buildRemoteByName at h
  rcases mapGet_fold_some _ [] n r h with h1 | h1
  · obtain ⟨hm, hn, hne⟩ := h1
    rw [List.mem_filter] at hm
    exact ⟨hm.1, hm.2, hn, hne⟩
  · rw [mapGet_nil] at h1; cases h1

/-- C1. With pairwise distinct local names, every local definition is in
exactly one of `toUpdate` and `toCreate`, once: in `toUpdate` iff its name is
the non-empty name of some remote load entity, in `toCreate` otherwise; the
two lists hold nothing but local definitions, and every update item is paired
by `remoteByName` with a remote load entity of that name. -/
theorem pushPlan_partitions_local (localTests : List LocalTest) (remoteAll : List RemoteTest)
    (hdistinct : (localTests.map (fun t => t.name)).Nodup) :
    (∀ t ∈ localTests,
      (t ∈ (pushPlan localTests remoteAll).toUpdate ↔
        ∃ r ∈ remoteAll, isLoad r = true ∧ r.name = some t.name ∧ t.name ≠ "") ∧
      (t ∈ (pushPlan localTests remoteAll).toCreate ↔
        ¬ ∃ r ∈ remoteAll, isLoad r = true ∧ r.name = some t.name ∧ t.name ≠ "") ∧
      ((pushPlan localTests remoteAll).toUpdate ++
        (pushPlan localTests remoteAll).toCreate).count t = 1) ∧
    ((pushPlan localTests remoteAll).toUpdate ++
      (pushPlan localTests remoteAll).toCreate).Perm localTests ∧
    (∀ t, t ∈ (pushPlan localTests remoteAll).toUpdate ∨
        t ∈ (pushPlan localTests remoteAll).toCreate → t ∈ localTests) ∧
    (∀ t, ¬ (t ∈ (pushPlan localTests remoteAll).toUpdate ∧
        t ∈ (pushPlan localTests remoteAll).toCreate)) ∧
    (∀ t ∈ (pushPlan localTests remoteAll).toUpdate,
      ∃ r, mapGet (pushPlan localTests remoteAll).remoteByName t.name = some r ∧
        r ∈ remoteAll ∧ isLoad r = true ∧ r.name = some t.name) := by
  have hU : ∀ t, t ∈ (pushPlan localTests remoteAll).toUpdate ↔
      t ∈ localTests ∧ mapHas (pushPlan localTests remoteAll).remoteByName t.name = true := by
    intro t
    simp only [pushPlan, List.mem_filter]
  have hC : ∀ t, t ∈ (pushPlan localTests remoteAll).toCreate ↔
      t ∈ localTests ∧ ¬ mapHas (pushPlan localTests remoteAll).remoteByName t.name = true := by
    intro t
    simp only [pushPlan, List.mem_filter, Bool.not_eq_true', Bool.not_eq_true]
  have hperm : ((pushPlan localTests remoteAll).toUpdate ++
      (pushPlan localTests remoteAll).toCreate).Perm localTests := by
    simp only [pushPlan]
    exact List.filter_append_perm _ localTests
  have hnd : localTests.Nodup := List.Nodup.of_map _ hdistinct
  refine ⟨?_, hperm, ?_, ?_, ?_⟩
  · intro t ht
    refine ⟨?_, ?_, ?_⟩
    · rw [hU, mapHas_plan]
      exact ⟨fun h => h.2, fun h => ⟨ht, h⟩⟩
    · rw [hC, mapHas_plan]
      exact ⟨fun h => h.2, fun h => ⟨ht, h⟩⟩
    · rw [hperm.count_eq]
      exact List.count_eq_one_of_mem hnd ht
  · rintro t (h | h)
    · exact ((hU t).mp h).1
    · exact ((hC t).mp h).1
  · rintro t ⟨h1, h2⟩
    exact ((hC t).mp h2).2 ((hU t).mp h1).2
  · intro t ht
    have h := ((hU t).mp ht).2
    unfold mapHas at h
    obtain ⟨r, hr⟩ := Option.isSome_iff_exists.mp h
    have h2 := mapGet_plan localTests remoteAll t.name r hr
    exact ⟨r, hr, h2.1, h2.2.1, h2.2.2.1⟩

/-- C1, at the sample folders `checkout` and `search` against the remote
tests `checkout` and `legacy`. -/
theorem pushPlan_partitions_local_witness :
    ([localCheckout, localSearch].map (fun t => t.name)).Nodup ∧
    (pushPlan [localCheckout, localSearch] [remoteCheckout, remoteLegacy]).toUpdate
      = [localCheckout] ∧
    (pushPlan [localCheckout, localSearch] [remoteCheckout, remoteLegacy]).toCreate
      = [localSearch] ∧
    ((pushPlan [localCheckout, localSearch] [remoteCheckout, remoteLegacy]).toUpdate ++
      (pushPlan [localCheckout, localSearch] [remoteCheckout, remoteLegacy]).toCreate).Perm
        [localCheckout, localSearch] :=
  ⟨by decide, by decide, by decide,
    (pushPlan_partitions_local [localCheckout, localSearch] [remoteCheckout, remoteLegacy]
      (by decide)).2.1⟩

theorem mem_toDelete_iff (localTests : List LocalTest) (remoteAll : List RemoteTest)
    (n : String) :
    n ∈ (pushPlan localTests remoteAll).toDelete ↔
      n ≠ "" ∧ (∃ r ∈ remoteAll, isLoad r = true ∧ r.name = some n) ∧
        ∀ t ∈ localTests, t.name ≠ n := by
  simp only [pushPlan, List.mem_filter, mem_setOf, List.mem_filterMap, List.mem_map,
    Bool.not_eq_true', List.contains_eq_any_beq, List.any_eq_false, beq_iff_eq]
  constructor
  · rintro ⟨⟨o, ⟨r, ⟨hr, hl⟩, rfl⟩, ho⟩, hloc⟩
    cases hn : r.name with
    | none => simp [hn, strTruthy] at ho
    | some s =>
      by_cases hs : s = ""
      · simp [hn, strTruthy, hs] at ho
      · have e : s = n := by simpa [hn, strTruthy, hs] using ho
        subst e
        refine ⟨hs, ⟨r, hr, hl, hn⟩, ?_⟩
        intro t ht hts
        exact hloc t.name ⟨t, ht, rfl⟩ hts.symm
  · rintro ⟨hne, ⟨r, hr, hl, hn⟩, hloc⟩
    refine ⟨⟨r.name, ⟨r, ⟨hr, hl⟩, rfl⟩, by simp [hn, strTruthy, hne]⟩, ?_⟩
    rintro x ⟨t, ht, hts⟩ hxn
    exact hloc t ht (hts.trans hxn.symm)

/-- C2. The list `toDelete` has no duplicates and holds exactly the non-empty
names of remote load entities that no local definition carries; an entity
whose name is missing or empty is no value of `remoteByName` (the only source
of the ids that are updated or deleted) and gives no entry of `toDelete`. -/
theorem pushPlan_toDelete_exact (localTests : List LocalTest) (remoteAll : List RemoteTest) :
    (pushPlan localTests remoteAll).toDelete.Nodup ∧
    (∀ n, n ∈ (pushPlan localTests remoteAll).toDelete ↔
      n ≠ "" ∧ (∃ r ∈ remoteAll, isLoad r = true ∧ r.name = some n) ∧
        ∀ t ∈ localTests, t.name ≠ n) ∧
    (∀ r, (r.name = none ∨ r.name = some "") →
      (∀ k, mapGet (pushPlan localTests remoteAll).remoteByName k ≠ some r) ∧
      (∀ n ∈ (pushPlan localTests remoteAll).toDelete, r.name ≠ some n)) := by
  have hmem := mem_toDelete_iff localTests remoteAll
  refine ⟨?_, hmem, ?_⟩
  · simp only [pushPlan]
    exact List.Nodup.filter _ (nodup_setOf _)
  · intro r hr
    constructor
    · intro k hk
      have h := mapGet_plan localTests remoteAll k r hk
      rcases hr with hr | hr
      · rw [hr] at h; exact Option.noConfusion h.2.2.1
      · rw [hr] at h
        exact h.2.2.2 (Option.some.inj h.2.2.1).symm
    · intro n hn hrn
      have h := ((hmem n).mp hn).1
      rcases hr with hr | hr
      · rw [hr] at hrn; exact Option.noConfusion hrn
      · rw [hr] at hrn
        exact h (Option.some.inj hrn).symm

/-! ## The payload builder -/

theorem toNum_absent (env : Builtins) :
    toNum env .undefined = none ∧ toNum env .null = none ∧ toNum env (.str "") = none := by
  simp [toNum]

theorem toNum_num (env : Builtins) (q : ℚ) : toNum env (.num (.fin q)) = some (.fin q) := by
  simp [toNum, JVal.toNumber, JSNum.isFinite]

/-- The example of the specification: `users: ""` and `rate: 7`. -/
theorem buildPayload_empty_users (env : Builtins) (includeExtended : Bool)
    (remote : Option RemoteTest) (includeName : Bool) :
    (buildPayloadFromLocal env localCheckout includeExtended remote includeName).rate = some 7 ∧
    (buildPayloadFromLocal env localCheckout includeExtended remote includeName).users = none := by
  cases includeExtended <;> exact ⟨rfl, rfl⟩

/-- C5. A `users` field that is not a number is not always left out: the
blank string `" "` and the boolean `false` both reach the payload as
`users: 0`, next to `rate: 7`. -/
theorem buildPayload_blank_users_sent_as_zero (env : Builtins) (includeExtended : Bool)
    (remote : Option RemoteTest) (includeName : Bool) :
    (buildPayloadFromLocal env localBlankUsers includeExtended remote includeName).users
      = some 0 ∧
    (buildPayloadFromLocal env localFalseUsers includeExtended remote includeName).users
      = some 0 ∧
    (buildPayloadFromLocal env localBlankUsers includeExtended remote includeName).rate
      = some 7 := by
  cases includeExtended <;> exact ⟨rfl, rfl, rfl⟩

theorem buildPayload_region_eq (env : Builtins) (loc : LocalTest) (includeExtended : Bool)
    (remote : Option RemoteTest) (includeName : Bool) :
    (buildPayloadFromLocal env loc includeExtended remote includeName).region =
      if loc.config.region.truthy then some (loc.config.region.toStr env)
      else match remote with
        | some r => if strTruthy r.region then r.region else none
        | none => none := by
  cases includeExtended <;> rfl

/-- C6. The payload's region is the local region when the local config has
one (as a string: the value itself when it is a non-empty string), otherwise
the region of the matched remote entity when that has one, otherwise it is
left out. -/
theorem buildPayload_region (env : Builtins) (loc : LocalTest) (includeExtended : Bool)
    (remote : Option RemoteTest) (includeName : Bool) :
    (loc.config.region.truthy = true →
      (buildPayloadFromLocal env loc includeExtended remote includeName).region
        = some (loc.config.region.toStr env)) ∧
    (∀ s, loc.config.region = .str s → s ≠ "" →
      (buildPayloadFromLocal env loc includeExtended remote includeName).region = some s) ∧
    (loc.config.region.truthy = false → ∀ r s, remote = some r → r.region = some s → s ≠ "" →
      (buildPayloadFromLocal env loc includeExtended remote includeName).region = some s) ∧
    (loc.config.region.truthy = false →
      (remote = none ∨ ∃ r, remote = some r ∧ (r.region = none ∨ r.region = some "")) →
      (buildPayloadFromLocal env loc includeExtended remote includeName).region = none) := by
  rw [buildPayload_region_eq]
  refine ⟨?_, ?_, ?_, ?_⟩
  · intro h
    rw [if_pos h]
  · intro s hs hne
    simp [hs, JVal.truthy, JVal.toStr, hne]
  · intro h r s hr hrs hne
    simp [h, hr, hrs, strTruthy, hne]
  · intro h hr
    rcases hr with hr | ⟨r, hr, hn | hn⟩
    · simp [h, hr]
    · simp [h, hr, hn, strTruthy]
    · simp [h, hr, hn, strTruthy]

/-- C6, at the sample folder `checkout`, which has no region, matched with
the remote test `checkout` of region `us-east`. -/
theorem buildPayload_region_witness :
    localCheckout.config.region.truthy = false ∧
    (buildPayloadFromLocal tableRuntime localCheckout true (some remoteCheckout) true).region
      = some "us-east" :=
  ⟨rfl, (buildPayload_region tableRuntime localCheckout true (some remoteCheckout) true).2.2.1
    rfl remoteCheckout "us-east" rfl rfl (by decide)⟩

/-! ## Effects: the calls a computation adds -/

theorem andThen_apply {σ α β : Type} (m : Eff σ α) (f : α → Eff σ β) (w : Run σ) :
    (m >>= f) w = match m w with
      | (.ok a, w1) => f a w1
      | (.error e, w1) => (.error e, w1) := rfl

theorem emits_mono {σ α : Type} {q q2 : Exchange → Prop} {m : Eff σ α}
    (h : Emits q m) (hq : ∀ x, q x → q2 x) : Emits q2 m := by
  constructor
  intro w
  obtain ⟨new, h1, h2⟩ := h.out w
  exact ⟨new, h1, fun x hx => hq x (h2 x hx)⟩

theorem emits_ret {σ α : Type} (q : Exchange → Prop) (a : α) :
    Emits q (pure a : Eff σ α) :=
  ⟨fun w => ⟨[], by simp [pure, Eff.ret], by simp⟩⟩

theorem emits_raise {σ α : Type} (q : Exchange → Prop) (e : Failure) :
    Emits q (Eff.raise e : Eff σ α) :=
  ⟨fun w => ⟨[], by simp [Eff.raise], by simp⟩⟩

theorem emits_say {σ : Type} (q : Exchange → Prop) (r : Report) :
    Emits q (say r : Eff σ Unit) :=
  ⟨fun w => ⟨[], by simp [LfCli.say], by simp⟩⟩

theorem emits_getHosts {σ : Type} (q : Exchange → Prop) :
    Emits q (getHosts : Eff σ (List RemoteHost)) :=
  ⟨fun w => ⟨[], by simp [LfCli.getHosts], by simp⟩⟩

theorem emits_setHosts {σ : Type} (q : Exchange → Prop) (hs : List RemoteHost) :
    Emits q (setHosts hs : Eff σ Unit) :=
  ⟨fun w => ⟨[], by simp [LfCli.setHosts], by simp⟩⟩

theorem emits_perform {σ α : Type} (q : Exchange → Prop) (call : Call) (reply : α → Reply)
    (op : σ → Except Rejection α × σ) (h : ∀ r, q ⟨call, r⟩) :
    Emits q (perform call reply op) := by
  constructor
  intro w
  unfold LfCli.perform
  rcases hop : op w.remote with ⟨a | a, s⟩
  · exact ⟨[⟨call, .rejected a⟩], by simp, by simpa using h _⟩
  · exact ⟨[⟨call, reply a⟩], by simp, by simpa using h _⟩

theorem emits_bind {σ α β : Type} {q : Exchange → Prop} {m : Eff σ α} {f : α → Eff σ β}
    (hm : Emits q m) (hf : ∀ a, Emits q (f a)) : Emits q (m >>= f) := by
  constructor
  intro w
  obtain ⟨n1, h1, h2⟩ := hm.out w
  rw [andThen_apply]
  rcases hmw : m w with ⟨e | a, w1⟩
  · rw [hmw] at h1
    exact ⟨n1, h1, h2⟩
  · rw [hmw] at h1
    obtain ⟨n2, h3, h4⟩ := (hf a).out w1
    refine ⟨n1 ++ n2, ?_, ?_⟩
    · simp only [h3]
      simp only at h1
      rw [h1, List.append_assoc]
    · intro x hx
      rcases List.mem_append.mp hx with hx | hx
      · exact h2 x hx
      · exact h4 x hx

theorem emits_attempt {σ α : Type} {q : Exchange → Prop} {m : Eff σ α}
    (hm : Emits q m) : Emits q (Eff.attempt m) := by
  constructor
  intro w
  obtain ⟨n1, h1, h2⟩ := hm.out w
  exact ⟨n1, by simpa [Eff.attempt] using h1, h2⟩

theorem findOrCreateHostId_emits {σ : Type} (env : Builtins) (client : Client σ)
    (hostStr : JVal) (q : Exchange → Prop) (hList : ∀ r, q ⟨.listHosts, r⟩)
    (hHost : ∀ spec r, q ⟨.createHost spec, r⟩) :
    Emits q (findOrCreateHostId env client hostStr) := by
  unfold findOrCreateHostId
  repeat (first
    | with_reducible exact emits_ret _ _
    | with_reducible exact emits_getHosts _
    | with_reducible exact emits_setHosts _ _
    | with_reducible exact emits_perform _ _ _ _ (hList)
    | with_reducible exact emits_perform _ _ _ _ (hHost _)
    | with_reducible apply emits_attempt
    | with_reducible apply emits_bind
    | intro _
    | split)

theorem updatePayload_emits {σ : Type} (env : Builtins) (client : Client σ) (opts : Options)
    (remote : Option RemoteTest) (loc : LocalTest) (q : Exchange → Prop)
    (hList : ∀ r, q ⟨.listHosts, r⟩) (hHost : ∀ spec r, q ⟨.createHost spec, r⟩) :
    Emits q (updatePayload env client opts remote loc) := by
  unfold updatePayload
  dsimp only
  repeat (first
    | with_reducible exact emits_ret _ _
    | with_reducible exact findOrCreateHostId_emits _ _ _ _ hList hHost
    | with_reducible apply emits_bind
    | intro _
    | split)

theorem sendUpdate_emits {σ : Type} (env : Builtins) (client : Client σ) (opts : Options)
    (remote : Option RemoteTest) (loc : LocalTest) (p : Payload) (q : Exchange → Prop)
    (hUpdate : ∀ id p r, q ⟨.updateTest id p, r⟩) :
    Emits q (sendUpdate env client opts remote loc p) := by
  unfold sendUpdate
  repeat (first
    | with_reducible exact emits_ret _ _
    | with_reducible exact emits_raise _ _
    | with_reducible exact emits_say _ _
    | with_reducible exact emits_perform _ _ _ _ (hUpdate _ _)
    | with_reducible apply emits_attempt
    | with_reducible apply emits_bind
    | intro _
    | split)

theorem updateItem_emits {σ : Type} (env : Builtins) (client : Client σ) (opts : Options)
    (remoteByName : List (String × RemoteTest)) (loc : LocalTest) (q : Exchange → Prop)
    (hList : ∀ r, q ⟨.listHosts, r⟩) (hHost : ∀ spec r, q ⟨.createHost spec, r⟩)
    (hUpdate : ∀ id p r, q ⟨.updateTest id p, r⟩) :
    Emits q (updateItem env client opts remoteByName loc) :=
  emits_bind (updatePayload_emits _ _ _ _ _ _ hList hHost)
    (fun _ => sendUpdate_emits _ _ _ _ _ _ _ hUpdate)

theorem updatePhase_emits {σ : Type} (env : Builtins) (client : Client σ) (opts : Options)
    (remoteByName : List (String × RemoteTest)) (items : List LocalTest) (q : Exchange → Prop)
    (hList : ∀ r, q ⟨.listHosts, r⟩) (hHost : ∀ spec r, q ⟨.createHost spec, r⟩)
    (hUpdate : ∀ id p r, q ⟨.updateTest id p, r⟩) :
    Emits q (updatePhase env client opts remoteByName items) := by
  induction items with
  | nil => exact emits_ret _ _
  | cons loc rest ih =>
    unfold updatePhase
    exact emits_bind (updateItem_emits _ _ _ _ _ _ hList hHost hUpdate) (fun _ => ih)

theorem createPayload_emits {σ : Type} (env : Builtins) (client : Client σ) (opts : Options)
    (loc : LocalTest) (q : Exchange → Prop)
    (hList : ∀ r, q ⟨.listHosts, r⟩) (hHost : ∀ spec r, q ⟨.createHost spec, r⟩) :
    Emits q (createPayload env client opts loc) := by
  unfold createPayload
  dsimp only
  repeat (first
    | with_reducible exact emits_ret _ _
    | with_reducible exact findOrCreateHostId_emits _ _ _ _ hList hHost
    | with_reducible apply emits_bind
    | intro _
    | split)

theorem sendCreate_emits {σ : Type} (env : Builtins) (client : Client σ) (opts : Options)
    (loc : LocalTest) (p : Payload) (q : Exchange → Prop)
    (hCreate : ∀ p r, q ⟨.createTest p, r⟩) :
    Emits q (sendCreate env client opts loc p) := by
  unfold sendCreate
  repeat (first
    | with_reducible exact emits_ret _ _
    | with_reducible exact emits_raise _ _
    | with_reducible exact emits_say _ _
    | with_reducible exact emits_perform _ _ _ _ (hCreate _)
    | with_reducible apply emits_attempt
    | with_reducible apply emits_bind
    | intro _
    | split)

theorem createItem_emits {σ : Type} (env : Builtins) (client : Client σ) (opts : Options)
    (loc : LocalTest) (q : Exchange → Prop)
    (hList : ∀ r, q ⟨.listHosts, r⟩) (hHost : ∀ spec r, q ⟨.createHost spec, r⟩)
    (hCreate : opts.allowCreate = true → ∀ p r, q ⟨.createTest p, r⟩) :
    Emits q (createItem env client opts loc) := by
  unfold createItem
  by_cases hc : opts.allowCreate = true
  · simp only [hc, Bool.not_true, Bool.false_eq_true, if_false]
    split
    · exact emits_raise _ _
    · exact emits_bind (createPayload_emits _ _ _ _ _ hList hHost)
        (fun _ => sendCreate_emits _ _ _ _ _ _ (hCreate hc))
  · simp only [hc, Bool.not_false, if_true]
    exact emits_say _ _

theorem createPhase_emits {σ : Type} (env : Builtins) (client : Client σ) (opts : Options)
    (items : List LocalTest) (q : Exchange → Prop)
    (hList : ∀ r, q ⟨.listHosts, r⟩) (hHost : ∀ spec r, q ⟨.createHost spec, r⟩)
    (hCreate : opts.allowCreate = true → ∀ p r, q ⟨.createTest p, r⟩) :
    Emits q (createPhase env client opts items) := by
  induction items with
  | nil => exact emits_ret _ _
  | cons loc rest ih =>
    unfold createPhase
    exact emits_bind (createItem_emits _ _ _ _ _ hList hHost hCreate) (fun _ => ih)

theorem deletePhase_emits {σ : Type} (client : Client σ)
    (remoteByName : List (String × RemoteTest)) (names : List String) (q : Exchange → Prop)
    (hDelete : ∀ id r, q ⟨.deleteTest id, r⟩) :
    Emits q (deletePhase client remoteByName names) := by
  induction names with
  | nil => exact emits_ret _ _
  | cons name rest ih =>
    unfold deletePhase
    apply emits_bind
    · split
      · exact emits_ret _ _
      · exact emits_bind (emits_perform _ _ _ _ (hDelete _)) (fun _ => emits_say _ _)
    · exact fun _ => ih

/-! ## Dry run -/

/-- C3. In a dry run the calls `pushCommand` makes on the client are at most
one, a `listTests` (exactly one once the local folders are loaded): none of
`createTest`, `updateTest`, `deleteTest`, `createHost` is made, whatever the
local set, the remote inventory and the other options are. -/
theorem pushCommand_dryRun_calls {σ : Type} (env : Builtins) (client : Client σ)
    (opts : Options) (loaded : Except String (List LocalTest)) (w : Run σ)
    (hdry : opts.dryRun = true) :
    ∃ new, (pushCommand env client opts loaded w).2.calls = w.calls ++ new ∧
      (∀ x ∈ new, x.call = Call.listTests ∧ x.call.isMutation = false) ∧
      new.length ≤ 1 ∧ (∀ ts, loaded = .ok ts → new.length = 1) := by
  unfold pushCommand
  cases loaded with
  | error msg =>
    exact ⟨[], by simp [andThen_apply, Eff.raise], by simp, by simp, by simp⟩
  | ok ts =>
    rcases hl : client.listTests w.remote with ⟨e | remoteAll, s⟩
    · refine ⟨[⟨.listTests, .rejected e⟩], ?_, ?_, by simp, by simp⟩
      · simp [andThen_apply, pure, Eff.ret, perform, hl]
      · simp [Call.isMutation, Call.isUpdateTest, Call.isCreateTest, Call.isDeleteTest,
          Call.isCreateHost]
    · refine ⟨[⟨.listTests, .tests remoteAll⟩], ?_, ?_, by simp, by simp⟩
      · simp [andThen_apply, pure, Eff.ret, perform, hl, say, hdry]
      · simp [Call.isMutation, Call.isUpdateTest, Call.isCreateTest, Call.isDeleteTest,
          Call.isCreateHost]

/-- C3, at a dry run with creation and deletion allowed, two local folders
and a remote inventory of two tests. -/
theorem pushCommand_dryRun_calls_witness :
    ∃ new, (pushCommand tableRuntime scriptedClient
        { rootDir := "tests", allowCreate := true, allowDelete := true, dryRun := true }
        (.ok [localCheckout, localSearch])
        (startOf [.tests [remoteCheckout, remoteLegacy]])).2.calls
          = (startOf [.tests [remoteCheckout, remoteLegacy]]).calls ++ new ∧
      (∀ x ∈ new, x.call = Call.listTests ∧ x.call.isMutation = false) ∧
      new.length ≤ 1 ∧
      (∀ ts, (.ok [localCheckout, localSearch] : Except String (List LocalTest)) = .ok ts →
        new.length = 1) :=
  pushCommand_dryRun_calls tableRuntime scriptedClient
    { rootDir := "tests", allowCreate := true, allowDelete := true, dryRun := true }
    (.ok [localCheckout, localSearch]) (startOf [.tests [remoteCheckout, remoteLegacy]]) rfl

/-! ## Gates on creation and deletion -/

theorem bind_ok_inv {σ α β : Type} {m : Eff σ α} {f : α → Eff σ β} {w w2 : Run σ} {b : β}
    (h : (m >>= f) w = (.ok b, w2)) : ∃ a w1, m w = (.ok a, w1) ∧ f a w1 = (.ok b, w2) := by
  rw [andThen_apply] at h
  rcases hm : m w with ⟨e | a, w1⟩
  · rw [hm] at h; cases h
  · rw [hm] at h; exact ⟨a, w1, rfl, h⟩

theorem emits_calls_of_eq {σ α : Type} {q : Exchange → Prop} {m : Eff σ α} (hm : Emits q m)
    {w w1 : Run σ} {r : Except Failure α} (h : m w = (r, w1)) :
    ∃ new, w1.calls = w.calls ++ new ∧ ∀ x ∈ new, q x := by
  obtain ⟨new, h1, h2⟩ := hm.out w
  rw [h] at h1
  exact ⟨new, h1, h2⟩

theorem deletedIds_append (a b : List Exchange) :
    deletedIds (a ++ b) = deletedIds a ++ deletedIds b := by
  simp [deletedIds, List.filterMap_append]

theorem deletedIds_eq_nil (new : List Exchange)
    (h : ∀ x ∈ new, x.call.isDeleteTest = false) : deletedIds new = [] := by
  induction new with
  | nil => rfl
  | cons x rest ih =>
    have hx := h x (List.mem_cons_self _ _)
    have hr := ih (fun y hy => h y (List.mem_cons_of_mem _ hy))
    unfold deletedIds at hr ⊢
    rw [List.filterMap_cons]
    cases hc : x.call <;> simp_all [Call.isDeleteTest]

/-- A delete phase that completes has called `deleteTest` once per name, in
order, with the id `remoteByName` gives for the name. -/
theorem deletePhase_ok {σ : Type} (client : Client σ)
    (remoteByName : List (String × RemoteTest)) (names : List String) (w w2 : Run σ)
    (h : deletePhase client remoteByName names w = (.ok (), w2)) :
    deletedIds w2.calls = deletedIds w.calls ++
      names.filterMap (fun n => (mapGet remoteByName n).map (fun r => r.id)) := by
  induction names generalizing w with
  | nil =>
    simp only [deletePhase, pure, Eff.ret, Prod.mk.injEq, true_and] at h
    subst h
    simp
  | cons name rest ih =>
    unfold deletePhase at h
    obtain ⟨u, w1, h1, h2⟩ := bind_ok_inv h
    have hrest := ih w1 h2
    rw [hrest, List.filterMap_cons]
    cases hg : mapGet remoteByName name with
    | none =>
      simp only [hg, pure, Eff.ret, Prod.mk.injEq, true_and] at h1
      subst h1
      simp
    | some r =>
      simp only [hg] at h1
      obtain ⟨v, w0, h3, h4⟩ := bind_ok_inv h1
      simp only [say, Prod.mk.injEq, true_and] at h4
      subst h4
      unfold perform at h3
      rcases hd : client.deleteTest r.id w.remote with ⟨e | a, s⟩
      · rw [hd] at h3; cases h3
      · rw [hd] at h3
        simp only [Prod.mk.injEq, Except.ok.injEq] at h3
        obtain ⟨_, rfl⟩ := h3
        simp [deletedIds, List.filterMap_append]

theorem pushCommand_emits {σ : Type} (env : Builtins) (client : Client σ) (opts : Options)
    (loaded : Except String (List LocalTest)) (q : Exchange → Prop)
    (hTests : ∀ r, q ⟨.listTests, r⟩)
    (hList : opts.dryRun = false → ∀ r, q ⟨.listHosts, r⟩)
    (hHost : opts.dryRun = false → ∀ spec r, q ⟨.createHost spec, r⟩)
    (hUpdate : opts.dryRun = false → ∀ id p r, q ⟨.updateTest id p, r⟩)
    (hCreate : opts.dryRun = false → opts.allowCreate = true → ∀ p r, q ⟨.createTest p, r⟩)
    (hDelete : opts.dryRun = false → opts.allowDelete = true → ∀ id r, q ⟨.deleteTest id, r⟩) :
    Emits q (pushCommand env client opts loaded) := by
  unfold pushCommand
  apply emits_bind
  · split
    · exact emits_ret _ _
    · exact emits_raise _ _
  intro localTests
  apply emits_bind (emits_perform _ _ _ _ hTests)
  intro remoteAll
  dsimp only
  apply emits_bind (emits_say _ _)
  intro _
  by_cases hdry : opts.dryRun = true
  · rw [if_pos hdry]
    exact emits_say _ _
  · rw [if_neg hdry]
    have hd : opts.dryRun = false := by simpa using hdry
    apply emits_bind (emits_attempt (emits_perform _ _ _ _ (hList hd)))
    intro preload
    apply emits_bind (emits_setHosts _ _)
    intro _
    unfold applyPlan
    apply emits_bind (updatePhase_emits _ _ _ _ _ _ (hList hd) (hHost hd) (hUpdate hd))
    intro _
    apply emits_bind (createPhase_emits _ _ _ _ _ (hList hd) (hHost hd) (hCreate hd))
    intro _
    by_cases hdel : opts.allowDelete = true
    · rw [if_pos hdel]
      exact deletePhase_emits _ _ _ _ (hDelete hd hdel)
    · rw [if_neg hdel]
      split
      · exact emits_say _ _
      · exact emits_ret _ _

/-- After `listTests` has answered, a completed run that is no dry run and
has deletion allowed has deleted exactly the planned names. -/
theorem pushCommand_deletes {σ : Type} (env : Builtins) (client : Client σ) (opts : Options)
    (localTests : List LocalTest) (w w2 : Run σ) (remoteAll : List RemoteTest) (s : σ)
    (hl : client.listTests w.remote = (.ok remoteAll, s))
    (hdry : opts.dryRun = false) (hdel : opts.allowDelete = true)
    (hok : pushCommand env client opts (.ok localTests) w = (.ok (), w2)) :
    deletedIds w2.calls = deletedIds w.calls ++
      (pushPlan localTests remoteAll).toDelete.filterMap
        (fun n => (mapGet (pushPlan localTests remoteAll).remoteByName n).map (fun r => r.id)) := by
  have notDel : ∀ (r : Reply) (c : Call), c.isDeleteTest = false →
      (fun x : Exchange => x.call.isDeleteTest = false) ⟨c, r⟩ := fun _ _ h => h
  unfold pushCommand at hok
  obtain ⟨ts, w0, h0, hok⟩ := bind_ok_inv hok
  simp only [pure, Eff.ret, Prod.mk.injEq, Except.ok.injEq] at h0
  obtain ⟨rfl, rfl⟩ := h0
  obtain ⟨ra, w1, h1, hok⟩ := bind_ok_inv hok
  have e1 : ra = remoteAll ∧ deletedIds w1.calls = deletedIds w.calls := by
    unfold perform at h1
    rw [hl] at h1
    simp only [Prod.mk.injEq, Except.ok.injEq] at h1
    obtain ⟨rfl, rfl⟩ := h1
    simp [deletedIds, List.filterMap_append]
  obtain ⟨rfl, e1⟩ := e1
  dsimp only at hok
  obtain ⟨_, w2a, h2, hok⟩ := bind_ok_inv hok
  have e2 : deletedIds w2a.calls = deletedIds w1.calls := by
    simp only [say, Prod.mk.injEq, true_and] at h2
    subst h2; rfl
  simp only [hdry, Bool.false_eq_true, if_false] at hok
  obtain ⟨preload, w3, h3, hok⟩ := bind_ok_inv hok
  obtain ⟨n3, c3, q3⟩ := emits_calls_of_eq (emits_attempt (emits_perform
    (fun x : Exchange => x.call.isDeleteTest = false) .listHosts .hosts client.listHosts
    (fun r => notDel r _ rfl))) h3
  obtain ⟨_, w4, h4, hok⟩ := bind_ok_inv hok
  have e4 : w4.calls = w3.calls := by
    simp only [setHosts, Prod.mk.injEq, true_and] at h4
    subst h4; rfl
  unfold applyPlan at hok
  obtain ⟨_, w5, h5, hok⟩ := bind_ok_inv hok
  obtain ⟨n5, c5, q5⟩ := emits_calls_of_eq (updatePhase_emits env client opts _ _
    (fun x : Exchange => x.call.isDeleteTest = false)
    (fun r => notDel r _ rfl) (fun _ r => notDel r _ rfl)
    (fun _ _ r => notDel r _ rfl)) h5
  obtain ⟨_, w6, h6, hok⟩ := bind_ok_inv hok
  obtain ⟨n6, c6, q6⟩ := emits_calls_of_eq (createPhase_emits env client opts _
    (fun x : Exchange => x.call.isDeleteTest = false)
    (fun r => notDel r _ rfl) (fun _ r => notDel r _ rfl)
    (fun _ _ r => notDel r _ rfl)) h6
  simp only [hdel, if_true] at hok
  rw [deletePhase_ok client _ _ w6 w2 hok, c6, c5, e4, c3]
  simp only [deletedIds_append, deletedIds_eq_nil n3 q3, deletedIds_eq_nil n5 q5,
    deletedIds_eq_nil n6 q6, List.append_nil, e2, e1]

theorem mapGet_isSome_of_mem_toDelete (localTests : List LocalTest)
    (remoteAll : List RemoteTest) (n : String)
    (h : n ∈ (pushPlan localTests remoteAll).toDelete) :
    (mapGet (pushPlan localTests remoteAll).remoteByName n).isSome = true := by
  obtain ⟨hne, ⟨r, hr, hl, hn⟩, _⟩ := (mem_toDelete_iff localTests remoteAll n).mp h
  exact (mapHas_plan localTests remoteAll n).mpr ⟨r, hr, hl, hn, hne⟩

theorem length_filterMap_of_isSome {α β : Type} (f : α → Option β) (l : List α)
    (h : ∀ a ∈ l, (f a).isSome = true) : (l.filterMap f).length = l.length := by
  induction l with
  | nil => rfl
  | cons a rest ih =>
    obtain ⟨b, hb⟩ := Option.isSome_iff_exists.mp (h a (List.mem_cons_self _ _))
    rw [List.filterMap_cons, hb]
    simp [ih (fun x hx => h x (List.mem_cons_of_mem _ hx))]

/-- C4, as the code has it. `createTest` is never called when `allowCreate` is
false and `deleteTest` never when `allowDelete` is false.  In a run that is no
dry run, has `allowDelete` true and completes without throwing (so no update,
create or delete was fatally rejected and no item to create lacked a region),
`deleteTest` is called once for each name of `toDelete`, in order, with the id
of the entity `remoteByName` maps the name to. -/
theorem pushCommand_gates {σ : Type} (env : Builtins) (client : Client σ) (opts : Options)
    (loaded : Except String (List LocalTest)) (w : Run σ) :
    (∃ new, (pushCommand env client opts loaded w).2.calls = w.calls ++ new ∧
      (opts.allowCreate = false → ∀ x ∈ new, x.call.isCreateTest = false) ∧
      (opts.allowDelete = false → ∀ x ∈ new, x.call.isDeleteTest = false)) ∧
    (∀ localTests remoteAll s, loaded = .ok localTests →
      client.listTests w.remote = (.ok remoteAll, s) →
      opts.dryRun = false → opts.allowDelete = true →
      (pushCommand env client opts loaded w).1 = .ok () →
      deletedIds (pushCommand env client opts loaded w).2.calls = deletedIds w.calls ++
        (pushPlan localTests remoteAll).toDelete.filterMap (fun n =>
          (mapGet (pushPlan localTests remoteAll).remoteByName n).map (fun r => r.id)) ∧
      ((pushPlan localTests remoteAll).toDelete.filterMap (fun n =>
          (mapGet (pushPlan localTests remoteAll).remoteByName n).map (fun r => r.id))).length
        = (pushPlan localTests remoteAll).toDelete.length ∧
      ∀ n ∈ (pushPlan localTests remoteAll).toDelete,
        ∃ r, mapGet (pushPlan localTests remoteAll).remoteByName n = some r ∧
          r.name = some n) := by
  constructor
  · have h := (pushCommand_emits env client opts loaded
      (fun x => (opts.allowCreate = false → x.call.isCreateTest = false) ∧
        (opts.allowDelete = false → x.call.isDeleteTest = false))
      (fun _ => ⟨fun _ => rfl, fun _ => rfl⟩)
      (fun _ _ => ⟨fun _ => rfl, fun _ => rfl⟩)
      (fun _ _ _ => ⟨fun _ => rfl, fun _ => rfl⟩)
      (fun _ _ _ _ => ⟨fun _ => rfl, fun _ => rfl⟩)
      (fun _ hc _ _ => ⟨fun hf => (by rw [hc] at hf; cases hf), fun _ => rfl⟩)
      (fun _ hd _ _ => ⟨fun _ => rfl, fun hf => (by rw [hd] at hf; cases hf)⟩)).out w
    obtain ⟨new, h1, h2⟩ := h
    exact ⟨new, h1, fun hc x hx => (h2 x hx).1 hc, fun hd x hx => (h2 x hx).2 hd⟩
  · intro localTests remoteAll s hload hl hdry hdel hok
    subst hload
    refine ⟨?_, ?_, ?_⟩
    · exact pushCommand_deletes env client opts localTests w _ remoteAll s hl hdry hdel
        (Prod.ext hok rfl)
    · apply length_filterMap_of_isSome
      intro n hn
      have h := mapGet_isSome_of_mem_toDelete localTests remoteAll n hn
      obtain ⟨r, hr⟩ := Option.isSome_iff_exists.mp h
      simp [hr]
    · intro n hn
      have h := mapGet_isSome_of_mem_toDelete localTests remoteAll n hn
      obtain ⟨r, hr⟩ := Option.isSome_iff_exists.mp h
      exact ⟨r, hr, (mapGet_plan localTests remoteAll n r hr).2.2.1⟩

/-- C4, at the sample run that updates `checkout` and deletes `legacy`: the
one `deleteTest` call carries the id `12` of `legacy`. -/
theorem pushCommand_gates_witness :
    updateAndDeleteRun.1 = .ok () ∧ deletedIds updateAndDeleteRun.2.calls = [.num 12] :=
  ⟨rfl, ((pushCommand_gates tableRuntime scriptedClient applyAll (.ok [localCheckout])
    (startOf [.tests [remoteCheckout, remoteLegacy], .hosts [], .value .null,
      .value .null])).2 [localCheckout] [remoteCheckout, remoteLegacy]
      [.hosts [], .value .null, .value .null] rfl rfl rfl rfl rfl).1⟩

/-- C4 as stated fails: with `allowDelete` and `allowCreate` true and no call
rejected, a folder to create without a region stops the run before the delete
phase, and the planned deletion of `legacy` is never requested. -/
theorem pushCommand_deletes_not_reached :
    applyAll.allowDelete = true ∧
    (pushPlan [localCheckout] [remoteLegacy]).toDelete = ["legacy"] ∧
    missingRegionRun.2.calls =
      [⟨.listTests, .tests [remoteLegacy]⟩, ⟨.listHosts, .hosts []⟩] ∧
    (∀ x ∈ missingRegionRun.2.calls, x.reply.isRejected = false) ∧
    deletedIds missingRegionRun.2.calls = [] ∧
    missingRegionRun.1 = .error (.createRequiresRegion "tests" "checkout" "config.json") := by
  refine ⟨rfl, by decide, rfl, ?_, rfl, rfl⟩
  have h : missingRegionRun.2.calls =
      [⟨.listTests, .tests [remoteLegacy]⟩, ⟨.listHosts, .hosts []⟩] := rfl
  rw [h]
  decide

/-! ## The update call and its retry -/

/-- The four ways the `updateTest` stage of one item can go. -/
theorem sendUpdate_cases {σ : Type} (env : Builtins) (client : Client σ) (opts : Options)
    (r : RemoteTest) (loc : LocalTest) (p : Payload) (w : Run σ) :
    (∃ v, (sendUpdate env client opts (some r) loc p w).2.calls
        = w.calls ++ [⟨.updateTest r.id p, .value v⟩] ∧
      (sendUpdate env client opts (some r) loc p w).1 = .ok ()) ∨
    (∃ e, (sendUpdate env client opts (some r) loc p w).2.calls
        = w.calls ++ [⟨.updateTest r.id p, .rejected e⟩] ∧
      ¬ (opts.tryExtended = true ∧ e.status = some 400) ∧
      (sendUpdate env client opts (some r) loc p w).1 = .error (.rejected e)) ∨
    (∃ e v, (sendUpdate env client opts (some r) loc p w).2.calls
        = w.calls ++ [⟨.updateTest r.id p, .rejected e⟩,
            ⟨.updateTest r.id (buildPayloadFromLocal env loc false (some r) false), .value v⟩] ∧
      opts.tryExtended = true ∧ e.status = some 400 ∧
      (sendUpdate env client opts (some r) loc p w).1 = .ok () ∧
      ∃ pre, (sendUpdate env client opts (some r) loc p w).2.console
        = w.console ++ pre ++ [.updatedBaseOnly loc.name r.id]) ∨
    (∃ e e2, (sendUpdate env client opts (some r) loc p w).2.calls
        = w.calls ++ [⟨.updateTest r.id p, .rejected e⟩,
            ⟨.updateTest r.id (buildPayloadFromLocal env loc false (some r) false),
              .rejected e2⟩] ∧
      opts.tryExtended = true ∧ e.status = some 400 ∧
      (sendUpdate env client opts (some r) loc p w).1 = .error (.rejected e2)) := by
  unfold sendUpdate
  rcases h1 : client.updateTest r.id p w.remote with ⟨e | v, s1⟩
  · by_cases h400 : opts.tryExtended = true ∧ e.status = some 400
    · right; right
      rcases h2 : client.updateTest r.id (buildPayloadFromLocal env loc false (some r) false) s1
        with ⟨e2 | v, s2⟩
      · right
        refine ⟨e, e2, ?_, h400.1, h400.2, ?_⟩ <;>
          cases hv : opts.verbose <;>
          simp [bind, Eff.andThen, perform, say, Eff.attempt, pure, Eff.ret, Eff.raise, h1, h2,
            h400.1, h400.2, Failure.isStatus400, hv]
      · left
        refine ⟨e, v, ?_, h400.1, h400.2, ?_, ?_⟩
        · cases hv : opts.verbose <;>
          simp [bind, Eff.andThen, perform, say, Eff.attempt, pure, Eff.ret, Eff.raise, h1, h2,
            h400.1, h400.2, Failure.isStatus400, hv]
        · cases hv : opts.verbose <;>
          simp [bind, Eff.andThen, perform, say, Eff.attempt, pure, Eff.ret, Eff.raise, h1, h2,
            h400.1, h400.2, Failure.isStatus400, hv]
        · cases hv : opts.verbose
          · exact ⟨[], by
              simp [bind, Eff.andThen, perform, say, Eff.attempt, pure, Eff.ret, Eff.raise, h1, h2,
                h400.1, h400.2, Failure.isStatus400, hv]⟩
          · exact ⟨[.debugUpdatePayload loc.name p, .debugRetryBasePayload loc.name
                (buildPayloadFromLocal env loc false (some r) false)], by
              simp [bind, Eff.andThen, perform, say, Eff.attempt, pure, Eff.ret, Eff.raise, h1, h2,
                h400.1, h400.2, Failure.isStatus400, hv]⟩
    · right; left
      have hc : (opts.tryExtended && (Failure.rejected e).isStatus400) = false := by
        cases ht : opts.tryExtended
        · rfl
        · simp only [Failure.isStatus400, Bool.true_and, beq_eq_false_iff_ne, ne_eq]
          exact fun h => h400 ⟨ht, h⟩
      refine ⟨e, ?_, h400, ?_⟩ <;>
        cases hv : opts.verbose <;>
        simp [bind, Eff.andThen, perform, say, Eff.attempt, pure, Eff.ret, Eff.raise, h1, hc, hv]
  · left
    refine ⟨v, ?_, ?_⟩ <;>
      cases hv : opts.verbose <;>
      simp [bind, Eff.andThen, perform, say, Eff.attempt, pure, Eff.ret, Eff.raise, h1, hv]

theorem quiet_ret {σ α : Type} (a : α) : Quiet (pure a : Eff σ α) := ⟨fun _ => rfl⟩

theorem quiet_getHosts {σ : Type} : Quiet (getHosts : Eff σ (List RemoteHost)) :=
  ⟨fun _ => rfl⟩

theorem quiet_setHosts {σ : Type} (hs : List RemoteHost) : Quiet (setHosts hs : Eff σ Unit) :=
  ⟨fun _ => rfl⟩

theorem quiet_perform {σ α : Type} (call : Call) (reply : α → Reply)
    (op : σ → Except Rejection α × σ) : Quiet (perform call reply op) := by
  constructor
  intro w
  unfold LfCli.perform
  rcases hop : op w.remote with ⟨a | a, s⟩ <;> rfl

theorem quiet_bind {σ α β : Type} {m : Eff σ α} {f : α → Eff σ β}
    (hm : Quiet m) (hf : ∀ a, Quiet (f a)) : Quiet (m >>= f) := by
  constructor
  intro w
  have h1 := hm.out w
  rw [andThen_apply]
  rcases hmw : m w with ⟨e | a, w1⟩
  · rw [hmw] at h1; exact h1
  · rw [hmw] at h1
    have h2 := (hf a).out w1
    simp only at h1 ⊢
    rw [h2, h1]

theorem quiet_attempt {σ α : Type} {m : Eff σ α} (hm : Quiet m) : Quiet (Eff.attempt m) :=
  ⟨fun w => by simpa [Eff.attempt] using hm.out w⟩

theorem findOrCreateHostId_quiet {σ : Type} (env : Builtins) (client : Client σ)
    (hostStr : JVal) : Quiet (findOrCreateHostId env client hostStr) := by
  unfold findOrCreateHostId
  repeat (first
    | with_reducible exact quiet_ret _
    | with_reducible exact quiet_getHosts
    | with_reducible exact quiet_setHosts _
    | with_reducible exact quiet_perform _ _ _
    | with_reducible apply quiet_attempt
    | with_reducible apply quiet_bind
    | intro _
    | split)

theorem updatePayload_quiet {σ : Type} (env : Builtins) (client : Client σ) (opts : Options)
    (remote : Option RemoteTest) (loc : LocalTest) :
    Quiet (updatePayload env client opts remote loc) := by
  unfold updatePayload
  dsimp only
  repeat (first
    | with_reducible exact quiet_ret _
    | with_reducible exact findOrCreateHostId_quiet _ _ _
    | with_reducible apply quiet_bind
    | intro _
    | split)

theorem filter_isUpdateTest_hostCalls (hc : List Exchange)
    (h : ∀ x ∈ hc, x.call.isHostCall = true) :
    hc.filter (fun x => x.call.isUpdateTest) = [] := by
  rw [List.filter_eq_nil_iff]
  intro x hx
  have := h x hx
  cases hcall : x.call <;> simp_all [Call.isHostCall, Call.isUpdateTest]

/-- The base-only payload of an update carries no name and no extended field. -/
theorem buildPayload_base_only (env : Builtins) (loc : LocalTest) (remote : Option RemoteTest) :
    (buildPayloadFromLocal env loc false remote false).name = none ∧
    (buildPayloadFromLocal env loc false remote false).apdex_target = none ∧
    (buildPayloadFromLocal env loc false remote false).p95_target = none ∧
    (buildPayloadFromLocal env loc false remote false).error_perc_target = none ∧
    (buildPayloadFromLocal env loc false remote false).region_servers = .undefined :=
  ⟨rfl, rfl, rfl, rfl, rfl⟩

theorem updatePhase_cons_of_ok {σ : Type} (env : Builtins) (client : Client σ) (opts : Options)
    (remoteByName : List (String × RemoteTest)) (loc : LocalTest) (items : List LocalTest)
    (w : Run σ) (h : (updateItem env client opts remoteByName loc w).1 = .ok ()) :
    updatePhase env client opts remoteByName (loc :: items) w =
      updatePhase env client opts remoteByName items
        (updateItem env client opts remoteByName loc w).2 := by
  conv_lhs => unfold updatePhase
  rw [andThen_apply]
  rcases hu : updateItem env client opts remoteByName loc w with ⟨e | u, w1⟩
  · rw [hu] at h; cases h
  · rfl

/-- C7. When extended fields are enabled and the first `updateTest` call of an
update item is rejected with status 400, the item makes exactly one further
`updateTest` call, to the same remote id, with the base-only payload (no
name, no extended field); if that call is accepted the item ends without
error, its last console line is the warning `updatedBaseOnly`, and the update
loop goes on with the next item; if it is rejected the item throws. -/
theorem updateItem_retries_base_only {σ : Type} (env : Builtins) (client : Client σ)
    (opts : Options) (remoteByName : List (String × RemoteTest)) (loc : LocalTest)
    (r : RemoteTest) (w : Run σ) (new rest : List Exchange) (id : JVal) (p : Payload)
    (e : Rejection)
    (hr : mapGet remoteByName loc.name = some r)
    (hext : opts.tryExtended = true)
    (hnew : (updateItem env client opts remoteByName loc w).2.calls = w.calls ++ new)
    (hfirst : new.filter (fun x => x.call.isUpdateTest)
      = ⟨.updateTest id p, .rejected e⟩ :: rest)
    (h400 : e.status = some 400) :
    id = r.id ∧
    (buildPayloadFromLocal env loc false (some r) false).name = none ∧
    (buildPayloadFromLocal env loc false (some r) false).apdex_target = none ∧
    (buildPayloadFromLocal env loc false (some r) false).p95_target = none ∧
    (buildPayloadFromLocal env loc false (some r) false).error_perc_target = none ∧
    (buildPayloadFromLocal env loc false (some r) false).region_servers = .undefined ∧
    ∃ reply,
      rest = [⟨.updateTest r.id (buildPayloadFromLocal env loc false (some r) false), reply⟩] ∧
      (reply.isRejected = false →
        (updateItem env client opts remoteByName loc w).1 = .ok () ∧
        (∃ pre, (updateItem env client opts remoteByName loc w).2.console
          = w.console ++ pre ++ [.updatedBaseOnly loc.name r.id]) ∧
        (Report.updatedBaseOnly loc.name r.id).level = .warn ∧
        ∀ items, updatePhase env client opts remoteByName (loc :: items) w =
          updatePhase env client opts remoteByName items
            (updateItem env client opts remoteByName loc w).2) ∧
      (∀ e2, reply = .rejected e2 →
        (updateItem env client opts remoteByName loc w).1 = .error (.rejected e2)) := by
  obtain ⟨b1, b2, b3, b4, b5⟩ := buildPayload_base_only env loc (some r)
  suffices key : id = r.id ∧ ∃ reply,
      rest = [⟨.updateTest r.id (buildPayloadFromLocal env loc false (some r) false), reply⟩] ∧
      (reply.isRejected = false →
        (updateItem env client opts remoteByName loc w).1 = .ok () ∧
        (∃ pre, (updateItem env client opts remoteByName loc w).2.console
          = w.console ++ pre ++ [.updatedBaseOnly loc.name r.id]) ∧
        (Report.updatedBaseOnly loc.name r.id).level = .warn ∧
        ∀ items, updatePhase env client opts remoteByName (loc :: items) w =
          updatePhase env client opts remoteByName items
            (updateItem env client opts remoteByName loc w).2) ∧
      (∀ e2, reply = .rejected e2 →
        (updateItem env client opts remoteByName loc w).1 = .error (.rejected e2))
    from ⟨key.1, b1, b2, b3, b4, b5, key.2⟩
  have hunf : updateItem env client opts remoteByName loc w =
      (updatePayload env client opts (some r) loc >>=
        fun p => sendUpdate env client opts (some r) loc p) w := by
    unfold updateItem; rw [hr]
  rw [hunf, andThen_apply] at hnew
  rcases hp : updatePayload env client opts (some r) loc w with ⟨e0 | p0, w1⟩
  · exfalso
    obtain ⟨hc, c1, q1⟩ := emits_calls_of_eq (updatePayload_emits env client opts (some r) loc
      (fun x => x.call.isHostCall = true) (fun _ => rfl) (fun _ _ => rfl)) hp
    rw [hp] at hnew
    simp only at hnew
    rw [c1] at hnew
    have := List.append_cancel_left hnew
    subst this
    rw [filter_isUpdateTest_hostCalls hc q1] at hfirst
    cases hfirst
  · obtain ⟨hc, c1, q1⟩ := emits_calls_of_eq (updatePayload_emits env client opts (some r) loc
      (fun x => x.call.isHostCall = true) (fun _ => rfl) (fun _ _ => rfl)) hp
    have k1 := (updatePayload_quiet env client opts (some r) loc).out w
    rw [hp] at k1 hnew
    simp only at k1 hnew
    have hout : updateItem env client opts remoteByName loc w =
        sendUpdate env client opts (some r) loc p0 w1 := by
      rw [hunf, andThen_apply, hp]
    have hphase : ∀ items, (sendUpdate env client opts (some r) loc p0 w1).1 = .ok () →
        updatePhase env client opts remoteByName (loc :: items) w =
          updatePhase env client opts remoteByName items
            (sendUpdate env client opts (some r) loc p0 w1).2 := by
      intro items hok
      rw [← hout] at hok ⊢
      exact updatePhase_cons_of_ok env client opts remoteByName loc items w hok
    rw [hout]
    rcases sendUpdate_cases env client opts r loc p0 w1 with
      ⟨v, hcalls, hres⟩ | ⟨e1, hcalls, hnot, hres⟩ | ⟨e1, v, hcalls, _, _, hres, hcons⟩ |
      ⟨e1, e2, hcalls, _, _, hres⟩
    all_goals
      rw [hcalls, c1, List.append_assoc] at hnew
      have hn := List.append_cancel_left hnew
      subst hn
      rw [List.filter_append, filter_isUpdateTest_hostCalls hc q1] at hfirst
      simp only [List.nil_append, List.filter_cons, Call.isUpdateTest, if_true,
        List.filter_nil, List.cons.injEq, Exchange.mk.injEq, Call.updateTest.injEq,
        Reply.rejected.injEq] at hfirst
    · exact absurd hfirst.1.2 (by simp)
    · obtain ⟨⟨⟨_, _⟩, he⟩, _⟩ := hfirst
      subst he
      exact absurd ⟨hext, h400⟩ hnot
    · obtain ⟨⟨⟨hid, _⟩, _⟩, hrest⟩ := hfirst
      exact ⟨hid.symm, .value v, hrest.symm, fun _ => ⟨hres, by rw [k1] at hcons; exact hcons,
        rfl, fun items => hphase items hres⟩, fun e2 h => by cases h⟩
    · obtain ⟨⟨⟨hid, _⟩, _⟩, hrest⟩ := hfirst
      exact ⟨hid.symm, .rejected e2, hrest.symm, fun h => by simp [Reply.isRejected] at h,
        fun e3 h => by cases h; exact hres⟩

/-- C7, at the sample update of `checkout`: the first call is rejected with
status 400, the one further call carries the base-only payload to the same
id `11`, and the item ends without error. -/
theorem updateItem_retries_base_only_witness :
    (degradedUpdate.2.calls.filter (fun x => x.call.isUpdateTest)
      = [⟨.updateTest (.num 11)
            (buildPayloadFromLocal tableRuntime localCheckout true (some remoteCheckout) true),
          .rejected { status := some 400 }⟩,
        ⟨.updateTest (.num 11)
            (buildPayloadFromLocal tableRuntime localCheckout false (some remoteCheckout) false),
          .value .null⟩]) ∧
    (JVal.num 11 = remoteCheckout.id ∧
    (buildPayloadFromLocal tableRuntime localCheckout false (some remoteCheckout) false).name
      = none ∧
    (buildPayloadFromLocal tableRuntime localCheckout false
      (some remoteCheckout) false).apdex_target = none ∧
    (buildPayloadFromLocal tableRuntime localCheckout false
      (some remoteCheckout) false).p95_target = none ∧
    (buildPayloadFromLocal tableRuntime localCheckout false
      (some remoteCheckout) false).error_perc_target = none ∧
    (buildPayloadFromLocal tableRuntime localCheckout false
      (some remoteCheckout) false).region_servers = .undefined ∧
    ∃ reply,
      [(⟨.updateTest (.num 11)
          (buildPayloadFromLocal tableRuntime localCheckout false (some remoteCheckout) false),
        .value .null⟩ : Exchange)] =
        [⟨.updateTest remoteCheckout.id
          (buildPayloadFromLocal tableRuntime localCheckout false (some remoteCheckout) false),
          reply⟩] ∧
      (reply.isRejected = false →
        degradedUpdate.1 = .ok () ∧
        (∃ pre, degradedUpdate.2.console
          = (startOf [.rejected { status := some 400 }, .value .null]).console ++ pre ++
            [.updatedBaseOnly localCheckout.name remoteCheckout.id]) ∧
        (Report.updatedBaseOnly localCheckout.name remoteCheckout.id).level = .warn ∧
        ∀ items, updatePhase tableRuntime scriptedClient applyAll
            [("checkout", remoteCheckout)] (localCheckout :: items)
            (startOf [.rejected { status := some 400 }, .value .null]) =
          updatePhase tableRuntime scriptedClient applyAll [("checkout", remoteCheckout)] items
            degradedUpdate.2) ∧
      (∀ e2, reply = .rejected e2 → degradedUpdate.1 = .error (.rejected e2))) :=
  ⟨rfl, updateItem_retries_base_only tableRuntime scriptedClient applyAll
    [("checkout", remoteCheckout)] localCheckout remoteCheckout
    (startOf [.rejected { status := some 400 }, .value .null])
    degradedUpdate.2.calls
    [⟨.updateTest (.num 11)
        (buildPayloadFromLocal tableRuntime localCheckout false (some remoteCheckout) false),
      .value .null⟩]
    (.num 11)
    (buildPayloadFromLocal tableRuntime localCheckout true (some remoteCheckout) true)
    { status := some 400 } rfl rfl rfl rfl rfl⟩

/-! ## Creation requires a region -/

theorem createPhase_cons {σ : Type} (env : Builtins) (client : Client σ) (opts : Options)
    (loc : LocalTest) (items : List LocalTest) :
    createPhase env client opts (loc :: items) =
      (createItem env client opts loc >>= fun _ => createPhase env client opts items) := rfl

theorem createPhase_append {σ : Type} (env : Builtins) (client : Client σ) (opts : Options)
    (pre items : List LocalTest) (w : Run σ) :
    createPhase env client opts (pre ++ items) w =
      (createPhase env client opts pre >>= fun _ => createPhase env client opts items) w := by
  induction pre generalizing w with
  | nil => rfl
  | cons loc rest ih =>
    rw [List.cons_append, createPhase_cons, createPhase_cons]
    simp only [andThen_apply]
    rcases createItem env client opts loc w with ⟨e | u, w1⟩
    · rfl
    · simp only [ih w1, andThen_apply]

/-- C8. An item to create that is reached with `allowCreate` enabled and has
no region in its local config makes the create loop throw the validation
error carrying `rootDir`, the folder and `config.json`, and leaves the run
state as it was: no client call (no `createHost`, `listHosts`, `createTest`),
no console line, no change of the host cache.  The error leaves the create
loop, and the three phases, from wherever the item stands in `toCreate`. -/
theorem createItem_requires_region {σ : Type} (env : Builtins) (client : Client σ)
    (opts : Options) (loc : LocalTest) (items : List LocalTest) (w : Run σ)
    (hallow : opts.allowCreate = true) (hregion : loc.config.region.truthy = false) :
    createItem env client opts loc w
      = (.error (.createRequiresRegion opts.rootDir loc.folder "config.json"), w) ∧
    createPhase env client opts (loc :: items) w
      = (.error (.createRequiresRegion opts.rootDir loc.folder "config.json"), w) ∧
    (∀ pre w0, createPhase env client opts pre w0 = (.ok (), w) →
      createPhase env client opts (pre ++ loc :: items) w0
        = (.error (.createRequiresRegion opts.rootDir loc.folder "config.json"), w)) ∧
    (∀ plan pre w0 w1, plan.toCreate = pre ++ loc :: items →
      updatePhase env client opts plan.remoteByName plan.toUpdate w0 = (.ok (), w1) →
      createPhase env client opts pre w1 = (.ok (), w) →
      applyPlan env client opts plan w0
        = (.error (.createRequiresRegion opts.rootDir loc.folder "config.json"), w)) := by
  have h : createItem env client opts loc w
      = (.error (.createRequiresRegion opts.rootDir loc.folder "config.json"), w) := by
    simp [createItem, hallow, hregion, Eff.raise]
  have h2 : createPhase env client opts (loc :: items) w
      = (.error (.createRequiresRegion opts.rootDir loc.folder "config.json"), w) := by
    unfold createPhase
    rw [andThen_apply, h]
  have h3 : ∀ pre w0, createPhase env client opts pre w0 = (.ok (), w) →
      createPhase env client opts (pre ++ loc :: items) w0
        = (.error (.createRequiresRegion opts.rootDir loc.folder "config.json"), w) := by
    intro pre w0 hpre
    rw [createPhase_append, andThen_apply, hpre]
    exact h2
  refine ⟨h, h2, h3, ?_⟩
  intro plan pre w0 w1 hplan hupd hpre
  unfold applyPlan
  rw [andThen_apply, hupd]
  simp only
  rw [andThen_apply, hplan, h3 pre w1 hpre]

/-- C8, at the sample folder `checkout`, which has no region. -/
theorem createItem_requires_region_witness :
    createItem tableRuntime scriptedClient applyAll localCheckout (startOf [.value .null])
      = (.error (.createRequiresRegion "tests" "checkout" "config.json"),
          startOf [.value .null]) ∧
    createPhase tableRuntime scriptedClient applyAll [localCheckout, localSearch]
        (startOf [.value .null])
      = (.error (.createRequiresRegion "tests" "checkout" "config.json"),
          startOf [.value .null]) :=
  ⟨(createItem_requires_region tableRuntime scriptedClient applyAll localCheckout [localSearch]
      (startOf [.value .null]) rfl rfl).1,
    (createItem_requires_region tableRuntime scriptedClient applyAll localCheckout [localSearch]
      (startOf [.value .null]) rfl rfl).2.1⟩

/-! ## The host resolver -/

/-- For a host string that is absent (falsy) or does
not parse to a HostSpec, `findOrCreateHostId` throws nothing: it returns
`undefined` and leaves the run as it was, without any client call; an update
or a create whose `config.host` is present but does not parse therefore builds
its payload with no `host_id`, and an update does not carry over the host
reference of the matched remote entity either. -/
theorem findOrCreateHostId_unparsable {σ : Type} (env : Builtins) (client : Client σ)
    (opts : Options) (hostStr : JVal) (remote : Option RemoteTest) (loc : LocalTest) (w : Run σ)
    (hbad : hostStr.truthy = false ∨ parseHostString env hostStr = none) :
    findOrCreateHostId env client hostStr w = (.ok .undefined, w) ∧
    (loc.config.host = hostStr → hostStr.truthy = true →
      (∃ p, updatePayload env client opts remote loc w = (.ok p, w) ∧ p.host_id = .undefined) ∧
      (∃ p, createPayload env client opts loc w = (.ok p, w) ∧ p.host_id = .undefined)) := by
  have h : findOrCreateHostId env client hostStr w = (.ok .undefined, w) := by
    unfold findOrCreateHostId
    rcases hbad with hbad | hbad
    · simp [hbad, pure, Eff.ret]
    · by_cases ht : hostStr.truthy = true
      · simp [ht, hbad, pure, Eff.ret]
      · simp [ht, pure, Eff.ret]
  refine ⟨h, ?_⟩
  intro hl ht
  subst hl
  constructor
  · refine ⟨{ buildPayloadFromLocal env loc opts.tryExtended remote true with
      host_id := .undefined }, ?_, rfl⟩
    unfold updatePayload
    simp only [ht, if_true, andThen_apply, h]
    rfl
  · refine ⟨{ buildPayloadFromLocal env loc opts.tryExtended none true with
      host_id := .undefined }, ?_, rfl⟩
    unfold createPayload
    simp only [ht, if_true, andThen_apply, h]
    rfl

/-- The resolver at the sample folder whose host string is `example.com`. -/
theorem findOrCreateHostId_unparsable_witness :
    findOrCreateHostId tableRuntime scriptedClient (.str "example.com") (startOf [.value .null])
      = (.ok .undefined, startOf [.value .null]) ∧
    (∃ p, updatePayload tableRuntime scriptedClient applyAll (some remoteWithHost) localBadHost
        (startOf [.value .null]) = (.ok p, startOf [.value .null]) ∧ p.host_id = .undefined) :=
  ⟨(findOrCreateHostId_unparsable tableRuntime scriptedClient applyAll (.str "example.com")
      (some remoteWithHost) localBadHost (startOf [.value .null]) (Or.inr rfl)).1,
    ((findOrCreateHostId_unparsable tableRuntime scriptedClient applyAll (.str "example.com")
      (some remoteWithHost) localBadHost (startOf [.value .null]) (Or.inr rfl)).2 rfl rfl).1⟩

/-- C9. The code departs from the claim at the host string `example.com`,
which does not parse.  `createTestCommand` throws `Host must be
protocol://url:port` for it; the resolver of `pushCommand` returns `undefined`
for it without an error and without a client call, and the update of
`checkout` is sent, accepted and reported as updated with a payload that has
no `host_id`: the host of the folder is dropped, and the host reference `5` of
the remote test is not kept either. -/
theorem findOrCreateHostId_drops_malformed_host :
    parseHostString tableRuntime (.str "example.com") = none ∧
    createTestCommandHost tableRuntime (.str "example.com")
      = .error "Host must be protocol://url:port" ∧
    findOrCreateHostId tableRuntime scriptedClient (.str "example.com") (startOf [])
      = (.ok .undefined, startOf []) ∧
    remoteWithHost.host_id = .num 5 ∧
    badHostUpdate.1 = .ok () ∧
    badHostUpdate.2.calls =
      [⟨.updateTest (.num 11)
        (buildPayloadFromLocal tableRuntime localBadHost true (some remoteWithHost) true),
        .value .null⟩] ∧
    (buildPayloadFromLocal tableRuntime localBadHost true (some remoteWithHost) true).host_id
      = .undefined ∧
    badHostUpdate.2.console = [.updated "checkout" (.num 11)] :=
  ⟨rfl, rfl, rfl, rfl, rfl, rfl, rfl, rfl⟩

/-! ## The host cache along a trace -/

theorem cacheFrom_append (c : List RemoteHost) (a b : List Exchange) :
    cacheFrom c (a ++ b) = cacheFrom (cacheFrom c a) b := by
  simp [cacheFrom, List.foldl_append]

theorem createdSpecs_append (a b : List Exchange) :
    createdSpecs (a ++ b) = createdSpecs a ++ createdSpecs b := by
  simp [createdSpecs, List.filterMap_append]

theorem respectsCache_cons (env : Builtins) (c : List RemoteHost) (x : Exchange)
    (rest : List Exchange) :
    respectsCache env c (x :: rest) ↔
      (∀ spec, x.call = .createHost spec → c.find? (hostMatches env spec) = none) ∧
        respectsCache env (cacheAfter c x) rest := Iff.rfl

theorem listsCreated_cons (env : Builtins) (seen : List HostSpec) (x : Exchange)
    (rest : List Exchange) :
    listsCreated env seen (x :: rest) ↔
      (x.call = .listHosts → ∀ spec ∈ seen,
        ∃ hs, x.reply = .hosts hs ∧ hs.any (hostMatches env spec) = true) ∧
        listsCreated env (seen ++ createdSpecs [x]) rest := Iff.rfl

theorem cacheFrom_cons (c : List RemoteHost) (x : Exchange) (rest : List Exchange) :
    cacheFrom c (x :: rest) = cacheFrom (cacheAfter c x) rest := rfl

theorem respectsCache_append (env : Builtins) (c : List RemoteHost) (a b : List Exchange) :
    respectsCache env c (a ++ b) ↔ respectsCache env c a ∧ respectsCache env (cacheFrom c a) b := by
  induction a generalizing c with
  | nil => simp [respectsCache, cacheFrom]
  | cons x rest ih =>
    rw [List.cons_append, respectsCache_cons, respectsCache_cons, ih, cacheFrom_cons, and_assoc]

theorem listsCreated_append (env : Builtins) (seen : List HostSpec) (a b : List Exchange) :
    listsCreated env seen (a ++ b) ↔
      listsCreated env seen a ∧ listsCreated env (seen ++ createdSpecs a) b := by
  induction a generalizing seen with
  | nil => simp [listsCreated, createdSpecs]
  | cons x rest ih =>
    have e : createdSpecs (x :: rest) = createdSpecs [x] ++ createdSpecs rest :=
      createdSpecs_append [x] rest
    rw [List.cons_append, listsCreated_cons, listsCreated_cons, ih, e, List.append_assoc,
      and_assoc]

theorem cacheFrom_of_no_hostCall (c : List RemoteHost) (tr : List Exchange)
    (h : ∀ x ∈ tr, x.call.isHostCall = false) : cacheFrom c tr = c := by
  induction tr generalizing c with
  | nil => rfl
  | cons x rest ih =>
    have hx := h x (List.mem_cons_self _ _)
    have e : cacheAfter c x = c := by
      unfold cacheAfter
      cases hc : x.call <;> simp_all [Call.isHostCall]
    simp only [cacheFrom, List.foldl_cons, e]
    exact ih c (fun y hy => h y (List.mem_cons_of_mem _ hy))

theorem createdSpecs_of_no_hostCall (tr : List Exchange)
    (h : ∀ x ∈ tr, x.call.isHostCall = false) : createdSpecs tr = [] := by
  induction tr with
  | nil => rfl
  | cons x rest ih =>
    have hx := h x (List.mem_cons_self _ _)
    have hr := ih (fun y hy => h y (List.mem_cons_of_mem _ hy))
    unfold createdSpecs at hr ⊢
    rw [List.filterMap_cons]
    cases hc : x.call <;> simp_all [Call.isHostCall]

theorem respectsCache_of_no_hostCall (env : Builtins) (c : List RemoteHost)
    (tr : List Exchange) (h : ∀ x ∈ tr, x.call.isHostCall = false) :
    respectsCache env c tr := by
  induction tr generalizing c with
  | nil => trivial
  | cons x rest ih =>
    have hx := h x (List.mem_cons_self _ _)
    refine ⟨?_, ih _ (fun y hy => h y (List.mem_cons_of_mem _ hy))⟩
    intro spec hs
    rw [hs] at hx
    cases hx

/-- A `createHost` anywhere in a trace that respects the cache found no
matching host in the cache built by the exchanges before it. -/
theorem respectsCache_split (env : Builtins) (c : List RemoteHost)
    (pre post : List Exchange) (spec : HostSpec) (reply : Reply)
    (h : respectsCache env c (pre ++ ⟨.createHost spec, reply⟩ :: post)) :
    (cacheFrom c pre).find? (hostMatches env spec) = none :=
  ((respectsCache_append env c pre _).mp h).2.1 spec rfl

/-- The split form of `listsCreated`. -/
theorem listsCreated_of_split (env : Builtins) (seen : List HostSpec) (tr : List Exchange)
    (h : ∀ pre reply post, tr = pre ++ ⟨.listHosts, reply⟩ :: post →
      ∀ spec ∈ seen ++ createdSpecs pre,
        ∃ hs, reply = .hosts hs ∧ hs.any (hostMatches env spec) = true) :
    listsCreated env seen tr := by
  induction tr generalizing seen with
  | nil => trivial
  | cons x rest ih =>
    refine ⟨?_, ?_⟩
    · intro hx spec hs
      obtain ⟨c, r⟩ := x
      simp only at hx
      subst hx
      exact h [] r rest rfl spec (by simpa [createdSpecs] using hs)
    · apply ih
      intro pre reply post hsplit spec hs
      refine h (x :: pre) reply post (by rw [hsplit]; rfl) spec ?_
      have e : createdSpecs (x :: pre) = createdSpecs [x] ++ createdSpecs pre :=
        createdSpecs_append [x] pre
      rw [e, ← List.append_assoc]
      exact hs

/-! ## The four ways a host resolution can go -/

theorem findOrCreateHostId_found {σ : Type} (env : Builtins) (client : Client σ)
    (hostStr : JVal) (parsed : HostSpec) (found : RemoteHost) (w : Run σ)
    (ht : hostStr.truthy = true) (hp : parseHostString env hostStr = some parsed)
    (hf : w.hosts.find? (hostMatches env parsed) = some found) :
    findOrCreateHostId env client hostStr w = (.ok found.id, w) := by
  simp [findOrCreateHostId, ht, hp, bind, Eff.andThen, getHosts, hf, pure, Eff.ret]

theorem findOrCreateHostId_rejected {σ : Type} (env : Builtins) (client : Client σ)
    (hostStr : JVal) (parsed : HostSpec) (w : Run σ) (e : Rejection) (s : σ)
    (ht : hostStr.truthy = true) (hp : parseHostString env hostStr = some parsed)
    (hf : w.hosts.find? (hostMatches env parsed) = none)
    (hc : client.createHost parsed w.remote = (.error e, s)) :
    findOrCreateHostId env client hostStr w =
      (.error (.rejected e),
        { w with remote := s, calls := w.calls ++ [⟨.createHost parsed, .rejected e⟩] }) := by
  simp [findOrCreateHostId, ht, hp, bind, Eff.andThen, getHosts, hf, perform, hc]

theorem findOrCreateHostId_refresh_failed {σ : Type} (env : Builtins) (client : Client σ)
    (hostStr : JVal) (parsed : HostSpec) (w : Run σ) (created : Option CreatedHost)
    (e : Rejection) (s1 s2 : σ)
    (ht : hostStr.truthy = true) (hp : parseHostString env hostStr = some parsed)
    (hf : w.hosts.find? (hostMatches env parsed) = none)
    (hc : client.createHost parsed w.remote = (.ok created, s1))
    (hl : client.listHosts s1 = (.error e, s2)) :
    findOrCreateHostId env client hostStr w =
      (.ok (createdHostId created),
        { w with remote := s2, calls := w.calls ++
          [⟨.createHost parsed, .host created⟩, ⟨.listHosts, .rejected e⟩] }) := by
  simp [findOrCreateHostId, ht, hp, bind, Eff.andThen, getHosts, hf, perform, hc, hl,
    Eff.attempt, pure, Eff.ret]

theorem findOrCreateHostId_refreshed {σ : Type} (env : Builtins) (client : Client σ)
    (hostStr : JVal) (parsed : HostSpec) (w : Run σ) (created : Option CreatedHost)
    (hs : List RemoteHost) (s1 s2 : σ)
    (ht : hostStr.truthy = true) (hp : parseHostString env hostStr = some parsed)
    (hf : w.hosts.find? (hostMatches env parsed) = none)
    (hc : client.createHost parsed w.remote = (.ok created, s1))
    (hl : client.listHosts s1 = (.ok hs, s2)) :
    findOrCreateHostId env client hostStr w =
      (.ok (createdHostId created),
        { w with remote := s2, hosts := hs, calls := w.calls ++
          [⟨.createHost parsed, .host created⟩, ⟨.listHosts, .hosts hs⟩] }) := by
  simp [findOrCreateHostId, ht, hp, bind, Eff.andThen, getHosts, hf, perform, hc, hl,
    Eff.attempt, setHosts, pure, Eff.ret]

theorem findOrCreateHostId_skipped {σ : Type} (env : Builtins) (client : Client σ)
    (hostStr : JVal) (w : Run σ)
    (hbad : hostStr.truthy = false ∨ parseHostString env hostStr = none) :
    findOrCreateHostId env client hostStr w = (.ok .undefined, w) := by
  unfold findOrCreateHostId
  rcases hbad with hbad | hbad
  · simp [hbad, pure, Eff.ret]
  · by_cases ht : hostStr.truthy = true
    · simp [ht, hbad, pure, Eff.ret]
    · simp [ht, pure, Eff.ret]

/-! ## Computations that leave the host cache alone -/

theorem keepsHosts_ret {σ α : Type} (a : α) : KeepsHosts (pure a : Eff σ α) := ⟨fun _ => rfl⟩

theorem keepsHosts_raise {σ α : Type} (e : Failure) : KeepsHosts (Eff.raise e : Eff σ α) :=
  ⟨fun _ => rfl⟩

theorem keepsHosts_say {σ : Type} (r : Report) : KeepsHosts (say r : Eff σ Unit) :=
  ⟨fun _ => rfl⟩

theorem keepsHosts_perform {σ α : Type} (call : Call) (reply : α → Reply)
    (op : σ → Except Rejection α × σ) : KeepsHosts (perform call reply op) := by
  constructor
  intro w
  unfold LfCli.perform
  rcases hop : op w.remote with ⟨a | a, s⟩ <;> rfl

theorem keepsHosts_bind {σ α β : Type} {m : Eff σ α} {f : α → Eff σ β}
    (hm : KeepsHosts m) (hf : ∀ a, KeepsHosts (f a)) : KeepsHosts (m >>= f) := by
  constructor
  intro w
  have h1 := hm.out w
  rw [andThen_apply]
  rcases hmw : m w with ⟨e | a, w1⟩
  · rw [hmw] at h1; exact h1
  · rw [hmw] at h1
    have h2 := (hf a).out w1
    simp only at h1 ⊢
    rw [h2, h1]

theorem keepsHosts_attempt {σ α : Type} {m : Eff σ α} (hm : KeepsHosts m) :
    KeepsHosts (Eff.attempt m) :=
  ⟨fun w => by simpa [Eff.attempt] using hm.out w⟩

theorem sendUpdate_keepsHosts {σ : Type} (env : Builtins) (client : Client σ) (opts : Options)
    (remote : Option RemoteTest) (loc : LocalTest) (p : Payload) :
    KeepsHosts (sendUpdate env client opts remote loc p) := by
  unfold sendUpdate
  repeat (first
    | with_reducible exact keepsHosts_ret _
    | with_reducible exact keepsHosts_raise _
    | with_reducible exact keepsHosts_say _
    | with_reducible exact keepsHosts_perform _ _ _
    | with_reducible apply keepsHosts_attempt
    | with_reducible apply keepsHosts_bind
    | intro _
    | split)

theorem sendCreate_keepsHosts {σ : Type} (env : Builtins) (client : Client σ) (opts : Options)
    (loc : LocalTest) (p : Payload) :
    KeepsHosts (sendCreate env client opts loc p) := by
  unfold sendCreate
  repeat (first
    | with_reducible exact keepsHosts_ret _
    | with_reducible exact keepsHosts_raise _
    | with_reducible exact keepsHosts_say _
    | with_reducible exact keepsHosts_perform _ _ _
    | with_reducible apply keepsHosts_attempt
    | with_reducible apply keepsHosts_bind
    | intro _
    | split)

theorem deletePhase_keepsHosts {σ : Type} (client : Client σ)
    (remoteByName : List (String × RemoteTest)) (names : List String) :
    KeepsHosts (deletePhase client remoteByName names) := by
  induction names with
  | nil => exact keepsHosts_ret _
  | cons name rest ih =>
    unfold deletePhase
    apply keepsHosts_bind
    · split
      · exact keepsHosts_ret _
      · exact keepsHosts_bind (keepsHosts_perform _ _ _) (fun _ => keepsHosts_say _)
    · exact fun _ => ih

/-! ## The discipline of the host cache -/

theorem find_ne_none_of_any (env : Builtins) (hosts : List RemoteHost) (spec : HostSpec)
    (h : hosts.any (hostMatches env spec) = true) :
    hosts.find? (hostMatches env spec) ≠ none := by
  intro hn
  rw [List.find?_eq_none] at hn
  obtain ⟨x, hx, hm⟩ := List.any_eq_true.mp h
  exact hn x hx hm

theorem disciplined_of_no_hostCall {σ α : Type} (env : Builtins) {m : Eff σ α}
    (hE : Emits (fun x => x.call.isHostCall = false) m) (hK : KeepsHosts m) :
    Disciplined env m := by
  constructor
  intro w
  obtain ⟨new, h1, h2⟩ := hE.out w
  have hk := hK.out w
  refine ⟨new, h1, ?_, respectsCache_of_no_hostCall env _ new h2, ?_⟩
  · rw [cacheFrom_of_no_hostCall _ new h2, hk]
  · intro seen hseen _
    rw [createdSpecs_of_no_hostCall new h2]
    refine ⟨List.nodup_nil, fun _ h => absurd h (List.not_mem_nil _), ?_⟩
    intro _ spec hs
    rw [hk]
    exact hseen spec (by simpa using hs)

theorem disciplined_ret {σ α : Type} (env : Builtins) (a : α) :
    Disciplined env (pure a : Eff σ α) :=
  disciplined_of_no_hostCall env (emits_ret _ a) (keepsHosts_ret a)

theorem disciplined_raise {σ α : Type} (env : Builtins) (e : Failure) :
    Disciplined env (Eff.raise e : Eff σ α) :=
  disciplined_of_no_hostCall env (emits_raise _ e) (keepsHosts_raise e)

theorem disciplined_say {σ : Type} (env : Builtins) (r : Report) :
    Disciplined env (say r : Eff σ Unit) :=
  disciplined_of_no_hostCall env (emits_say _ r) (keepsHosts_say r)

theorem disciplined_bind {σ α β : Type} {env : Builtins} {m : Eff σ α} {f : α → Eff σ β}
    (hm : Disciplined env m) (hf : ∀ a, Disciplined env (f a)) :
    Disciplined env (m >>= f) := by
  constructor
  intro w
  obtain ⟨n1, c1, k1, r1, d1⟩ := hm.out w
  rw [andThen_apply]
  rcases hmw : m w with ⟨e | a, w1⟩
  · rw [hmw] at c1 k1 d1
    refine ⟨n1, c1, k1, r1, ?_⟩
    intro seen hseen hl
    obtain ⟨nd, dj, _⟩ := d1 seen hseen hl
    exact ⟨nd, dj, fun ⟨a, ha⟩ => by cases ha⟩
  · rw [hmw] at c1 k1 d1
    simp only at c1 k1 d1
    obtain ⟨n2, c2, k2, r2, d2⟩ := (hf a).out w1
    refine ⟨n1 ++ n2, ?_, ?_, ?_, ?_⟩
    · simp only
      rw [c2, c1, List.append_assoc]
    · simp only
      rw [k2, k1, cacheFrom_append]
    · rw [respectsCache_append, ← k1]
      exact ⟨r1, r2⟩
    · intro seen hseen hl
      rw [listsCreated_append] at hl
      obtain ⟨nd1, dj1, m1⟩ := d1 seen hseen hl.1
      obtain ⟨nd2, dj2, m2⟩ := d2 (seen ++ createdSpecs n1) (m1 ⟨a, rfl⟩) hl.2
      rw [createdSpecs_append]
      refine ⟨?_, ?_, ?_⟩
      · rw [List.nodup_append]
        refine ⟨nd1, nd2, ?_⟩
        intro spec h1 h2
        exact dj2 spec h2 (List.mem_append_right _ h1)
      · intro spec hs
        rcases List.mem_append.mp hs with hs | hs
        · exact dj1 spec hs
        · exact fun h => dj2 spec hs (List.mem_append_left _ h)
      · intro hok spec hs
        simp only
        rw [← List.append_assoc] at hs
        exact m2 hok spec hs

theorem disciplined_unchanged {σ α : Type} (env : Builtins) (m : Eff σ α) (w : Run σ) (a : α)
    (h : m w = (.ok a, w)) :
    ∃ new, (m w).2.calls = w.calls ++ new ∧
      (m w).2.hosts = cacheFrom w.hosts new ∧
      respectsCache env w.hosts new ∧
      ∀ seen, (∀ spec ∈ seen, w.hosts.any (hostMatches env spec) = true) →
        listsCreated env seen new →
        (createdSpecs new).Nodup ∧ (∀ spec ∈ createdSpecs new, spec ∉ seen) ∧
        ((∃ a, (m w).1 = .ok a) →
          ∀ spec ∈ seen ++ createdSpecs new,
            (m w).2.hosts.any (hostMatches env spec) = true) := by
  rw [h]
  refine ⟨[], by simp, rfl, trivial, ?_⟩
  intro seen hseen _
  refine ⟨List.nodup_nil, fun _ h => absurd h (List.not_mem_nil _), ?_⟩
  intro _ spec hs
  exact hseen spec (by simpa [createdSpecs] using hs)

theorem findOrCreateHostId_disciplined {σ : Type} (env : Builtins) (client : Client σ)
    (hostStr : JVal) : Disciplined env (findOrCreateHostId env client hostStr) := by
  constructor
  intro w
  by_cases ht : hostStr.truthy = true
  swap
  · exact disciplined_unchanged env _ w _
      (findOrCreateHostId_skipped env client hostStr w (Or.inl (by simpa using ht)))
  cases hp : parseHostString env hostStr with
  | none =>
    exact disciplined_unchanged env _ w _
      (findOrCreateHostId_skipped env client hostStr w (Or.inr hp))
  | some parsed =>
    cases hf : w.hosts.find? (hostMatches env parsed) with
    | some found =>
      exact disciplined_unchanged env _ w _
        (findOrCreateHostId_found env client hostStr parsed found w ht hp hf)
    | none =>
      have hfresh : ∀ seen : List HostSpec,
          (∀ spec ∈ seen, w.hosts.any (hostMatches env spec) = true) → parsed ∉ seen :=
        fun seen hseen hmem => find_ne_none_of_any env _ _ (hseen _ hmem) hf
      rcases hc : client.createHost parsed w.remote with ⟨e | created, s1⟩
      · rw [findOrCreateHostId_rejected env client hostStr parsed w e s1 ht hp hf hc]
        refine ⟨[⟨.createHost parsed, .rejected e⟩], rfl, rfl, ⟨?_, trivial⟩, ?_⟩
        · intro spec h
          cases h
          exact hf
        · intro seen hseen _
          refine ⟨by simp [createdSpecs], ?_, fun ⟨a, ha⟩ => by cases ha⟩
          intro spec hs
          have e1 : spec = parsed := by simpa [createdSpecs] using hs
          subst e1
          exact hfresh seen hseen
      · rcases hl : client.listHosts s1 with ⟨e | hs, s2⟩
        · rw [findOrCreateHostId_refresh_failed env client hostStr parsed w created e s1 s2
            ht hp hf hc hl]
          refine ⟨[⟨.createHost parsed, .host created⟩, ⟨.listHosts, .rejected e⟩], rfl, rfl,
            ⟨?_, ?_, trivial⟩, ?_⟩
          · intro spec h
            cases h
            exact hf
          · intro spec h
            cases h
          · intro seen _ hl2
            exfalso
            obtain ⟨hs, h1, _⟩ := hl2.2.1 rfl parsed (by simp [createdSpecs])
            cases h1
        · rw [findOrCreateHostId_refreshed env client hostStr parsed w created hs s1 s2
            ht hp hf hc hl]
          refine ⟨[⟨.createHost parsed, .host created⟩, ⟨.listHosts, .hosts hs⟩], rfl, rfl,
            ⟨?_, ?_, trivial⟩, ?_⟩
          · intro spec h
            cases h
            exact hf
          · intro spec h
            cases h
          · intro seen hseen hl2
            refine ⟨by simp [createdSpecs], ?_, ?_⟩
            · intro spec hs2
              have e1 : spec = parsed := by simpa [createdSpecs] using hs2
              subst e1
              exact hfresh seen hseen
            · intro _ spec hs2
              have hs3 : spec ∈ seen ++ createdSpecs [⟨.createHost parsed, .host created⟩] := by
                simpa [createdSpecs] using hs2
              obtain ⟨hs4, h1, h2⟩ := hl2.2.1 rfl spec hs3
              cases h1
              exact h2

theorem updatePayload_disciplined {σ : Type} (env : Builtins) (client : Client σ)
    (opts : Options) (remote : Option RemoteTest) (loc : LocalTest) :
    Disciplined env (updatePayload env client opts remote loc) := by
  unfold updatePayload
  dsimp only
  repeat (first
    | with_reducible exact disciplined_ret _ _
    | with_reducible exact findOrCreateHostId_disciplined _ _ _
    | with_reducible apply disciplined_bind
    | intro _
    | split)

theorem createPayload_disciplined {σ : Type} (env : Builtins) (client : Client σ)
    (opts : Options) (loc : LocalTest) :
    Disciplined env (createPayload env client opts loc) := by
  unfold createPayload
  dsimp only
  repeat (first
    | with_reducible exact disciplined_ret _ _
    | with_reducible exact findOrCreateHostId_disciplined _ _ _
    | with_reducible apply disciplined_bind
    | intro _
    | split)

theorem updatePhase_disciplined {σ : Type} (env : Builtins) (client : Client σ) (opts : Options)
    (remoteByName : List (String × RemoteTest)) (items : List LocalTest) :
    Disciplined env (updatePhase env client opts remoteByName items) := by
  induction items with
  | nil => exact disciplined_ret _ _
  | cons loc rest ih =>
    unfold updatePhase
    refine disciplined_bind ?_ (fun _ => ih)
    unfold updateItem
    exact disciplined_bind (updatePayload_disciplined _ _ _ _ _)
      (fun _ => disciplined_of_no_hostCall env
        (sendUpdate_emits _ _ _ _ _ _ _ (fun _ _ _ => rfl)) (sendUpdate_keepsHosts _ _ _ _ _ _))

theorem createPhase_disciplined {σ : Type} (env : Builtins) (client : Client σ) (opts : Options)
    (items : List LocalTest) :
    Disciplined env (createPhase env client opts items) := by
  induction items with
  | nil => exact disciplined_ret _ _
  | cons loc rest ih =>
    unfold createPhase
    refine disciplined_bind ?_ (fun _ => ih)
    unfold createItem
    split
    · exact disciplined_say _ _
    · split
      · exact disciplined_raise _ _
      · exact disciplined_bind (createPayload_disciplined _ _ _ _)
          (fun _ => disciplined_of_no_hostCall env
            (sendCreate_emits _ _ _ _ _ _ (fun _ _ => rfl)) (sendCreate_keepsHosts _ _ _ _ _))

theorem deletePhase_disciplined {σ : Type} (env : Builtins) (client : Client σ)
    (remoteByName : List (String × RemoteTest)) (names : List String) :
    Disciplined env (deletePhase client remoteByName names) :=
  disciplined_of_no_hostCall env (deletePhase_emits _ _ _ _ (fun _ _ => rfl))
    (deletePhase_keepsHosts _ _ _)

theorem applyPlan_disciplined {σ : Type} (env : Builtins) (client : Client σ) (opts : Options)
    (plan : Plan) : Disciplined env (applyPlan env client opts plan) := by
  unfold applyPlan
  refine disciplined_bind (updatePhase_disciplined _ _ _ _ _) (fun _ => ?_)
  refine disciplined_bind (createPhase_disciplined _ _ _ _) (fun _ => ?_)
  split
  · exact deletePhase_disciplined _ _ _ _
  · split
    · exact disciplined_say _ _
    · exact disciplined_ret _ _

/-- The calls of a whole run respect the cache that starts empty. -/
theorem pushCommand_trace {σ : Type} (env : Builtins) (client : Client σ) (opts : Options)
    (loaded : Except String (List LocalTest)) (w : Run σ) :
    ∃ new, (pushCommand env client opts loaded w).2.calls = w.calls ++ new ∧
      respectsCache env [] new ∧ (listsCreated env [] new → (createdSpecs new).Nodup) := by
  cases loaded with
  | error msg =>
    exact ⟨[], by simp [pushCommand, andThen_apply, Eff.raise], trivial,
      fun _ => List.nodup_nil⟩
  | ok ts =>
    rcases hl : client.listTests w.remote with ⟨e | remoteAll, s⟩
    · exact ⟨[⟨.listTests, .rejected e⟩],
        by simp [pushCommand, andThen_apply, pure, Eff.ret, perform, hl],
        ⟨fun spec h => (by cases h), trivial⟩, fun _ => by simp [createdSpecs]⟩
    · by_cases hdry : opts.dryRun = true
      · exact ⟨[⟨.listTests, .tests remoteAll⟩],
          by simp [pushCommand, andThen_apply, pure, Eff.ret, perform, hl, say, hdry],
          ⟨fun spec h => (by cases h), trivial⟩, fun _ => by simp [createdSpecs]⟩
      · rcases hh : client.listHosts s with ⟨e | hs, s2⟩
        · have hrun : pushCommand env client opts (.ok ts) w =
              applyPlan env client opts (pushPlan ts remoteAll)
                { remote := s2, hosts := [],
                  calls := w.calls ++ [⟨.listTests, .tests remoteAll⟩] ++
                    [⟨.listHosts, .rejected e⟩],
                  console := w.console ++ [.plan (pushPlan ts remoteAll).toUpdate.length
                    (pushPlan ts remoteAll).toCreate.length
                    (pushPlan ts remoteAll).toDelete.length] } := by
            simp [pushCommand, bind, Eff.andThen, pure, Eff.ret, perform, hl, say, hdry,
              Eff.attempt, hh, setHosts]
          obtain ⟨n, c, _, r, d⟩ := (applyPlan_disciplined env client opts
            (pushPlan ts remoteAll)).out
              { remote := s2, hosts := [],
                calls := w.calls ++ [⟨.listTests, .tests remoteAll⟩] ++
                  [⟨.listHosts, .rejected e⟩],
                console := w.console ++ [.plan (pushPlan ts remoteAll).toUpdate.length
                  (pushPlan ts remoteAll).toCreate.length
                  (pushPlan ts remoteAll).toDelete.length] }
          rw [← hrun] at c
          refine ⟨[⟨.listTests, .tests remoteAll⟩, ⟨.listHosts, .rejected e⟩] ++ n, ?_, ?_, ?_⟩
          · rw [c]; simp
          · exact (respectsCache_append env [] _ n).mpr
              ⟨⟨fun spec h => (by cases h), fun spec h => (by cases h), trivial⟩, r⟩
          · intro hlc
            have h2 := ((listsCreated_append env [] _ n).mp hlc).2
            have h3 := (d [] (fun _ h => absurd h (List.not_mem_nil _)) h2).1
            rw [createdSpecs_append]
            exact h3
        · have hrun : pushCommand env client opts (.ok ts) w =
              applyPlan env client opts (pushPlan ts remoteAll)
                { remote := s2, hosts := hs,
                  calls := w.calls ++ [⟨.listTests, .tests remoteAll⟩] ++
                    [⟨.listHosts, .hosts hs⟩],
                  console := w.console ++ [.plan (pushPlan ts remoteAll).toUpdate.length
                    (pushPlan ts remoteAll).toCreate.length
                    (pushPlan ts remoteAll).toDelete.length] } := by
            simp [pushCommand, bind, Eff.andThen, pure, Eff.ret, perform, hl, say, hdry,
              Eff.attempt, hh, setHosts]
          obtain ⟨n, c, _, r, d⟩ := (applyPlan_disciplined env client opts
            (pushPlan ts remoteAll)).out
              { remote := s2, hosts := hs,
                calls := w.calls ++ [⟨.listTests, .tests remoteAll⟩] ++
                  [⟨.listHosts, .hosts hs⟩],
                console := w.console ++ [.plan (pushPlan ts remoteAll).toUpdate.length
                  (pushPlan ts remoteAll).toCreate.length
                  (pushPlan ts remoteAll).toDelete.length] }
          rw [← hrun] at c
          refine ⟨[⟨.listTests, .tests remoteAll⟩, ⟨.listHosts, .hosts hs⟩] ++ n, ?_, ?_, ?_⟩
          · rw [c]; simp
          · exact (respectsCache_append env [] _ n).mpr
              ⟨⟨fun spec h => (by cases h), fun spec h => (by cases h), trivial⟩, r⟩
          · intro hlc
            have h2 := ((listsCreated_append env [] _ n).mp hlc).2
            have h3 := (d [] (fun _ h => absurd h (List.not_mem_nil _)) h2).1
            rw [createdSpecs_append]
            exact h3

/-- The converse of `listsCreated_of_split`. -/
theorem split_of_listsCreated (env : Builtins) (seen : List HostSpec)
    (pre post : List Exchange) (reply : Reply)
    (h : listsCreated env seen (pre ++ ⟨.listHosts, reply⟩ :: post)) :
    ∀ spec ∈ seen ++ createdSpecs pre,
      ∃ hs, reply = .hosts hs ∧ hs.any (hostMatches env spec) = true :=
  ((listsCreated_append env seen pre _).mp h).2.1 rfl

/-- C10, as the code has it. Among the calls of one run, `createHost` is made
only for a tuple that no host of the cache matches, the cache being the reply
of the latest answered `listHosts` of the run (empty before the first); and
when every `listHosts` made after a `createHost` is answered with a list that
has a host matching each tuple created so far, no tuple is created twice. -/
theorem pushCommand_host_discipline {σ : Type} (env : Builtins) (client : Client σ)
    (opts : Options) (loaded : Except String (List LocalTest)) (w : Run σ)
    (new : List Exchange)
    (hnew : (pushCommand env client opts loaded w).2.calls = w.calls ++ new) :
    (∀ pre spec reply post, new = pre ++ ⟨.createHost spec, reply⟩ :: post →
      (cacheFrom [] pre).find? (hostMatches env spec) = none) ∧
    ((∀ pre reply post, new = pre ++ ⟨.listHosts, reply⟩ :: post →
        ∀ spec ∈ createdSpecs pre,
          ∃ hs, reply = .hosts hs ∧ hs.any (hostMatches env spec) = true) →
      (createdSpecs new).Nodup) := by
  obtain ⟨n, c, r, d⟩ := pushCommand_trace env client opts loaded w
  rw [hnew] at c
  have e := List.append_cancel_left c
  subst e
  refine ⟨?_, ?_⟩
  · intro pre spec reply post hsplit
    rw [hsplit] at r
    exact respectsCache_split env [] pre post spec reply r
  · intro hlists
    apply d
    apply listsCreated_of_split
    intro pre reply post hsplit spec hs
    exact hlists pre reply post hsplit spec (by simpa using hs)

/-- The calls of the sample run against a service that lists the created
host. -/
theorem refreshListedRun_calls :
    refreshListedRun.2.calls =
      [⟨.listTests, .tests [remoteApi, remoteWeb]⟩, ⟨.listHosts, .hosts []⟩,
        ⟨.createHost exampleSpec, .host (some { id := .num 1 })⟩,
        ⟨.listHosts, .hosts [exampleHost]⟩,
        ⟨.updateTest (.num 21)
          { buildPayloadFromLocal tableRuntime localApi true (some remoteApi) true with
            host_id := .num 1 }, .value .null⟩,
        ⟨.updateTest (.num 22)
          { buildPayloadFromLocal tableRuntime localWeb true (some remoteWeb) true with
            host_id := .num 1 }, .value .null⟩] := by
  decide!

/-- That run answers every `listHosts` with what was created before it. -/
theorem refreshListedRun_lists :
    listsCreated tableRuntime [] refreshListedRun.2.calls := by
  rw [refreshListedRun_calls]
  refine ⟨fun h => ?_, fun _ spec hs => ?_, fun h => ?_, fun _ spec hs => ?_,
    fun h => ?_, fun h => ?_, trivial⟩
  · cases h
  · cases hs
  · cases h
  · have e : spec = exampleSpec := by simpa [createdSpecs] using hs
    subst e
    exact ⟨[exampleHost], rfl, by decide⟩
  · cases h
  · cases h

/-- C10, as the code has it, at the sample run against a service that lists
the created host: `createHost` is called once for the two folders. -/
theorem pushCommand_host_discipline_witness :
    createdSpecs refreshListedRun.2.calls = [exampleSpec] ∧
    (createdSpecs refreshListedRun.2.calls).Nodup :=
  ⟨by decide!, (pushCommand_host_discipline tableRuntime scriptedClient applyAll
    (.ok [localApi, localWeb])
    (startOf [.tests [remoteApi, remoteWeb], .hosts [],
      .host (some { id := .num 1 }), .hosts [exampleHost], .value .null, .value .null])
    refreshListedRun.2.calls
    (by unfold refreshListedRun; exact (List.nil_append _).symm)).2
    (fun pre reply post hsplit spec hs =>
      split_of_listsCreated tableRuntime [] pre post reply
        (by rw [← hsplit]; exact refreshListedRun_lists) spec (List.mem_append_right _ hs))⟩

/-- C10 as stated fails: with two folders aimed at `http://example.com:8080`
and no such host at first, `createHost` is called twice for the one tuple,
both when each refresh of the host list is rejected and when it is answered
with a list that lacks the new host; either run ends without error. -/
theorem pushCommand_creates_host_twice :
    parseHostString tableRuntime localApi.config.host = some exampleSpec ∧
    parseHostString tableRuntime localWeb.config.host = some exampleSpec ∧
    refreshRejectedRun.1 = .ok () ∧
    createdSpecs refreshRejectedRun.2.calls = [exampleSpec, exampleSpec] ∧
    refreshStaleRun.1 = .ok () ∧
    createdSpecs refreshStaleRun.2.calls = [exampleSpec, exampleSpec] ∧
    ¬ (createdSpecs refreshRejectedRun.2.calls).Nodup := by
  decide!

/-! ## A failure ends the run -/

theorem pushCommand_eq_applyPlan {σ : Type} (env : Builtins) (client : Client σ)
    (opts : Options) (localTests : List LocalTest) (w : Run σ) (remoteAll : List RemoteTest)
    (s : σ) (hl : client.listTests w.remote = (.ok remoteAll, s))
    (hdry : opts.dryRun = false) :
    pushCommand env client opts (.ok localTests) w =
      applyPlan env client opts (pushPlan localTests remoteAll)
        (afterPreload client localTests remoteAll s w) := by
  unfold afterPreload
  rcases hh : client.listHosts s with ⟨e | hs, s2⟩ <;>
    simp [pushCommand, bind, Eff.andThen, pure, Eff.ret, perform, hl, say, hdry,
      Eff.attempt, hh, setHosts]

theorem updatePhase_cons {σ : Type} (env : Builtins) (client : Client σ) (opts : Options)
    (remoteByName : List (String × RemoteTest)) (loc : LocalTest) (items : List LocalTest) :
    updatePhase env client opts remoteByName (loc :: items) =
      (updateItem env client opts remoteByName loc >>=
        fun _ => updatePhase env client opts remoteByName items) := rfl

theorem updatePhase_append {σ : Type} (env : Builtins) (client : Client σ) (opts : Options)
    (remoteByName : List (String × RemoteTest)) (pre items : List LocalTest) (w : Run σ) :
    updatePhase env client opts remoteByName (pre ++ items) w =
      (updatePhase env client opts remoteByName pre >>=
        fun _ => updatePhase env client opts remoteByName items) w := by
  induction pre generalizing w with
  | nil => rfl
  | cons loc rest ih =>
    rw [List.cons_append, updatePhase_cons, updatePhase_cons]
    simp only [andThen_apply]
    rcases updateItem env client opts remoteByName loc w with ⟨e | u, w1⟩
    · rfl
    · simp only [ih w1, andThen_apply]

theorem deletePhase_cons {σ : Type} (client : Client σ)
    (remoteByName : List (String × RemoteTest)) (name : String) (names : List String) :
    deletePhase client remoteByName (name :: names) =
      ((match mapGet remoteByName name with
        | none => pure ()
        | some r => do
          let _ ← perform (.deleteTest r.id) .value (client.deleteTest r.id)
          say (.deleted name r.id)) >>=
        fun _ => deletePhase client remoteByName names) := rfl

theorem bind_assoc_apply {σ α β γ : Type} (m : Eff σ α) (f : α → Eff σ β) (g : β → Eff σ γ)
    (w : Run σ) : ((m >>= f) >>= g) w = (m >>= fun a => f a >>= g) w := by
  simp only [andThen_apply]
  rcases m w with ⟨e | a, w1⟩ <;> rfl

theorem bind_congr_apply {σ α β : Type} (m : Eff σ α) (f g : α → Eff σ β)
    (h : ∀ a w, f a w = g a w) (w : Run σ) : (m >>= f) w = (m >>= g) w := by
  simp only [andThen_apply]
  rcases m w with ⟨e | a, w1⟩
  · rfl
  · exact h a w1

theorem deletePhase_append {σ : Type} (client : Client σ)
    (remoteByName : List (String × RemoteTest)) (pre names : List String) (w : Run σ) :
    deletePhase client remoteByName (pre ++ names) w =
      (deletePhase client remoteByName pre >>=
        fun _ => deletePhase client remoteByName names) w := by
  induction pre generalizing w with
  | nil => rfl
  | cons name rest ih =>
    rw [List.cons_append, deletePhase_cons, deletePhase_cons, bind_assoc_apply]
    exact bind_congr_apply _ _ _ (fun _ w1 => ih w1) w

/-- The state in which a failing run ends: when an update item throws, or a
create item throws, or a `deleteTest` call is rejected, `pushCommand` throws
that error from the state the item or the call leaves. -/
theorem pushCommand_ends_where_item_throws {σ : Type} (env : Builtins) (client : Client σ)
    (opts : Options) (localTests : List LocalTest) (w : Run σ) (remoteAll : List RemoteTest)
    (s : σ) (hl : client.listTests w.remote = (.ok remoteAll, s))
    (hdry : opts.dryRun = false) :
    (∀ pre loc rest w1 w2 e,
      (pushPlan localTests remoteAll).toUpdate = pre ++ loc :: rest →
      updatePhase env client opts (pushPlan localTests remoteAll).remoteByName pre
        (afterPreload client localTests remoteAll s w) = (.ok (), w1) →
      updateItem env client opts (pushPlan localTests remoteAll).remoteByName loc w1
        = (.error e, w2) →
      pushCommand env client opts (.ok localTests) w = (.error e, w2)) ∧
    (∀ pre loc rest w0 w1 w2 e,
      (pushPlan localTests remoteAll).toCreate = pre ++ loc :: rest →
      updatePhase env client opts (pushPlan localTests remoteAll).remoteByName
        (pushPlan localTests remoteAll).toUpdate
        (afterPreload client localTests remoteAll s w) = (.ok (), w0) →
      createPhase env client opts pre w0 = (.ok (), w1) →
      createItem env client opts loc w1 = (.error e, w2) →
      pushCommand env client opts (.ok localTests) w = (.error e, w2)) ∧
    (∀ pre name rest r w0 w1 w2 e s2,
      opts.allowDelete = true →
      (pushPlan localTests remoteAll).toDelete = pre ++ name :: rest →
      updatePhase env client opts (pushPlan localTests remoteAll).remoteByName
        (pushPlan localTests remoteAll).toUpdate
        (afterPreload client localTests remoteAll s w) = (.ok (), w0) →
      createPhase env client opts (pushPlan localTests remoteAll).toCreate w0 = (.ok (), w1) →
      deletePhase client (pushPlan localTests remoteAll).remoteByName pre w1 = (.ok (), w2) →
      mapGet (pushPlan localTests remoteAll).remoteByName name = some r →
      client.deleteTest r.id w2.remote = (.error e, s2) →
      pushCommand env client opts (.ok localTests) w =
        (.error (.rejected e),
          { w2 with remote := s2,
                    calls := w2.calls ++ [⟨.deleteTest r.id, .rejected e⟩] })) := by
  rw [pushCommand_eq_applyPlan env client opts localTests w remoteAll s hl hdry]
  refine ⟨?_, ?_, ?_⟩
  · intro pre loc rest w1 w2 e hsplit hpre hitem
    unfold applyPlan
    rw [andThen_apply, hsplit, updatePhase_append, andThen_apply, hpre]
    simp only
    rw [updatePhase_cons, andThen_apply, hitem]
  · intro pre loc rest w0 w1 w2 e hsplit hupd hpre hitem
    unfold applyPlan
    rw [andThen_apply, hupd]
    simp only
    rw [andThen_apply, hsplit, createPhase_append, andThen_apply, hpre]
    simp only
    rw [createPhase_cons, andThen_apply, hitem]
  · intro pre name rest r w0 w1 w2 e s2 hdel hsplit hupd hcre hpre hmap hrej
    unfold applyPlan
    rw [andThen_apply, hupd]
    simp only
    rw [andThen_apply, hcre]
    simp only [hdel, if_true]
    rw [hsplit, deletePhase_append, andThen_apply, hpre]
    simp only
    rw [deletePhase_cons, andThen_apply]
    simp [hmap, andThen_apply, perform, hrej]

/-- C11 as stated fails: with `checkout` and `search` to update and `legacy`
to delete, the rejection of the update of `checkout` with status 500 ends the
run with that error after three calls; the update of `search` (id 13) and the
deletion of `legacy` (id 12), both planned, are never requested. -/
theorem pushCommand_aborts_on_first_failure :
    (pushPlan [localCheckout, localSearch]
      [remoteCheckout, remoteSearch, remoteLegacy]).toUpdate = [localCheckout, localSearch] ∧
    (pushPlan [localCheckout, localSearch]
      [remoteCheckout, remoteSearch, remoteLegacy]).toDelete = ["legacy"] ∧
    abortedRun.1 = .error (.rejected { status := some 500 }) ∧
    abortedRun.2.calls.map (fun x => x.call) =
      [.listTests, .listHosts,
        .updateTest (.num 11)
          (buildPayloadFromLocal tableRuntime localCheckout true (some remoteCheckout) true)] ∧
    deletedIds abortedRun.2.calls = [] := by
  decide!

/-! ## Parsing a host string -/

/-- The cases of `parseHostString`.  It returns no HostSpec for a value
that is no string, for the empty string and for a string `new URL` refuses.
For a string `new URL` accepts, with `u` what it reports, the result is the
protocol without its colon, the hostname, and as port the number of `u.port`
when `u.port` is not empty, otherwise 443 for `https` and 80 for any other
protocol; there is no HostSpec when the protocol or the hostname is empty or
the port is `0` or no number.  Every HostSpec returned has a non-empty
protocol, a non-empty hostname and a port that is neither `0` nor `NaN`. -/
theorem parseHostString_cases (env : Builtins) (hostStr : JVal) :
    ((∀ s, hostStr ≠ .str s) → parseHostString env hostStr = none) ∧
    (hostStr = .str "" → parseHostString env hostStr = none) ∧
    (∀ s, hostStr = .str s → env.newURL s = none → parseHostString env hostStr = none) ∧
    (∀ s u, hostStr = .str s → s ≠ "" → env.newURL s = some u → u.port = "" →
      String.mk (u.protocol.data.erase ':') ≠ "" → u.hostname ≠ "" →
      parseHostString env hostStr = some
        { protocol := String.mk (u.protocol.data.erase ':'), url := u.hostname,
          port := if String.mk (u.protocol.data.erase ':') = "https" then 443 else 80 }) ∧
    (∀ s u, hostStr = .str s → s ≠ "" → env.newURL s = some u → u.port ≠ "" →
      String.mk (u.protocol.data.erase ':') ≠ "" → u.hostname ≠ "" →
      (stringToNumber env u.port).truthy = true →
      parseHostString env hostStr = some
        { protocol := String.mk (u.protocol.data.erase ':'), url := u.hostname,
          port := stringToNumber env u.port }) ∧
    (∀ s u, hostStr = .str s → env.newURL s = some u → u.port ≠ "" →
      (stringToNumber env u.port).truthy = false → parseHostString env hostStr = none) ∧
    (∀ spec, parseHostString env hostStr = some spec →
      spec.protocol ≠ "" ∧ spec.url ≠ "" ∧ spec.port ≠ .fin 0 ∧ spec.port ≠ .nan) := by
  refine ⟨?_, ?_, ?_, ?_, ?_, ?_, ?_⟩
  · intro h
    cases hostStr <;> first | rfl | exact absurd rfl (h _)
  · intro h
    subst h
    simp [parseHostString]
  · intro s h hu
    subst h
    by_cases hs : s = "" <;> simp [parseHostString, hs, hu]
  · intro s u h hs hu hport hproto hhost
    subst h
    have h443 : (443 : JSNum).truthy = true := by decide
    have h80 : (80 : JSNum).truthy = true := by decide
    by_cases hp : String.mk (u.protocol.data.erase ':') = "https" <;>
      simp [parseHostString, hs, hu, hport, hproto, hhost, hp, h443, h80]
  · intro s u h hs hu hport hproto hhost htruthy
    subst h
    simp [parseHostString, hs, hu, hport, hproto, hhost, htruthy]
  · intro s u h hu hport hfalsy
    subst h
    by_cases hs : s = "" <;> simp [parseHostString, hs, hu, hport, hfalsy]
  · intro spec h
    cases hostStr with
    | str s =>
      by_cases hs : s = ""
      · simp [parseHostString, hs] at h
      · cases hu : env.newURL s with
        | none => simp [parseHostString, hs, hu] at h
        | some u =>
          have h443 : (443 : JSNum).truthy = true := by decide
          have h80 : (80 : JSNum).truthy = true := by decide
          by_cases hproto : String.mk (u.protocol.data.erase ':') = ""
          · simp [parseHostString, hs, hu, hproto] at h
          · by_cases hhost : u.hostname = ""
            · simp [parseHostString, hs, hu, hhost] at h
            · by_cases hport : u.port = ""
              · by_cases hp : String.mk (u.protocol.data.erase ':') = "https"
                · simp [parseHostString, hs, hu, hproto, hhost, hport, hp, h443] at h
                  subst h
                  refine ⟨by simp, hhost, ?_, ?_⟩ <;>
                    · show (443 : JSNum) ≠ _
                      decide
                · simp [parseHostString, hs, hu, hproto, hhost, hport, hp, h80] at h
                  subst h
                  refine ⟨hproto, hhost, ?_, ?_⟩ <;>
                    · show (80 : JSNum) ≠ _
                      decide
              · cases ht : (stringToNumber env u.port).truthy with
                | false => simp [parseHostString, hs, hu, hproto, hhost, hport, ht] at h
                | true =>
                  simp [parseHostString, hs, hu, hproto, hhost, hport, ht] at h
                  subst h
                  refine ⟨hproto, hhost, ?_, ?_⟩
                  · intro h0
                    simp only at h0
                    rw [h0] at ht
                    exact absurd ht (by decide)
                  · intro h0
                    simp only at h0
                    rw [h0] at ht
                    exact absurd ht (by decide)
    | undefined => cases h
    | null => cases h
    | bool b => cases h
    | num n => cases h
    | object o => cases h

/-- Two host strings outside the hosts of the data model: `new URL` reports
the port `0` of `http://example.com:0` and `parseHostString` returns no
HostSpec for it; it reports no port for `ftp://example.com:21`, 21 being the
default of `ftp`, and `parseHostString` takes the port 80. -/
theorem parseHostString_port_zero :
    tableRuntime.newURL "http://example.com:0" = some ⟨"http:", "example.com", "0"⟩ ∧
    parseHostString tableRuntime (.str "http://example.com:0") = none ∧
    tableRuntime.newURL "ftp://example.com:21" = some ⟨"ftp:", "example.com", ""⟩ ∧
    parseHostString tableRuntime (.str "ftp://example.com:21")
      = some { protocol := "ftp", url := "example.com", port := 80 } := by
  decide

theorem hostString_ne_empty (protocol host : String) (port : Option Nat) :
    hostString protocol host port ≠ "" := by
  intro h
  have hl := congrArg String.length h
  unfold hostString at hl
  simp only [String.length_append] at hl
  have h3 : ("://" : String).length = 3 := by decide
  have h0 : ("" : String).length = 0 := by decide
  omega

/-- C12. For an `http` or `https` host string `protocol://host` or
`protocol://host:port` with a non-empty host and a port from 1 to 65535, on a
runtime whose `new URL` reports the string as the URL standard says and whose
`Number` reads the decimal of a reported port, `parseHostString` returns the
HostSpec of the protocol, the host, and the port written, or 443 for `https`
and 80 for `http` when none is written.  It returns no HostSpec for a value
that is no string, for the empty string and for a string `new URL` refuses.
Every HostSpec it returns has a non-empty protocol, a non-empty hostname and
a port that is neither `0` nor `NaN`. -/
theorem parseHostString_well_formed (env : Builtins) :
    (∀ protocol host port,
      (protocol = "http" ∨ protocol = "https") → host ≠ "" →
      (∀ p, port = some p → 1 ≤ p ∧ p ≤ 65535) →
      env.newURL (hostString protocol host port) = some (standardURL protocol host port) →
      (∀ p, port = some p → p ≠ defaultPort protocol →
        stringToNumber env (toString p) = .fin (p : ℚ)) →
      parseHostString env (.str (hostString protocol host port)) = some
        { protocol := protocol, url := host,
          port := .fin ((port.getD (defaultPort protocol) : Nat) : ℚ) }) ∧
    (∀ hostStr,
      ((∀ s, hostStr ≠ .str s) ∨ hostStr = .str "" ∨
        ∃ s, hostStr = .str s ∧ env.newURL s = none) →
      parseHostString env hostStr = none) ∧
    (∀ hostStr spec, parseHostString env hostStr = some spec →
      spec.protocol ≠ "" ∧ spec.url ≠ "" ∧ spec.port ≠ .fin 0 ∧ spec.port ≠ .nan) := by
  refine ⟨?_, ?_, ?_⟩
  · intro protocol host port hproto hhost hport hurl hnum
    have hs := hostString_ne_empty protocol host port
    have herase : String.mk ((protocol ++ ":").data.erase ':') = protocol := by
      rcases hproto with h | h <;> subst h <;> decide
    have hpne : protocol ≠ "" := by
      rcases hproto with h | h <;> subst h <;> decide
    have hdef : (if protocol = "https" then (443 : JSNum) else 80)
        = .fin ((defaultPort protocol : Nat) : ℚ) := by
      unfold defaultPort
      by_cases h : protocol = "https"
      · simp only [h, if_true]
        rfl
      · simp only [h, if_false]
        rfl
    have hdt : (JSNum.fin ((defaultPort protocol : Nat) : ℚ)).truthy = true := by
      unfold defaultPort
      by_cases h : protocol = "https" <;> simp [h, JSNum.truthy]
    cases port with
    | none =>
      have hp0 : (standardURL protocol host none).port = "" := rfl
      simp only [parseHostString, hs, if_false, hurl, hp0, bne_self_eq_false,
        Bool.false_eq_true]
      show (if (String.mk ((protocol ++ ":").data.erase ':') == "" || host == "" ||
          !(if (String.mk ((protocol ++ ":").data.erase ':') == "https") = true
            then (443 : JSNum) else 80).truthy) = true then none else _) = _
      rw [herase]
      have hbeq : (protocol == "https") = decide (protocol = "https") := rfl
      simp only [hbeq, decide_eq_true_eq, hdef, hdt]
      simp [hpne, hhost]
      refine ⟨herase, rfl, ?_⟩
      have h1 : String.mk ((standardURL protocol host none).protocol.data.erase ':')
          = protocol := herase
      rw [h1]
      exact hdef
    | some p =>
      obtain ⟨hp1, _⟩ := hport p rfl
      by_cases hpd : p = defaultPort protocol
      · have hp0 : (standardURL protocol host (some p)).port = "" := by
          simp [standardURL, hpd]
        simp only [parseHostString, hs, if_false, hurl, hp0, bne_self_eq_false,
          Bool.false_eq_true]
        show (if (String.mk ((protocol ++ ":").data.erase ':') == "" || host == "" ||
            !(if (String.mk ((protocol ++ ":").data.erase ':') == "https") = true
              then (443 : JSNum) else 80).truthy) = true then none else _) = _
        rw [herase]
        have hbeq : (protocol == "https") = decide (protocol = "https") := rfl
        simp only [hbeq, decide_eq_true_eq, hdef, hdt]
        simp [hpne, hhost, hpd]
        refine ⟨herase, rfl, ?_⟩
        have h1 : String.mk ((standardURL protocol host
            (some (defaultPort protocol))).protocol.data.erase ':') = protocol := herase
        rw [h1]
        exact hdef
      · have hn := hnum p rfl hpd
        have hp0 : (standardURL protocol host (some p)).port = toString p := by
          simp [standardURL, hpd]
        have hne : (toString p : String) ≠ "" := by
          intro h0
          rw [h0] at hn
          have hz : stringToNumber env "" = .fin 0 := by
            simp [stringToNumber, trimWhiteSpace]
          rw [hz] at hn
          have hq : (0 : ℚ) = (p : ℚ) := JSNum.fin.inj hn
          have : (p : ℚ) ≠ 0 := by exact_mod_cast (by omega : p ≠ 0)
          exact this hq.symm
        have hpt : (JSNum.fin (p : ℚ)).truthy = true := by
          have : (p : ℚ) ≠ 0 := by exact_mod_cast (by omega : p ≠ 0)
          simp [JSNum.truthy, this]
        have hbne : ((toString p : String) != "") = true := by simpa using hne
        simp only [parseHostString, hs, if_false, hurl, hp0, hbne, if_true, hn]
        show (if (String.mk ((protocol ++ ":").data.erase ':') == "" || host == "" ||
            !(JSNum.fin (p : ℚ)).truthy) = true then none else _) = _
        rw [herase, hpt]
        simp [hpne, hhost]
        exact ⟨herase, rfl⟩
  · intro hostStr h
    rcases h with h | h | ⟨s, h, hu⟩
    · exact (parseHostString_cases env hostStr).1 h
    · exact (parseHostString_cases env hostStr).2.1 h
    · exact (parseHostString_cases env hostStr).2.2.1 s h hu
  · intro hostStr spec h
    exact (parseHostString_cases env hostStr).2.2.2.2.2.2 spec h

/-- C12, at `http://example.com:8080`, whose port `new URL` reports, at
`https://example.com:443`, whose port it drops, and at `http://example.com`,
which has none. -/
theorem parseHostString_well_formed_witness :
    parseHostString tableRuntime (.str "http://example.com:8080")
      = some { protocol := "http", url := "example.com", port := 8080 } ∧
    parseHostString tableRuntime (.str "https://example.com:443")
      = some { protocol := "https", url := "example.com", port := 443 } ∧
    parseHostString tableRuntime (.str "http://example.com")
      = some { protocol := "http", url := "example.com", port := 80 } :=
  ⟨(parseHostString_well_formed tableRuntime).1 "http" "example.com" (some 8080)
      (Or.inl rfl) (by decide) (by intro p hp; cases hp; decide) (by decide)
      (by intro p hp _; cases hp; decide),
    (parseHostString_well_formed tableRuntime).1 "https" "example.com" (some 443)
      (Or.inr rfl) (by decide) (by intro p hp; cases hp; decide) (by decide)
      (by intro p hp hd; cases hp; exact absurd rfl hd),
    (parseHostString_well_formed tableRuntime).1 "http" "example.com" none
      (Or.inl rfl) (by decide) (by intro p hp; cases hp) (by decide)
      (by intro p hp; cases hp)⟩

/-! ## The order of the phases -/

theorem phaseOrdered_of (x y : Exchange)
    (h1 : y.call.isUpdateTest = false ∨
      (x.call.isCreateTest = false ∧ x.call.isDeleteTest = false))
    (h2 : y.call.isCreateTest = false ∨ x.call.isDeleteTest = false) :
    phaseOrdered x y = true := by
  unfold phaseOrdered
  rcases h1 with h1 | ⟨h1, h1b⟩ <;> rcases h2 with h2 | h2 <;> simp [*]

theorem pairwise_phases (p u c d : List Exchange)
    (hp : ∀ x ∈ p, x.call.isUpdateTest = false ∧ x.call.isCreateTest = false ∧
      x.call.isDeleteTest = false)
    (hu : ∀ x ∈ u, x.call.isCreateTest = false ∧ x.call.isDeleteTest = false)
    (hc : ∀ x ∈ c, x.call.isUpdateTest = false ∧ x.call.isDeleteTest = false)
    (hd : ∀ x ∈ d, x.call.isUpdateTest = false ∧ x.call.isCreateTest = false) :
    (p ++ (u ++ (c ++ d))).Pairwise (fun x y => phaseOrdered x y = true) := by
  rw [List.pairwise_append, List.pairwise_append, List.pairwise_append]
  refine ⟨?_, ⟨?_, ⟨?_, ?_, ?_⟩, ?_⟩, ?_⟩
  · exact List.pairwise_of_forall_mem_list (fun a ha b _ =>
      phaseOrdered_of a b (Or.inr ⟨(hp a ha).2.1, (hp a ha).2.2⟩) (Or.inr (hp a ha).2.2))
  · exact List.pairwise_of_forall_mem_list (fun a ha b _ =>
      phaseOrdered_of a b (Or.inr (hu a ha)) (Or.inr (hu a ha).2))
  · exact List.pairwise_of_forall_mem_list (fun a ha b hb =>
      phaseOrdered_of a b (Or.inl (hc b hb).1) (Or.inr (hc a ha).2))
  · exact List.pairwise_of_forall_mem_list (fun a _ b hb =>
      phaseOrdered_of a b (Or.inl (hd b hb).1) (Or.inl (hd b hb).2))
  · intro a ha b hb
    exact phaseOrdered_of a b (Or.inl (hd b hb).1) (Or.inr (hc a ha).2)
  · intro a ha b hb
    rcases List.mem_append.mp hb with hb | hb
    · exact phaseOrdered_of a b (Or.inl (hc b hb).1) (Or.inr (hu a ha).2)
    · exact phaseOrdered_of a b (Or.inl (hd b hb).1) (Or.inr (hu a ha).2)
  · intro a ha b _
    exact phaseOrdered_of a b (Or.inr ⟨(hp a ha).2.1, (hp a ha).2.2⟩) (Or.inr (hp a ha).2.2)

/-- A delete phase that throws has just had a `deleteTest` rejected. -/
theorem deletePhase_error {σ : Type} (client : Client σ)
    (remoteByName : List (String × RemoteTest)) (names : List String) (w w2 : Run σ)
    (e : Failure) (h : deletePhase client remoteByName names w = (.error e, w2)) :
    ∃ pre id e2, w2.calls = w.calls ++ (pre ++ [⟨.deleteTest id, .rejected e2⟩]) ∧
      e = .rejected e2 := by
  induction names generalizing w with
  | nil => cases h
  | cons name rest ih =>
    rw [deletePhase_cons, andThen_apply] at h
    cases hmap : mapGet remoteByName name with
    | none =>
      simp only [hmap, pure, Eff.ret] at h
      exact ih w h
    | some r =>
      simp only [hmap] at h
      rcases hd : client.deleteTest r.id w.remote with ⟨e1 | v, s1⟩
      · simp only [bind, Eff.andThen, perform, hd, Prod.mk.injEq, Except.error.injEq] at h
        obtain ⟨he, hw⟩ := h
        subst hw
        exact ⟨[], r.id, e1, by simp, he.symm⟩
      · simp only [bind, Eff.andThen, perform, hd, say] at h
        obtain ⟨pre, id, e2, hc, he⟩ := ih _ h
        exact ⟨⟨.deleteTest r.id, .value v⟩ :: pre, id, e2, by simp [hc], he⟩

/-- The calls of the three phases come in three blocks. -/
theorem applyPlan_phases {σ : Type} (env : Builtins) (client : Client σ) (opts : Options)
    (plan : Plan) (w : Run σ) :
    ∃ u c d, (applyPlan env client opts plan w).2.calls = w.calls ++ (u ++ (c ++ d)) ∧
      (∀ x ∈ u, x.call.isCreateTest = false ∧ x.call.isDeleteTest = false) ∧
      (∀ x ∈ c, x.call.isUpdateTest = false ∧ x.call.isDeleteTest = false) ∧
      (∀ x ∈ d, x.call.isUpdateTest = false ∧ x.call.isCreateTest = false) ∧
      (∀ e, (applyPlan env client opts plan w).1 = .error e → d ≠ [] →
        ∃ id e2, d.getLast? = some ⟨.deleteTest id, .rejected e2⟩ ∧ e = .rejected e2) := by
  unfold applyPlan
  rw [andThen_apply]
  rcases hu : updatePhase env client opts plan.remoteByName plan.toUpdate w with ⟨e | _, w1⟩
  · obtain ⟨u, cu, qu⟩ := emits_calls_of_eq (updatePhase_emits env client opts _ _
      (fun x => x.call.isCreateTest = false ∧ x.call.isDeleteTest = false)
      (fun _ => ⟨rfl, rfl⟩) (fun _ _ => ⟨rfl, rfl⟩) (fun _ _ _ => ⟨rfl, rfl⟩)) hu
    exact ⟨u, [], [], by simpa using cu, qu, by simp, by simp, fun _ _ h => absurd rfl h⟩
  · obtain ⟨u, cu, qu⟩ := emits_calls_of_eq (updatePhase_emits env client opts _ _
      (fun x => x.call.isCreateTest = false ∧ x.call.isDeleteTest = false)
      (fun _ => ⟨rfl, rfl⟩) (fun _ _ => ⟨rfl, rfl⟩) (fun _ _ _ => ⟨rfl, rfl⟩)) hu
    simp only
    rw [andThen_apply]
    rcases hc : createPhase env client opts plan.toCreate w1 with ⟨e | _, w2⟩
    · obtain ⟨c, cc, qc⟩ := emits_calls_of_eq (createPhase_emits env client opts _
        (fun x => x.call.isUpdateTest = false ∧ x.call.isDeleteTest = false)
        (fun _ => ⟨rfl, rfl⟩) (fun _ _ => ⟨rfl, rfl⟩) (fun _ _ _ => ⟨rfl, rfl⟩)) hc
      exact ⟨u, c, [], by simp [cc, cu], qu, qc, by simp, fun _ _ h => absurd rfl h⟩
    · obtain ⟨c, cc, qc⟩ := emits_calls_of_eq (createPhase_emits env client opts _
        (fun x => x.call.isUpdateTest = false ∧ x.call.isDeleteTest = false)
        (fun _ => ⟨rfl, rfl⟩) (fun _ _ => ⟨rfl, rfl⟩) (fun _ _ _ => ⟨rfl, rfl⟩)) hc
      simp only
      by_cases hdel : opts.allowDelete = true
      · simp only [hdel, if_true]
        rcases hd : deletePhase client plan.remoteByName plan.toDelete w2 with ⟨res, w3⟩
        obtain ⟨d, cd, qd⟩ := emits_calls_of_eq (deletePhase_emits client _ _
          (fun x => x.call.isUpdateTest = false ∧ x.call.isCreateTest = false)
          (fun _ _ => ⟨rfl, rfl⟩)) hd
        refine ⟨u, c, d, by simp [cd, cc, cu], qu, qc, qd, ?_⟩
        intro e he _
        simp only at he
        subst he
        obtain ⟨pre, id, e2, hcalls, he2⟩ := deletePhase_error client _ _ w2 w3 e hd
        rw [cd] at hcalls
        have hdd := List.append_cancel_left hcalls
        exact ⟨id, e2, by rw [hdd, List.getLast?_concat], he2⟩
      · rw [if_neg hdel]
        by_cases hlen : plan.toDelete.length > 0
        · rw [if_pos hlen]
          exact ⟨u, c, [], by simp [say, cc, cu], qu, qc, by simp, fun _ _ h => absurd rfl h⟩
        · rw [if_neg hlen]
          exact ⟨u, c, [], by simp [pure, Eff.ret, cc, cu], qu, qc, by simp,
            fun _ _ h => absurd rfl h⟩

theorem afterPreload_calls {σ : Type} (client : Client σ) (localTests : List LocalTest)
    (remoteAll : List RemoteTest) (s : σ) (w : Run σ) :
    ∃ x, (afterPreload client localTests remoteAll s w).calls
        = w.calls ++ [⟨.listTests, .tests remoteAll⟩, x] ∧ x.call = .listHosts := by
  unfold afterPreload
  rcases client.listHosts s with ⟨e | hs, s2⟩
  · exact ⟨⟨.listHosts, .rejected e⟩, by simp, rfl⟩
  · exact ⟨⟨.listHosts, .hosts hs⟩, by simp, rfl⟩

/-- The calls of a whole run: the two list calls, then the three blocks. -/
theorem pushCommand_phases {σ : Type} (env : Builtins) (client : Client σ) (opts : Options)
    (loaded : Except String (List LocalTest)) (w : Run σ) :
    ∃ p u c d, (pushCommand env client opts loaded w).2.calls = w.calls ++ (p ++ (u ++ (c ++ d))) ∧
      (∀ x ∈ p, x.call.isUpdateTest = false ∧ x.call.isCreateTest = false ∧
        x.call.isDeleteTest = false) ∧
      (∀ x ∈ u, x.call.isCreateTest = false ∧ x.call.isDeleteTest = false) ∧
      (∀ x ∈ c, x.call.isUpdateTest = false ∧ x.call.isDeleteTest = false) ∧
      (∀ x ∈ d, x.call.isUpdateTest = false ∧ x.call.isCreateTest = false) ∧
      (∀ e, (pushCommand env client opts loaded w).1 = .error e → d ≠ [] →
        ∃ id e2, d.getLast? = some ⟨.deleteTest id, .rejected e2⟩ ∧ e = .rejected e2) := by
  cases loaded with
  | error msg =>
    exact ⟨[], [], [], [], by simp [pushCommand, andThen_apply, Eff.raise], by simp, by simp,
      by simp, by simp, fun _ _ h => absurd rfl h⟩
  | ok ts =>
    rcases hl : client.listTests w.remote with ⟨e | remoteAll, s⟩
    · exact ⟨[⟨.listTests, .rejected e⟩], [], [], [],
        by simp [pushCommand, andThen_apply, pure, Eff.ret, perform, hl],
        by simp [Call.isUpdateTest, Call.isCreateTest, Call.isDeleteTest], by simp, by simp,
        by simp, fun _ _ h => absurd rfl h⟩
    · by_cases hdry : opts.dryRun = true
      · exact ⟨[⟨.listTests, .tests remoteAll⟩], [], [], [],
          by simp [pushCommand, andThen_apply, pure, Eff.ret, perform, hl, say, hdry],
          by simp [Call.isUpdateTest, Call.isCreateTest, Call.isDeleteTest], by simp, by simp,
          by simp, fun _ _ h => absurd rfl h⟩
      · rw [pushCommand_eq_applyPlan env client opts ts w remoteAll s hl (by simpa using hdry)]
        obtain ⟨x, hx, hxc⟩ := afterPreload_calls client ts remoteAll s w
        obtain ⟨u, c, d, hcalls, qu, qc, qd, herr⟩ := applyPlan_phases env client opts
          (pushPlan ts remoteAll) (afterPreload client ts remoteAll s w)
        refine ⟨[⟨.listTests, .tests remoteAll⟩, x], u, c, d, ?_, ?_, qu, qc, qd, herr⟩
        · rw [hcalls, hx, List.append_assoc]
        · intro y hy
          rcases List.mem_cons.mp hy with hy | hy
          · subst hy
            exact ⟨rfl, rfl, rfl⟩
          · rw [List.mem_singleton] at hy
            subst hy
            rw [hxc]
            exact ⟨rfl, rfl, rfl⟩

/-- C13. Among the calls of any run of `pushCommand`, no `updateTest` comes
after a `createTest` or a `deleteTest` and no `createTest` comes after a
`deleteTest`; and when the run throws after some `deleteTest` was made, what
it throws is the rejection of its last call, a `deleteTest`: a run that an
update or a create makes fail has made no `deleteTest`. -/
theorem pushCommand_phase_order {σ : Type} (env : Builtins) (client : Client σ)
    (opts : Options) (loaded : Except String (List LocalTest)) (w : Run σ)
    (new : List Exchange)
    (hnew : (pushCommand env client opts loaded w).2.calls = w.calls ++ new) :
    new.Pairwise (fun x y => phaseOrdered x y = true) ∧
    (∀ e, (pushCommand env client opts loaded w).1 = .error e →
      (∃ x ∈ new, x.call.isDeleteTest = true) →
      ∃ id e2, new.getLast? = some ⟨.deleteTest id, .rejected e2⟩ ∧ e = .rejected e2) := by
  obtain ⟨p, u, c, d, hcalls, qp, qu, qc, qd, herr⟩ :=
    pushCommand_phases env client opts loaded w
  rw [hnew] at hcalls
  have hn := List.append_cancel_left hcalls
  subst hn
  refine ⟨pairwise_phases p u c d qp qu qc qd, ?_⟩
  intro e he ⟨x, hx, hxd⟩
  have hd : d ≠ [] := by
    intro hd
    subst hd
    rcases List.mem_append.mp hx with hx | hx
    · rw [(qp x hx).2.2] at hxd; cases hxd
    · rcases List.mem_append.mp hx with hx | hx
      · rw [(qu x hx).2] at hxd; cases hxd
      · rw [List.append_nil] at hx
        rw [(qc x hx).2] at hxd; cases hxd
  obtain ⟨id, e2, hlast, he2⟩ := herr e he hd
  refine ⟨id, e2, ?_, he2⟩
  simp [List.getLast?_append, hlast]

/-- C13, at the sample push that updates `checkout`, creates `search` and
deletes `legacy`: the three test calls come in that order. -/
theorem pushCommand_phase_order_witness :
    threePhaseRun.2.calls.map (fun x => x.call) =
      [.listTests, .listHosts,
        .updateTest (.num 11)
          (buildPayloadFromLocal tableRuntime localCheckout true (some remoteCheckout) true),
        .createTest (buildPayloadFromLocal tableRuntime localSearch true none true),
        .deleteTest (.num 12)] ∧
    threePhaseRun.2.calls.Pairwise (fun x y => phaseOrdered x y = true) :=
  ⟨by decide!, (pushCommand_phase_order tableRuntime scriptedClient applyAll
    (.ok [localCheckout, localSearch])
    (startOf [.tests [remoteCheckout, remoteLegacy], .hosts [], .value .null, .value .null,
      .value .null])
    threePhaseRun.2.calls
    (by unfold threePhaseRun; exact (List.nil_append _).symm)).1⟩

/-! ## The retry carries no host reference -/

/-- The four ways the `createTest` stage of one item can go. -/
theorem sendCreate_cases {σ : Type} (env : Builtins) (client : Client σ) (opts : Options)
    (loc : LocalTest) (p : Payload) (w : Run σ) :
    (∃ v, (sendCreate env client opts loc p w).2.calls
        = w.calls ++ [⟨.createTest p, .value v⟩] ∧
      (sendCreate env client opts loc p w).1 = .ok ()) ∨
    (∃ e, (sendCreate env client opts loc p w).2.calls
        = w.calls ++ [⟨.createTest p, .rejected e⟩] ∧
      ¬ (opts.tryExtended = true ∧ e.status = some 400) ∧
      (sendCreate env client opts loc p w).1 = .error (.rejected e)) ∨
    (∃ e v, (sendCreate env client opts loc p w).2.calls
        = w.calls ++ [⟨.createTest p, .rejected e⟩,
            ⟨.createTest (buildPayloadFromLocal env loc false none true), .value v⟩] ∧
      opts.tryExtended = true ∧ e.status = some 400 ∧
      (sendCreate env client opts loc p w).1 = .ok ()) ∨
    (∃ e e2, (sendCreate env client opts loc p w).2.calls
        = w.calls ++ [⟨.createTest p, .rejected e⟩,
            ⟨.createTest (buildPayloadFromLocal env loc false none true), .rejected e2⟩] ∧
      opts.tryExtended = true ∧ e.status = some 400 ∧
      (sendCreate env client opts loc p w).1 = .error (.rejected e2)) := by
  unfold sendCreate
  rcases h1 : client.createTest p w.remote with ⟨e | v, s1⟩
  · by_cases h400 : opts.tryExtended = true ∧ e.status = some 400
    · right; right
      rcases h2 : client.createTest (buildPayloadFromLocal env loc false none true) s1
        with ⟨e2 | v, s2⟩
      · right
        refine ⟨e, e2, ?_, h400.1, h400.2, ?_⟩ <;>
          cases hv : opts.verbose <;>
          simp [bind, Eff.andThen, perform, say, Eff.attempt, pure, Eff.ret, Eff.raise, h1, h2,
            h400.1, h400.2, Failure.isStatus400, hv]
      · left
        refine ⟨e, v, ?_, h400.1, h400.2, ?_⟩ <;>
          cases hv : opts.verbose <;>
          simp [bind, Eff.andThen, perform, say, Eff.attempt, pure, Eff.ret, Eff.raise, h1, h2,
            h400.1, h400.2, Failure.isStatus400, hv]
    · right; left
      have hc : (opts.tryExtended && (Failure.rejected e).isStatus400) = false := by
        cases ht : opts.tryExtended
        · rfl
        · simp only [Failure.isStatus400, Bool.true_and, beq_eq_false_iff_ne, ne_eq]
          exact fun h => h400 ⟨ht, h⟩
      refine ⟨e, ?_, h400, ?_⟩ <;>
        cases hv : opts.verbose <;>
        simp [bind, Eff.andThen, perform, say, Eff.attempt, pure, Eff.ret, Eff.raise, h1, hc, hv]
  · left
    refine ⟨v, ?_, ?_⟩ <;>
      cases hv : opts.verbose <;>
      simp [bind, Eff.andThen, perform, say, Eff.attempt, pure, Eff.ret, Eff.raise, h1, hv]

theorem filter_isCreateTest_hostCalls (hc : List Exchange)
    (h : ∀ x ∈ hc, x.call.isHostCall = true) :
    hc.filter (fun x => x.call.isCreateTest) = [] := by
  rw [List.filter_eq_nil_iff]
  intro x hx
  have := h x hx
  cases hcall : x.call <;> simp_all [Call.isHostCall, Call.isCreateTest]

/-- After a first `updateTest` rejected with status 400, the update item makes
one more `updateTest` call, with the base-only payload. -/
theorem updateItem_after_400 {σ : Type} (env : Builtins) (client : Client σ)
    (opts : Options) (remoteByName : List (String × RemoteTest)) (loc : LocalTest)
    (r : RemoteTest) (w : Run σ) (new rest : List Exchange) (id : JVal) (p : Payload)
    (e : Rejection)
    (hr : mapGet remoteByName loc.name = some r)
    (hext : opts.tryExtended = true)
    (hnew : (updateItem env client opts remoteByName loc w).2.calls = w.calls ++ new)
    (hfirst : new.filter (fun x => x.call.isUpdateTest)
      = ⟨.updateTest id p, .rejected e⟩ :: rest)
    (h400 : e.status = some 400) :
    ∃ reply,
      rest = [⟨.updateTest id (buildPayloadFromLocal env loc false (some r) false), reply⟩] := by
  have hunf : updateItem env client opts remoteByName loc w =
      (updatePayload env client opts (some r) loc >>=
        fun p => sendUpdate env client opts (some r) loc p) w := by
    unfold updateItem; rw [hr]
  rw [hunf, andThen_apply] at hnew
  rcases hp : updatePayload env client opts (some r) loc w with ⟨e0 | p0, w1⟩
  · exfalso
    obtain ⟨hc, c1, q1⟩ := emits_calls_of_eq (updatePayload_emits env client opts (some r) loc
      (fun x => x.call.isHostCall = true) (fun _ => rfl) (fun _ _ => rfl)) hp
    rw [hp] at hnew
    simp only at hnew
    rw [c1] at hnew
    have := List.append_cancel_left hnew
    subst this
    rw [filter_isUpdateTest_hostCalls hc q1] at hfirst
    cases hfirst
  · obtain ⟨hc, c1, q1⟩ := emits_calls_of_eq (updatePayload_emits env client opts (some r) loc
      (fun x => x.call.isHostCall = true) (fun _ => rfl) (fun _ _ => rfl)) hp
    rw [hp] at hnew
    simp only at hnew
    rcases sendUpdate_cases env client opts r loc p0 w1 with
      ⟨v, hcalls, _⟩ | ⟨e1, hcalls, hnot, _⟩ | ⟨e1, v, hcalls, _, _, _, _⟩ |
      ⟨e1, e2, hcalls, _, _, _⟩
    all_goals
      rw [hcalls, c1, List.append_assoc] at hnew
      have hn := List.append_cancel_left hnew
      subst hn
      rw [List.filter_append, filter_isUpdateTest_hostCalls hc q1] at hfirst
      simp only [List.nil_append, List.filter_cons, Call.isUpdateTest, if_true,
        List.filter_nil, List.cons.injEq, Exchange.mk.injEq, Call.updateTest.injEq,
        Reply.rejected.injEq] at hfirst
    · exact absurd hfirst.1.2 (by simp)
    · obtain ⟨⟨⟨_, _⟩, he⟩, _⟩ := hfirst
      subst he
      exact absurd ⟨hext, h400⟩ hnot
    · obtain ⟨⟨⟨hid, _⟩, _⟩, hrest⟩ := hfirst
      subst hid
      exact ⟨.value v, hrest.symm⟩
    · obtain ⟨⟨⟨hid, _⟩, _⟩, hrest⟩ := hfirst
      subst hid
      exact ⟨.rejected e2, hrest.symm⟩

/-- After a first `createTest` rejected with status 400, the create item makes
one more `createTest` call, with the base-only payload. -/
theorem createItem_after_400 {σ : Type} (env : Builtins) (client : Client σ)
    (opts : Options) (loc : LocalTest) (w : Run σ) (new rest : List Exchange) (p : Payload)
    (e : Rejection)
    (hext : opts.tryExtended = true)
    (hnew : (createItem env client opts loc w).2.calls = w.calls ++ new)
    (hfirst : new.filter (fun x => x.call.isCreateTest)
      = ⟨.createTest p, .rejected e⟩ :: rest)
    (h400 : e.status = some 400) :
    ∃ reply, rest = [⟨.createTest (buildPayloadFromLocal env loc false none true), reply⟩] := by
  unfold createItem at hnew
  by_cases hallow : opts.allowCreate = true
  swap
  · exfalso
    simp only [hallow, Bool.not_false, if_true, say] at hnew
    have hn := List.append_cancel_left ((List.append_nil _).trans hnew)
    subst hn
    cases hfirst
  by_cases hregion : loc.config.region.truthy = true
  swap
  · exfalso
    simp only [hallow, hregion, Bool.not_true, Bool.false_eq_true, if_false, Bool.not_false,
      if_true, Eff.raise] at hnew
    have hn := List.append_cancel_left ((List.append_nil _).trans hnew)
    subst hn
    cases hfirst
  simp only [hallow, hregion, Bool.not_true, Bool.false_eq_true, if_false] at hnew
  rw [andThen_apply] at hnew
  rcases hp : createPayload env client opts loc w with ⟨e0 | p0, w1⟩
  · exfalso
    obtain ⟨hc, c1, q1⟩ := emits_calls_of_eq (createPayload_emits env client opts loc
      (fun x => x.call.isHostCall = true) (fun _ => rfl) (fun _ _ => rfl)) hp
    rw [hp] at hnew
    simp only at hnew
    rw [c1] at hnew
    have := List.append_cancel_left hnew
    subst this
    rw [filter_isCreateTest_hostCalls hc q1] at hfirst
    cases hfirst
  · obtain ⟨hc, c1, q1⟩ := emits_calls_of_eq (createPayload_emits env client opts loc
      (fun x => x.call.isHostCall = true) (fun _ => rfl) (fun _ _ => rfl)) hp
    rw [hp] at hnew
    simp only at hnew
    rcases sendCreate_cases env client opts loc p0 w1 with
      ⟨v, hcalls, _⟩ | ⟨e1, hcalls, hnot, _⟩ | ⟨e1, v, hcalls, _, _, _⟩ |
      ⟨e1, e2, hcalls, _, _, _⟩
    all_goals
      rw [hcalls, c1, List.append_assoc] at hnew
      have hn := List.append_cancel_left hnew
      subst hn
      rw [List.filter_append, filter_isCreateTest_hostCalls hc q1] at hfirst
      simp only [List.nil_append, List.filter_cons, Call.isCreateTest, if_true,
        List.filter_nil, List.cons.injEq, Exchange.mk.injEq, Call.createTest.injEq,
        Reply.rejected.injEq] at hfirst
    · exact absurd hfirst.1.2 (by simp)
    · obtain ⟨⟨_, he⟩, _⟩ := hfirst
      subst he
      exact absurd ⟨hext, h400⟩ hnot
    · exact ⟨.value v, hfirst.2.symm⟩
    · exact ⟨.rejected e2, hfirst.2.symm⟩

/-- C15. With extended fields enabled, when the first `updateTest` of an
update item, or the first `createTest` of a create item, is rejected with
status 400, the one call that follows it carries the base-only payload of
`buildPayloadFromLocal`, which has no `host_id`, whatever `host_id` the first
payload had. -/
theorem retry_payload_without_host_id {σ : Type} (env : Builtins) (client : Client σ)
    (opts : Options) (w : Run σ) (new rest : List Exchange)
    (hext : opts.tryExtended = true) :
    (∀ remoteByName loc r id p e,
      mapGet remoteByName loc.name = some r →
      (updateItem env client opts remoteByName loc w).2.calls = w.calls ++ new →
      new.filter (fun x => x.call.isUpdateTest) = ⟨.updateTest id p, .rejected e⟩ :: rest →
      e.status = some 400 →
      ∃ reply,
        rest = [⟨.updateTest id (buildPayloadFromLocal env loc false (some r) false), reply⟩] ∧
        (buildPayloadFromLocal env loc false (some r) false).host_id = .undefined) ∧
    (∀ loc p e,
      (createItem env client opts loc w).2.calls = w.calls ++ new →
      new.filter (fun x => x.call.isCreateTest) = ⟨.createTest p, .rejected e⟩ :: rest →
      e.status = some 400 →
      ∃ reply,
        rest = [⟨.createTest (buildPayloadFromLocal env loc false none true), reply⟩] ∧
        (buildPayloadFromLocal env loc false none true).host_id = .undefined) := by
  constructor
  · intro remoteByName loc r id p e hr hnew hfirst h400
    obtain ⟨reply, hrest⟩ := updateItem_after_400 env client opts remoteByName loc r w new rest
      id p e hr hext hnew hfirst h400
    exact ⟨reply, hrest, rfl⟩
  · intro loc p e hnew hfirst h400
    obtain ⟨reply, hrest⟩ := createItem_after_400 env client opts loc w new rest p e hext hnew
      hfirst h400
    exact ⟨reply, hrest, rfl⟩

/-- C15, at the sample update of `checkout` matched with a remote test that
points at host `5`: the first payload carries `host_id: 5`, the retry none. -/
theorem retry_payload_without_host_id_witness :
    degradedHostUpdate.2.calls.filter (fun x => x.call.isUpdateTest)
      = [⟨.updateTest (.num 11)
            { buildPayloadFromLocal tableRuntime localCheckout true (some remoteWithHost) true
              with host_id := .num 5 },
          .rejected { status := some 400 }⟩,
        ⟨.updateTest (.num 11)
            (buildPayloadFromLocal tableRuntime localCheckout false (some remoteWithHost) false),
          .value .null⟩] ∧
    ∃ reply,
      [(⟨.updateTest (.num 11)
          (buildPayloadFromLocal tableRuntime localCheckout false (some remoteWithHost) false),
        .value .null⟩ : Exchange)] =
        [⟨.updateTest (.num 11)
          (buildPayloadFromLocal tableRuntime localCheckout false (some remoteWithHost) false),
          reply⟩] ∧
      (buildPayloadFromLocal tableRuntime localCheckout false
        (some remoteWithHost) false).host_id = .undefined :=
  ⟨by decide!, (retry_payload_without_host_id tableRuntime scriptedClient applyAll
    (startOf [.rejected { status := some 400 }, .value .null])
    degradedHostUpdate.2.calls
    [⟨.updateTest (.num 11)
        (buildPayloadFromLocal tableRuntime localCheckout false (some remoteWithHost) false),
      .value .null⟩] rfl).1
    [("checkout", remoteWithHost)] localCheckout remoteWithHost (.num 11)
    { buildPayloadFromLocal tableRuntime localCheckout true (some remoteWithHost) true
      with host_id := .num 5 }
    { status := some 400 } rfl rfl (by decide!) rfl⟩

/-! ## Reconciling twice -/

/-- The map `remoteByName` gives the last entity that carries a name. -/
theorem mapGet_fold_getLast (ts : List RemoteTest) (m : List (String × RemoteTest))
    (n : String) (hn : n ≠ "") :
    mapGet (ts.foldl
      (fun m t => if !strTruthy t.name then m else mapSet m (t.name.getD "") t) m) n =
      ((ts.filter (fun r => r.name == some n)).getLast?).or (mapGet m n) := by
  induction ts generalizing m with
  | nil => rfl
  | cons t rest ih =>
    rw [List.foldl_cons, ih, mapGet_step, List.filter_cons]
    by_cases c : t.name = some n
    · have hb : (t.name == some n) = true := by simpa using c
      rw [if_pos ⟨c, hn⟩, if_pos hb, List.getLast?_cons]
      cases (List.filter (fun r => r.name == some n) rest).getLast? <;> rfl
    · have hb : ¬ (t.name == some n) = true := by simpa using c
      rw [if_neg (fun h => c h.1), if_neg hb]

theorem mapGet_plan_getLast (localTests : List LocalTest) (remoteAll : List RemoteTest)
    (n : String) (hn : n ≠ "") :
    mapGet (pushPlan localTests remoteAll).remoteByName n =
      ((remoteAll.filter isLoad).filter (fun r => r.name == some n)).getLast? := by
  unfold pushPlan buildRemoteByName
  simp only
  rw [mapGet_fold_getLast _ _ n hn, mapGet_nil, Option.or_none]

/-- The payload depends on the matched remote entity through its region
only, and not at all when the local config has a region. -/
theorem buildPayload_congr (env : Builtins) (loc : LocalTest) (includeExtended : Bool)
    (ra rb : Option RemoteTest) (includeName : Bool)
    (h : loc.config.region.truthy = true ∨
      (match ra with
        | some r => if strTruthy r.region then r.region else none
        | none => none) =
      (match rb with
        | some r => if strTruthy r.region then r.region else none
        | none => none)) :
    buildPayloadFromLocal env loc includeExtended ra includeName =
      buildPayloadFromLocal env loc includeExtended rb includeName := by
  unfold buildPayloadFromLocal
  rcases h with h | h
  · simp only [h, if_true]
  · simp only [h]

theorem mem_plannedDeletes (localTests : List LocalTest) (remoteAll : List RemoteTest)
    (id : JVal) (h : id ∈ plannedDeletes (pushPlan localTests remoteAll)) :
    ∃ n rd, n ∈ (pushPlan localTests remoteAll).toDelete ∧
      mapGet (pushPlan localTests remoteAll).remoteByName n = some rd ∧ rd.id = id := by
  unfold plannedDeletes at h
  rw [List.mem_filterMap] at h
  obtain ⟨n, hn, hm⟩ := h
  cases hg : mapGet (pushPlan localTests remoteAll).remoteByName n with
  | none => rw [hg] at hm; cases hm
  | some rd =>
    rw [hg] at hm
    exact ⟨n, rd, hn, hg, Option.some.inj hm⟩

/-- An entity that carries the name of a local item is not among the planned
deletions, ids being distinct. -/
theorem kept_of_local_name (localTests : List LocalTest) (remoteAll : List RemoteTest)
    (hids : (remoteAll.map (fun r => r.id)).Nodup) (r : RemoteTest) (t : LocalTest)
    (hr : r ∈ remoteAll) (ht : t ∈ localTests) (hname : r.name = some t.name) :
    (!(plannedDeletes (pushPlan localTests remoteAll)).contains r.id) = true := by
  rw [Bool.not_eq_true', ← Bool.not_eq_true]
  intro hc
  have hmem : r.id ∈ plannedDeletes (pushPlan localTests remoteAll) := by simpa using hc
  obtain ⟨n, rd, hn, hg, hid⟩ := mem_plannedDeletes localTests remoteAll r.id hmem
  have hrd := mapGet_plan localTests remoteAll n rd hg
  have heq : rd = r := List.inj_on_of_nodup_map hids hrd.1 hr hid
  subst heq
  have hnn : t.name = n := by
    have := hname.symm.trans hrd.2.2.1
    exact Option.some.inj this
  exact ((mem_toDelete_iff localTests remoteAll n).mp hn).2.2 t ht hnn

theorem sentPayload_name (env : Builtins) (opts : Options) (plan : Plan)
    (hostId : LocalTest → JVal) (t : LocalTest) :
    (sentPayload env opts plan hostId t).name = some t.name := by
  unfold sentPayload buildPayloadFromLocal
  cases opts.tryExtended <;> rfl

theorem sentPayload_region (env : Builtins) (opts : Options) (plan : Plan)
    (hostId : LocalTest → JVal) (t : LocalTest) :
    (sentPayload env opts plan hostId t).region =
      (buildPayloadFromLocal env t opts.tryExtended
        (mapGet plan.remoteByName t.name) true).region := rfl

/-- Updates of items whose matched entity is named like the item leave the
id, the name and the kind of an entity with distinct id. -/
theorem foldl_updates_fields (env : Builtins) (opts : Options) (hostId : LocalTest → JVal)
    (localTests : List LocalTest) (remoteAll : List RemoteTest)
    (hids : (remoteAll.map (fun r => r.id)).Nodup) (r : RemoteTest) (hr : r ∈ remoteAll)
    (ts : List LocalTest) (acc : RemoteTest)
    (hacc : acc.id = r.id ∧ acc.name = r.name ∧ acc.test_type = r.test_type) :
    (ts.foldl
      (fun acc t =>
        match mapGet (pushPlan localTests remoteAll).remoteByName t.name with
        | some m => applyUpdate m.id
            (sentPayload env opts (pushPlan localTests remoteAll) hostId t) acc
        | none => acc) acc).id = r.id ∧
    (ts.foldl
      (fun acc t =>
        match mapGet (pushPlan localTests remoteAll).remoteByName t.name with
        | some m => applyUpdate m.id
            (sentPayload env opts (pushPlan localTests remoteAll) hostId t) acc
        | none => acc) acc).name = r.name ∧
    (ts.foldl
      (fun acc t =>
        match mapGet (pushPlan localTests remoteAll).remoteByName t.name with
        | some m => applyUpdate m.id
            (sentPayload env opts (pushPlan localTests remoteAll) hostId t) acc
        | none => acc) acc).test_type = r.test_type := by
  induction ts generalizing acc with
  | nil => exact hacc
  | cons t rest ih =>
    rw [List.foldl_cons]
    apply ih
    cases hg : mapGet (pushPlan localTests remoteAll).remoteByName t.name with
    | none => exact hacc
    | some m =>
      show (applyUpdate m.id _ acc).id = r.id ∧ (applyUpdate m.id _ acc).name = r.name ∧
        (applyUpdate m.id _ acc).test_type = r.test_type
      unfold applyUpdate
      by_cases hid : acc.id = m.id
      · rw [if_pos hid]
        have hm := mapGet_plan localTests remoteAll t.name m hg
        have heq : m = r :=
          List.inj_on_of_nodup_map hids hm.1 hr (hid.symm.trans hacc.1)
        subst heq
        refine ⟨hacc.1, ?_, hacc.2.2⟩
        simp only [updatedEntity, sentPayload_name]
        exact hm.2.2.1.symm
      · rw [if_neg hid]
        exact hacc

/-- The update phase leaves the id, the name and the kind of every entity. -/
theorem afterUpdates_fields (env : Builtins) (opts : Options) (hostId : LocalTest → JVal)
    (localTests : List LocalTest) (remoteAll : List RemoteTest)
    (hids : (remoteAll.map (fun r => r.id)).Nodup) (r : RemoteTest) (hr : r ∈ remoteAll) :
    (afterUpdates env opts (pushPlan localTests remoteAll) hostId r).id = r.id ∧
    (afterUpdates env opts (pushPlan localTests remoteAll) hostId r).name = r.name ∧
    (afterUpdates env opts (pushPlan localTests remoteAll) hostId r).test_type
      = r.test_type :=
  foldl_updates_fields env opts hostId localTests remoteAll hids r hr _ r ⟨rfl, rfl, rfl⟩

/-- Updates of items with another name leave the entity as it is. -/
theorem foldl_updates_other (env : Builtins) (opts : Options) (hostId : LocalTest → JVal)
    (localTests : List LocalTest) (remoteAll : List RemoteTest)
    (hids : (remoteAll.map (fun r => r.id)).Nodup) (r : RemoteTest) (hr : r ∈ remoteAll)
    (n : String) (hn : r.name = some n)
    (ts : List LocalTest) (hts : ∀ t ∈ ts, t.name ≠ n) (acc : RemoteTest)
    (hacc : acc.id = r.id) :
    ts.foldl
      (fun acc t =>
        match mapGet (pushPlan localTests remoteAll).remoteByName t.name with
        | some m => applyUpdate m.id
            (sentPayload env opts (pushPlan localTests remoteAll) hostId t) acc
        | none => acc) acc = acc := by
  induction ts with
  | nil => rfl
  | cons t rest ih =>
    rw [List.foldl_cons]
    have hstep : (match mapGet (pushPlan localTests remoteAll).remoteByName t.name with
        | some m => applyUpdate m.id
            (sentPayload env opts (pushPlan localTests remoteAll) hostId t) acc
        | none => acc) = acc := by
      cases hg : mapGet (pushPlan localTests remoteAll).remoteByName t.name with
      | none => rfl
      | some m =>
        show applyUpdate m.id _ acc = acc
        unfold applyUpdate
        by_cases hid : acc.id = m.id
        · exfalso
          have hm := mapGet_plan localTests remoteAll t.name m hg
          have heq : m = r := List.inj_on_of_nodup_map hids hm.1 hr (hid.symm.trans hacc)
          subst heq
          exact hts t (List.mem_cons_self _ _)
            (Option.some.inj (hm.2.2.1.symm.trans hn))
        · rw [if_neg hid]
    rw [hstep]
    exact ih (fun t ht => hts t (List.mem_cons_of_mem _ ht))

/-- With distinct local names, the entity matched with an item of the update
list is, after the update phase, that entity updated with the item's payload. -/
theorem foldl_updates_matched (env : Builtins) (opts : Options) (hostId : LocalTest → JVal)
    (localTests : List LocalTest) (remoteAll : List RemoteTest)
    (hids : (remoteAll.map (fun r => r.id)).Nodup) (r : RemoteTest) (t : LocalTest)
    (hg : mapGet (pushPlan localTests remoteAll).remoteByName t.name = some r)
    (ts : List LocalTest) (hts : (ts.map (fun t => t.name)).Nodup) (ht : t ∈ ts) :
    ts.foldl
      (fun acc t =>
        match mapGet (pushPlan localTests remoteAll).remoteByName t.name with
        | some m => applyUpdate m.id
            (sentPayload env opts (pushPlan localTests remoteAll) hostId t) acc
        | none => acc) r =
      updatedEntity (sentPayload env opts (pushPlan localTests remoteAll) hostId t) r := by
  have hm := mapGet_plan localTests remoteAll t.name r hg
  induction ts with
  | nil => cases ht
  | cons a rest ih =>
    rw [List.map_cons, List.nodup_cons] at hts
    rw [List.foldl_cons]
    by_cases hat : a = t
    · subst hat
      have hstep : (match mapGet (pushPlan localTests remoteAll).remoteByName a.name with
          | some m => applyUpdate m.id
              (sentPayload env opts (pushPlan localTests remoteAll) hostId a) r
          | none => r) =
          updatedEntity (sentPayload env opts (pushPlan localTests remoteAll) hostId a) r := by
        rw [hg]
        show applyUpdate r.id _ r = _
        unfold applyUpdate
        rw [if_pos rfl]
      rw [hstep]
      refine foldl_updates_other env opts hostId localTests remoteAll hids r hm.1 a.name
        hm.2.2.1 rest ?_ _ rfl
      intro t2 ht2 hname
      exact hts.1 (List.mem_map.mpr ⟨t2, ht2, hname⟩)
    · have htr : t ∈ rest := by
        rcases List.mem_cons.mp ht with h | h
        · exact absurd h.symm hat
        · exact h
      have hname : a.name ≠ t.name := by
        intro hname
        exact hts.1 (List.mem_map.mpr ⟨t, htr, hname.symm⟩)
      have hstep := foldl_updates_other env opts hostId localTests remoteAll hids r hm.1
        t.name hm.2.2.1 [a] (by
          intro t2 ht2
          rw [List.mem_singleton] at ht2
          subst ht2
          exact hname) r rfl
      rw [List.foldl_cons, List.foldl_nil] at hstep
      rw [hstep]
      exact ih hts.2 htr

theorem isLoad_createdEntity (id : JVal) (p : Payload) :
    isLoad (createdEntity id p) = true := by
  simp [isLoad, createdEntity, strTruthy]

theorem mem_resultingInventory (env : Builtins) (opts : Options)
    (hostId newId : LocalTest → JVal) (localTests : List LocalTest)
    (remoteAll : List RemoteTest) (x : RemoteTest) :
    x ∈ resultingInventory env opts hostId newId localTests remoteAll ↔
      (∃ r ∈ remoteAll,
        (!(plannedDeletes (pushPlan localTests remoteAll)).contains r.id) = true ∧
        afterUpdates env opts (pushPlan localTests remoteAll) hostId r = x) ∨
      (∃ t ∈ (pushPlan localTests remoteAll).toCreate,
        createdEntity (newId t)
          (sentPayload env opts (pushPlan localTests remoteAll) hostId t) = x) := by
  unfold resultingInventory
  rw [List.mem_append, List.mem_map, List.mem_map]
  constructor
  · rintro (⟨r, hr, h⟩ | h)
    · rw [List.mem_filter] at hr
      exact Or.inl ⟨r, hr.1, hr.2, h⟩
    · exact Or.inr h
  · rintro (⟨r, hr, hk, h⟩ | h)
    · exact Or.inl ⟨r, List.mem_filter.mpr ⟨hr, hk⟩, h⟩
    · exact Or.inr h

/-- After the push every local item with a name has a remote load test of
that name. -/
theorem inventory_has_local (env : Builtins) (opts : Options)
    (hostId newId : LocalTest → JVal) (localTests : List LocalTest)
    (remoteAll : List RemoteTest) (hids : (remoteAll.map (fun r => r.id)).Nodup)
    (t : LocalTest) (ht : t ∈ localTests) (hne : t.name ≠ "") :
    mapHas (pushPlan localTests
      (resultingInventory env opts hostId newId localTests remoteAll)).remoteByName
      t.name = true := by
  rw [mapHas_plan]
  by_cases hm : mapHas (pushPlan localTests remoteAll).remoteByName t.name = true
  · obtain ⟨r, hr, hl, hn, _⟩ := (mapHas_plan localTests remoteAll t.name).mp hm
    have hf := afterUpdates_fields env opts hostId localTests remoteAll hids r hr
    refine ⟨afterUpdates env opts (pushPlan localTests remoteAll) hostId r, ?_, ?_, ?_, hne⟩
    · rw [mem_resultingInventory]
      exact Or.inl ⟨r, hr, kept_of_local_name localTests remoteAll hids r t hr ht hn, rfl⟩
    · unfold isLoad
      rw [hf.2.2]
      exact hl
    · rw [hf.2.1]
      exact hn
  · refine ⟨createdEntity (newId t)
      (sentPayload env opts (pushPlan localTests remoteAll) hostId t), ?_,
      isLoad_createdEntity _ _, ?_, hne⟩
    · rw [mem_resultingInventory]
      refine Or.inr ⟨t, ?_, rfl⟩
      show t ∈ localTests.filter _
      rw [List.mem_filter]
      refine ⟨ht, ?_⟩
      simpa using hm
    · exact sentPayload_name env opts _ hostId t

/-- The entity the second plan matches with an item the first plan updated is
the entity the first plan matched, as the update left it. -/
theorem mapGet_after_update (env : Builtins) (opts : Options)
    (hostId newId : LocalTest → JVal) (localTests : List LocalTest)
    (remoteAll : List RemoteTest) (hids : (remoteAll.map (fun r => r.id)).Nodup)
    (t : LocalTest) (ht : t ∈ localTests) (hne : t.name ≠ "") (r1 : RemoteTest)
    (hg : mapGet (pushPlan localTests remoteAll).remoteByName t.name = some r1) :
    mapGet (pushPlan localTests
      (resultingInventory env opts hostId newId localTests remoteAll)).remoteByName t.name =
      some (afterUpdates env opts (pushPlan localTests remoteAll) hostId r1) := by
  have h1 := mapGet_plan_getLast localTests remoteAll t.name hne
  rw [hg] at h1
  rw [mapGet_plan_getLast _ _ t.name hne]
  unfold resultingInventory
  rw [List.filter_append, List.filter_append]
  have hc : (((pushPlan localTests remoteAll).toCreate.map
      (fun t => createdEntity (newId t)
        (sentPayload env opts (pushPlan localTests remoteAll) hostId t))).filter
      isLoad).filter (fun r => r.name == some t.name) = [] := by
    rw [List.filter_filter, List.filter_eq_nil_iff]
    intro x hx
    rw [List.mem_map] at hx
    obtain ⟨t2, ht2, rfl⟩ := hx
    have ht2m : t2 ∈ localTests.filter
        (fun t => !mapHas (pushPlan localTests remoteAll).remoteByName t.name) := ht2
    rw [List.mem_filter] at ht2m
    intro hq
    rw [Bool.and_eq_true] at hq
    have hname : (createdEntity (newId t2)
        (sentPayload env opts (pushPlan localTests remoteAll) hostId t2)).name
        = some t.name := by simpa using hq.1
    have hname2 : some t2.name = some t.name :=
      (sentPayload_name env opts (pushPlan localTests remoteAll) hostId t2).symm.trans hname
    have hn2 : t2.name = t.name := Option.some.inj hname2
    have hhas := ht2m.2
    rw [hn2] at hhas
    unfold mapHas at hhas
    rw [hg] at hhas
    cases hhas
  rw [hc, List.append_nil, List.filter_filter, List.filter_map, List.filter_filter]
  have hk : remoteAll.filter
      (fun a => ((fun a => (a.name == some t.name) && isLoad a) ∘
          afterUpdates env opts (pushPlan localTests remoteAll) hostId) a &&
        (!(plannedDeletes (pushPlan localTests remoteAll)).contains a.id)) =
      (remoteAll.filter isLoad).filter (fun r => r.name == some t.name) := by
    rw [List.filter_filter]
    apply List.filter_congr
    intro r hr
    have hf := afterUpdates_fields env opts hostId localTests remoteAll hids r hr
    have hl : isLoad (afterUpdates env opts (pushPlan localTests remoteAll) hostId r)
        = isLoad r := by
      unfold isLoad
      rw [hf.2.2]
    simp only [Function.comp, hl, hf.2.1]
    by_cases hn : r.name = some t.name
    · rw [kept_of_local_name localTests remoteAll hids r t hr ht hn, Bool.and_true]
    · have hb : (r.name == some t.name) = false := by simpa using hn
      rw [hb, Bool.false_and, Bool.false_and]
  rw [hk, List.getLast?_map, ← h1]
  rfl

/-- C14, as the code has it. Let the local names be distinct and non-empty,
as the loader yields them, let the remote ids be distinct, and let every name
planned for deletion be the name of one remote load test only.  After a push
with create and delete enabled has applied every planned operation, the plan
of the same local set against the resulting remote inventory has every local
item in `toUpdate`, has `toCreate` and `toDelete` empty, and
`buildPayloadFromLocal` builds for each item, against the entity it is now
matched with, the payload it built on the previous run. -/
theorem reconcile_twice (env : Builtins) (opts : Options) (hostId newId : LocalTest → JVal)
    (localTests : List LocalTest) (remoteAll : List RemoteTest)
    (hnames : (localTests.map (fun t => t.name)).Nodup)
    (hne : ∀ t ∈ localTests, t.name ≠ "")
    (hids : (remoteAll.map (fun r => r.id)).Nodup)
    (huniq : ∀ n ∈ (pushPlan localTests remoteAll).toDelete,
      ∀ r ∈ remoteAll, ∀ r2 ∈ remoteAll, isLoad r = true → isLoad r2 = true →
        r.name = some n → r2.name = some n → r = r2) :
    (pushPlan localTests
      (resultingInventory env opts hostId newId localTests remoteAll)).toUpdate
      = localTests ∧
    (pushPlan localTests
      (resultingInventory env opts hostId newId localTests remoteAll)).toCreate = [] ∧
    (pushPlan localTests
      (resultingInventory env opts hostId newId localTests remoteAll)).toDelete = [] ∧
    ∀ t ∈ localTests, ∀ includeExtended includeName,
      buildPayloadFromLocal env t includeExtended
        (mapGet (pushPlan localTests
          (resultingInventory env opts hostId newId localTests remoteAll)).remoteByName
          t.name) includeName =
      buildPayloadFromLocal env t includeExtended
        (mapGet (pushPlan localTests remoteAll).remoteByName t.name) includeName := by
  have hhas : ∀ t ∈ localTests, mapHas (pushPlan localTests
      (resultingInventory env opts hostId newId localTests remoteAll)).remoteByName
      t.name = true :=
    fun t ht => inventory_has_local env opts hostId newId localTests remoteAll hids t ht
      (hne t ht)
  refine ⟨?_, ?_, ?_, ?_⟩
  · show localTests.filter _ = localTests
    rw [List.filter_eq_self]
    exact hhas
  · show localTests.filter _ = []
    rw [List.filter_eq_nil_iff]
    intro t ht hc
    have hc2 : (!mapHas (pushPlan localTests
        (resultingInventory env opts hostId newId localTests remoteAll)).remoteByName
        t.name) = true := hc
    rw [hhas t ht] at hc2
    cases hc2
  · rw [List.eq_nil_iff_forall_not_mem]
    intro n hn
    obtain ⟨hn0, ⟨x, hx, hxl, hxn⟩, hloc⟩ := (mem_toDelete_iff _ _ n).mp hn
    rw [mem_resultingInventory] at hx
    rcases hx with ⟨r, hr, hkept, rfl⟩ | ⟨t, ht, rfl⟩
    · have hf := afterUpdates_fields env opts hostId localTests remoteAll hids r hr
      have hrl : isLoad r = true := by
        have hl : isLoad (afterUpdates env opts (pushPlan localTests remoteAll) hostId r)
            = isLoad r := by
          unfold isLoad
          rw [hf.2.2]
        rw [← hl]
        exact hxl
      have hrn : r.name = some n := hf.2.1.symm.trans hxn
      have hdel : n ∈ (pushPlan localTests remoteAll).toDelete :=
        (mem_toDelete_iff _ _ n).mpr ⟨hn0, ⟨r, hr, hrl, hrn⟩, hloc⟩
      have hsome := mapGet_isSome_of_mem_toDelete localTests remoteAll n hdel
      cases hg : mapGet (pushPlan localTests remoteAll).remoteByName n with
      | none => rw [hg] at hsome; cases hsome
      | some rd =>
        have hrd := mapGet_plan localTests remoteAll n rd hg
        have heq : r = rd := huniq n hdel r hr rd hrd.1 hrl hrd.2.1 hrn hrd.2.2.1
        subst heq
        have hmem : r.id ∈ plannedDeletes (pushPlan localTests remoteAll) := by
          unfold plannedDeletes
          rw [List.mem_filterMap]
          exact ⟨n, hdel, by rw [hg]; rfl⟩
        have hc : (plannedDeletes (pushPlan localTests remoteAll)).contains r.id = true := by
          simpa using hmem
        rw [hc] at hkept
        cases hkept
    · have ht2 : t ∈ localTests.filter
          (fun t => !mapHas (pushPlan localTests remoteAll).remoteByName t.name) := ht
      rw [List.mem_filter] at ht2
      have hname : some t.name = some n :=
        (sentPayload_name env opts (pushPlan localTests remoteAll) hostId t).symm.trans hxn
      exact hloc t ht2.1 (Option.some.inj hname)
  · intro t ht includeExtended includeName
    apply buildPayload_congr
    by_cases hreg : t.config.region.truthy = true
    · exact Or.inl hreg
    · right
      cases hg : mapGet (pushPlan localTests remoteAll).remoteByName t.name with
      | some r1 =>
        rw [mapGet_after_update env opts hostId newId localTests remoteAll hids t ht
          (hne t ht) r1 hg]
        have htu : t ∈ (pushPlan localTests remoteAll).toUpdate :=
          List.mem_filter.mpr ⟨ht, by
            show (mapGet (pushPlan localTests remoteAll).remoteByName t.name).isSome = true
            rw [hg]
            rfl⟩
        have hnd : ((pushPlan localTests remoteAll).toUpdate.map (fun t => t.name)).Nodup :=
          List.Nodup.sublist (List.Sublist.map _ (List.filter_sublist _)) hnames
        have hau : afterUpdates env opts (pushPlan localTests remoteAll) hostId r1 =
            updatedEntity (sentPayload env opts (pushPlan localTests remoteAll) hostId t) r1 :=
          foldl_updates_matched env opts hostId localTests remoteAll hids r1 t hg _ hnd htu
        rw [hau]
        have hpr : (sentPayload env opts (pushPlan localTests remoteAll) hostId t).region =
            if strTruthy r1.region then r1.region else none := by
          rw [sentPayload_region, buildPayload_region_eq, hg, if_neg hreg]
        simp only [updatedEntity, hpr]
        cases hr : r1.region with
        | none => rfl
        | some x =>
          by_cases hx : x = ""
          · subst hx
            rfl
          · have hst : strTruthy (some x) = true := by simpa [strTruthy] using hx
            simp only [hst, if_true]
      | none =>
        have hh := hhas t ht
        unfold mapHas at hh
        cases hg2 : mapGet (pushPlan localTests
            (resultingInventory env opts hostId newId localTests remoteAll)).remoteByName
            t.name with
        | none => exact absurd hh (by simp [hg2])
        | some r2 =>
          have hr2 := mapGet_plan _ _ t.name r2 hg2
          have hmem := hr2.1
          rw [mem_resultingInventory] at hmem
          rcases hmem with ⟨r, hr, _, rfl⟩ | ⟨t2, ht2, rfl⟩
          · exfalso
            have hf := afterUpdates_fields env opts hostId localTests remoteAll hids r hr
            have hrl : isLoad r = true := by
              have hl : isLoad (afterUpdates env opts (pushPlan localTests remoteAll) hostId r)
                  = isLoad r := by
                unfold isLoad
                rw [hf.2.2]
              rw [← hl]
              exact hr2.2.1
            have hrn : r.name = some t.name := hf.2.1.symm.trans hr2.2.2.1
            have hm := (mapHas_plan localTests remoteAll t.name).mpr
              ⟨r, hr, hrl, hrn, hne t ht⟩
            unfold mapHas at hm
            rw [hg] at hm
            cases hm
          · have ht2m : t2 ∈ localTests.filter
                (fun t => !mapHas (pushPlan localTests remoteAll).remoteByName t.name) := ht2
            rw [List.mem_filter] at ht2m
            have hname : some t2.name = some t.name :=
              (sentPayload_name env opts (pushPlan localTests remoteAll) hostId t2).symm.trans
                hr2.2.2.1
            have heq : t2 = t :=
              List.inj_on_of_nodup_map hnames ht2m.1 ht (Option.some.inj hname)
            subst heq
            have hpr : (createdEntity (newId t2)
                (sentPayload env opts (pushPlan localTests remoteAll) hostId t2)).region
                = none := by
              show (sentPayload env opts (pushPlan localTests remoteAll) hostId t2).region = none
              rw [sentPayload_region, buildPayload_region_eq, hg, if_neg hreg]
            simp only [hpr]
            rfl

/-- C14, as the code has it, at the push of `checkout` and `search` against
the remote tests `checkout` and `legacy`, which updates the first, creates the
second and deletes the third: the second plan updates both and nothing else,
with the payloads of the first run. -/
theorem reconcile_twice_witness :
    (pushPlan [localCheckout, localSearch]
      (resultingInventory tableRuntime applyAll (fun _ => .undefined) (fun _ => .num 15)
        [localCheckout, localSearch] [remoteCheckout, remoteLegacy])).toUpdate
      = [localCheckout, localSearch] ∧
    (pushPlan [localCheckout, localSearch]
      (resultingInventory tableRuntime applyAll (fun _ => .undefined) (fun _ => .num 15)
        [localCheckout, localSearch] [remoteCheckout, remoteLegacy])).toCreate = [] ∧
    (pushPlan [localCheckout, localSearch]
      (resultingInventory tableRuntime applyAll (fun _ => .undefined) (fun _ => .num 15)
        [localCheckout, localSearch] [remoteCheckout, remoteLegacy])).toDelete = [] ∧
    ∀ t ∈ [localCheckout, localSearch], ∀ includeExtended includeName,
      buildPayloadFromLocal tableRuntime t includeExtended
        (mapGet (pushPlan [localCheckout, localSearch]
          (resultingInventory tableRuntime applyAll (fun _ => .undefined) (fun _ => .num 15)
            [localCheckout, localSearch] [remoteCheckout, remoteLegacy])).remoteByName
          t.name) includeName =
      buildPayloadFromLocal tableRuntime t includeExtended
        (mapGet (pushPlan [localCheckout, localSearch]
          [remoteCheckout, remoteLegacy]).remoteByName t.name) includeName :=
  reconcile_twice tableRuntime applyAll (fun _ => .undefined) (fun _ => .num 15)
    [localCheckout, localSearch] [remoteCheckout, remoteLegacy]
    (by decide) (by decide) (by decide!) (by decide!)

/-- C14 as stated fails: with `search` local and two remote load tests both
named `legacy` (ids 12 and 14), the push creates `search` and deletes the one
test `remoteByName` holds for `legacy`, id 14, every call succeeding; the test
with id 12 stays in the inventory, and the plan of the same local set against
it has `legacy` to delete again. -/
theorem reconcile_twice_still_deletes :
    (pushPlan [localSearch] [remoteLegacy, remoteLegacyTwin]).toCreate = [localSearch] ∧
    (pushPlan [localSearch] [remoteLegacy, remoteLegacyTwin]).toDelete = ["legacy"] ∧
    twinRun.1 = .ok () ∧
    twinRun.2.calls.map (fun x => x.call) =
      [.listTests, .listHosts,
        .createTest (buildPayloadFromLocal tableRuntime localSearch true none true),
        .deleteTest (.num 14)] ∧
    resultingInventory tableRuntime applyAll (fun _ => .undefined) (fun _ => .num 15)
        [localSearch] [remoteLegacy, remoteLegacyTwin] =
      [remoteLegacy,
        { id := .num 15, name := some "search", test_type := some "load",
          region := some "eu-west" }] ∧
    (pushPlan [localSearch]
      (resultingInventory tableRuntime applyAll (fun _ => .undefined) (fun _ => .num 15)
        [localSearch] [remoteLegacy, remoteLegacyTwin])).toDelete = ["legacy"] := by
  decide!

/-! ## A failed operation is the last call of the run -/

theorem endsRejected_append_cons (a : List Exchange) (y : Exchange) (b : List Exchange) :
    endsRejected (a ++ y :: b) = endsRejected (y :: b) := by
  unfold endsRejected
  rw [List.getLast?_append]
  cases h : (y :: b).getLast? with
  | none => simp at h
  | some z => rfl

theorem endsRejected_append_nil (a b : List Exchange) (hb : endsRejected b = false)
    (ha : endsRejected a = false) : endsRejected (a ++ b) = false := by
  cases b with
  | nil => rw [List.append_nil]; exact ha
  | cons y b => rw [endsRejected_append_cons]; exact hb

theorem failedOperation_append (opts : Options) (a pre : List Exchange) (x : Exchange)
    (ha : endsRejected a = false) :
    failedOperation opts (a ++ pre) x = failedOperation opts pre x := by
  unfold failedOperation
  cases pre with
  | nil =>
    rw [List.append_nil, ha]
    rfl
  | cons y b => rw [endsRejected_append_cons]

theorem failFast_silent {σ α : Type} (opts : Options) (m : Eff σ α)
    (h : ∀ w, (m w).2.calls = w.calls) : FailFast opts m := by
  constructor
  intro w
  refine ⟨[], by rw [h w, List.append_nil], ?_, fun _ => rfl⟩
  intro pre x post e hsplit
  cases pre <;> cases hsplit

theorem failFast_ret {σ α : Type} (opts : Options) (a : α) :
    FailFast opts (pure a : Eff σ α) :=
  failFast_silent opts _ (fun _ => rfl)

theorem failFast_raise {σ α : Type} (opts : Options) (e : Failure) :
    FailFast opts (Eff.raise e : Eff σ α) :=
  failFast_silent opts _ (fun _ => rfl)

theorem failFast_say {σ : Type} (opts : Options) (r : Report) :
    FailFast opts (say r : Eff σ Unit) :=
  failFast_silent opts _ (fun _ => rfl)

theorem failFast_getHosts {σ : Type} (opts : Options) :
    FailFast opts (getHosts : Eff σ (List RemoteHost)) :=
  failFast_silent opts _ (fun _ => rfl)

theorem failFast_setHosts {σ : Type} (opts : Options) (hs : List RemoteHost) :
    FailFast opts (setHosts hs : Eff σ Unit) :=
  failFast_silent opts _ (fun _ => rfl)

/-- A single call that is no test call: its rejection is thrown. -/
theorem failFast_perform {σ α : Type} (opts : Options) (call : Call) (reply : α → Reply)
    (op : σ → Except Rejection α × σ)
    (hu : call.isUpdateTest = false) (hc : call.isCreateTest = false)
    (hr : ∀ a, (reply a).isRejected = false) :
    FailFast opts (perform call reply op) := by
  constructor
  intro w
  unfold LfCli.perform
  rcases hop : op w.remote with ⟨e | a, s⟩
  · refine ⟨[⟨call, .rejected e⟩], rfl, ?_, fun ⟨a, ha⟩ => by cases ha⟩
    intro pre x post e2 hsplit hrej _
    rcases pre with _ | ⟨p, pre⟩
    · simp only [List.nil_append, List.cons.injEq] at hsplit
      obtain ⟨hx, hpost⟩ := hsplit
      subst hx
      cases hrej
      exact ⟨hpost.symm, rfl⟩
    · simp only [List.cons_append, List.cons.injEq] at hsplit
      cases pre <;> cases hsplit.2
  · refine ⟨[⟨call, reply a⟩], rfl, ?_, fun _ => ?_⟩
    · intro pre x post e2 hsplit hrej _
      rcases pre with _ | ⟨p, pre⟩
      · simp only [List.nil_append, List.cons.injEq] at hsplit
        obtain ⟨hx, _⟩ := hsplit
        subst hx
        have := hr a
        simp only at hrej
        rw [hrej] at this
        cases this
      · simp only [List.cons_append, List.cons.injEq] at hsplit
        cases pre <;> cases hsplit.2
    · simp [endsRejected, Exchange.isRejectedTest, hu, hc]

/-- Calls that change nothing on the service are no failed operations. -/
theorem failFast_of_emits {σ α : Type} (opts : Options) {m : Eff σ α}
    (h : Emits (fun x => x.call.isMutation = false) m) : FailFast opts m := by
  constructor
  intro w
  obtain ⟨new, hc, hq⟩ := h.out w
  refine ⟨new, hc, ?_, fun _ => ?_⟩
  · intro pre x post e hsplit _ hf
    exfalso
    have hx : x ∈ new := by
      rw [hsplit]
      exact List.mem_append_right _ (List.mem_cons_self _ _)
    have hm := hq x hx
    simp only [Call.isMutation, Bool.or_eq_false_iff] at hm
    simp [failedOperation, hm.1.1.1, hm.1.1.2, hm.1.2, hm.2] at hf
  · unfold endsRejected
    cases hl : new.getLast? with
    | none => rfl
    | some y =>
      have hm := hq y (List.mem_of_getLast?_eq_some hl)
      simp only [Call.isMutation, Bool.or_eq_false_iff] at hm
      simp [Exchange.isRejectedTest, hm.1.1.1, hm.1.1.2]

theorem failFast_bind {σ α β : Type} {opts : Options} {m : Eff σ α} {f : α → Eff σ β}
    (hm : FailFast opts m) (hf : ∀ a, FailFast opts (f a)) : FailFast opts (m >>= f) := by
  constructor
  intro w
  obtain ⟨n1, c1, s1, k1⟩ := hm.out w
  rw [andThen_apply]
  rcases hmw : m w with ⟨e | a, w1⟩
  · rw [hmw] at c1 s1 k1
    refine ⟨n1, c1, ?_, ?_⟩
    · intro pre x post e2 h1 h2 h3
      obtain ⟨hp, he⟩ := s1 pre x post e2 h1 h2 h3
      simp only [Except.error.injEq] at he
      subst he
      exact ⟨hp, rfl⟩
    · rintro ⟨b, hb⟩
      cases hb
  · rw [hmw] at c1 s1 k1
    simp only at c1 s1 k1
    have hk1 : endsRejected n1 = false := k1 ⟨a, rfl⟩
    obtain ⟨n2, c2, s2, k2⟩ := (hf a).out w1
    refine ⟨n1 ++ n2, ?_, ?_, ?_⟩
    · simp only
      rw [c2, c1, List.append_assoc]
    · intro pre x post e hsplit hrej hfail
      simp only
      rcases List.append_eq_append_iff.mp hsplit with ⟨a2, hpre, hn2⟩ | ⟨c2, hn1, hpost⟩
      · rw [hpre, failedOperation_append opts n1 a2 x hk1] at hfail
        exact s2 a2 x post e hn2 hrej hfail
      · rcases c2 with _ | ⟨y, c2⟩
        · rw [List.append_nil] at hn1
          rw [List.nil_append] at hpost
          rw [← hn1, ← List.append_nil n1, failedOperation_append opts n1 [] x hk1] at hfail
          exact s2 [] x post e hpost.symm hrej hfail
        · rw [List.cons_append, List.cons.injEq] at hpost
          obtain ⟨hxy, _⟩ := hpost
          subst hxy
          have := (s1 pre x c2 e hn1 hrej hfail).2
          cases this
    · intro hok
      exact endsRejected_append_nil n1 n2 (k2 hok) hk1

theorem split_singleton {a x : Exchange} {pre post : List Exchange}
    (h : [a] = pre ++ x :: post) : pre = [] ∧ x = a ∧ post = [] := by
  rcases pre with _ | ⟨p, pre⟩
  · simp only [List.nil_append, List.cons.injEq] at h
    exact ⟨rfl, h.1.symm, h.2.symm⟩
  · simp only [List.cons_append, List.cons.injEq] at h
    cases pre <;> cases h.2

theorem split_pair {a b x : Exchange} {pre post : List Exchange}
    (h : [a, b] = pre ++ x :: post) :
    (pre = [] ∧ x = a ∧ post = [b]) ∨ (pre = [a] ∧ x = b ∧ post = []) := by
  rcases pre with _ | ⟨p, pre⟩
  · simp only [List.nil_append, List.cons.injEq] at h
    exact Or.inl ⟨rfl, h.1.symm, h.2.symm⟩
  · simp only [List.cons_append, List.cons.injEq] at h
    obtain ⟨hp, h2⟩ := h
    obtain ⟨hpre, hx, hpost⟩ := split_singleton h2
    subst hp hpre
    exact Or.inr ⟨rfl, hx, hpost⟩

theorem sendUpdate_failFast {σ : Type} (env : Builtins) (client : Client σ) (opts : Options)
    (remote : Option RemoteTest) (loc : LocalTest) (p : Payload) :
    FailFast opts (sendUpdate env client opts remote loc p) := by
  cases remote with
  | none =>
    apply failFast_silent
    intro w
    unfold sendUpdate
    cases hv : opts.verbose <;>
      simp [bind, Eff.andThen, say, Eff.attempt, pure, Eff.ret, Eff.raise,
        Failure.isStatus400, hv]
  | some r =>
    constructor
    intro w
    rcases sendUpdate_cases env client opts r loc p w with
      ⟨v, hc, hres⟩ | ⟨e, hc, hno, hres⟩ | ⟨e, v, hc, ht, h400, hres, _⟩ |
      ⟨e, e2, hc, ht, h400, hres⟩
    · refine ⟨_, hc, ?_, fun _ => by simp [endsRejected, Exchange.isRejectedTest,
        Reply.isRejected]⟩
      intro pre x post e hsplit hrej _
      obtain ⟨_, hx, _⟩ := split_singleton hsplit
      subst hx
      cases hrej
    · refine ⟨_, hc, ?_, fun ⟨a, ha⟩ => by rw [hres] at ha; cases ha⟩
      intro pre x post e2 hsplit hrej _
      obtain ⟨_, hx, hpost⟩ := split_singleton hsplit
      subst hx
      cases hrej
      exact ⟨hpost, hres⟩
    · refine ⟨_, hc, ?_, fun _ => by simp [endsRejected, Exchange.isRejectedTest,
        Reply.isRejected]⟩
      intro pre x post e3 hsplit hrej hfail
      rcases split_pair hsplit with ⟨hpre, hx, _⟩ | ⟨_, hx, _⟩
      · subst hpre hx
        simp [failedOperation, Call.isDeleteTest, Call.isCreateHost, Call.isUpdateTest,
          Reply.isRejected, Reply.isStatus400, endsRejected, ht, h400] at hfail
      · subst hx
        cases hrej
    · refine ⟨_, hc, ?_, fun ⟨a, ha⟩ => by rw [hres] at ha; cases ha⟩
      intro pre x post e3 hsplit hrej hfail
      rcases split_pair hsplit with ⟨hpre, hx, _⟩ | ⟨_, hx, hpost⟩
      · subst hpre hx
        simp [failedOperation, Call.isDeleteTest, Call.isCreateHost, Call.isUpdateTest,
          Reply.isRejected, Reply.isStatus400, endsRejected, ht, h400] at hfail
      · subst hx
        cases hrej
        exact ⟨hpost, hres⟩

theorem sendCreate_failFast {σ : Type} (env : Builtins) (client : Client σ) (opts : Options)
    (loc : LocalTest) (p : Payload) :
    FailFast opts (sendCreate env client opts loc p) := by
  constructor
  intro w
  rcases sendCreate_cases env client opts loc p w with
    ⟨v, hc, hres⟩ | ⟨e, hc, hno, hres⟩ | ⟨e, v, hc, ht, h400, hres⟩ |
    ⟨e, e2, hc, ht, h400, hres⟩
  · refine ⟨_, hc, ?_, fun _ => by simp [endsRejected, Exchange.isRejectedTest,
      Reply.isRejected]⟩
    intro pre x post e hsplit hrej _
    obtain ⟨_, hx, _⟩ := split_singleton hsplit
    subst hx
    cases hrej
  · refine ⟨_, hc, ?_, fun ⟨a, ha⟩ => by rw [hres] at ha; cases ha⟩
    intro pre x post e2 hsplit hrej _
    obtain ⟨_, hx, hpost⟩ := split_singleton hsplit
    subst hx
    cases hrej
    exact ⟨hpost, hres⟩
  · refine ⟨_, hc, ?_, fun _ => by simp [endsRejected, Exchange.isRejectedTest,
      Reply.isRejected]⟩
    intro pre x post e3 hsplit hrej hfail
    rcases split_pair hsplit with ⟨hpre, hx, _⟩ | ⟨_, hx, _⟩
    · subst hpre hx
      simp [failedOperation, Call.isDeleteTest, Call.isCreateHost, Call.isCreateTest,
        Reply.isRejected, Reply.isStatus400, endsRejected, ht, h400] at hfail
    · subst hx
      cases hrej
  · refine ⟨_, hc, ?_, fun ⟨a, ha⟩ => by rw [hres] at ha; cases ha⟩
    intro pre x post e3 hsplit hrej hfail
    rcases split_pair hsplit with ⟨hpre, hx, _⟩ | ⟨_, hx, hpost⟩
    · subst hpre hx
      simp [failedOperation, Call.isDeleteTest, Call.isCreateHost, Call.isCreateTest,
        Reply.isRejected, Reply.isStatus400, endsRejected, ht, h400] at hfail
    · subst hx
      cases hrej
      exact ⟨hpost, hres⟩

theorem failFast_attempt_listHosts {σ : Type} (opts : Options) (client : Client σ) :
    FailFast opts (Eff.attempt (perform .listHosts .hosts client.listHosts)) :=
  failFast_of_emits _ (emits_attempt (emits_perform _ _ _ _ (fun _ => rfl)))

theorem failFast_createHost {σ : Type} (opts : Options) (client : Client σ)
    (spec : HostSpec) :
    FailFast opts (perform (.createHost spec) .host (client.createHost spec)) :=
  failFast_perform _ _ _ _ rfl rfl (fun _ => rfl)

theorem findOrCreateHostId_failFast {σ : Type} (env : Builtins) (client : Client σ)
    (opts : Options) (hostStr : JVal) :
    FailFast opts (findOrCreateHostId env client hostStr) := by
  unfold findOrCreateHostId
  repeat (first
    | with_reducible exact failFast_ret _ _
    | with_reducible exact failFast_getHosts _
    | with_reducible exact failFast_setHosts _ _
    | with_reducible exact failFast_createHost _ _ _
    | with_reducible exact failFast_attempt_listHosts _ _
    | with_reducible apply failFast_bind
    | intro _
    | split)

theorem updateItem_failFast {σ : Type} (env : Builtins) (client : Client σ) (opts : Options)
    (remoteByName : List (String × RemoteTest)) (loc : LocalTest) :
    FailFast opts (updateItem env client opts remoteByName loc) := by
  unfold updateItem
  refine failFast_bind ?_ (fun _ => sendUpdate_failFast _ _ _ _ _ _)
  unfold updatePayload
  dsimp only
  repeat (first
    | with_reducible exact failFast_ret _ _
    | with_reducible exact findOrCreateHostId_failFast _ _ _ _
    | with_reducible apply failFast_bind
    | intro _
    | split)

theorem updatePhase_failFast {σ : Type} (env : Builtins) (client : Client σ) (opts : Options)
    (remoteByName : List (String × RemoteTest)) (items : List LocalTest) :
    FailFast opts (updatePhase env client opts remoteByName items) := by
  induction items with
  | nil => exact failFast_ret _ _
  | cons loc rest ih =>
    unfold updatePhase
    exact failFast_bind (updateItem_failFast _ _ _ _ _) (fun _ => ih)

theorem createItem_failFast {σ : Type} (env : Builtins) (client : Client σ) (opts : Options)
    (loc : LocalTest) : FailFast opts (createItem env client opts loc) := by
  unfold createItem
  split
  · exact failFast_say _ _
  · split
    · exact failFast_raise _ _
    · refine failFast_bind ?_ (fun _ => sendCreate_failFast _ _ _ _ _)
      unfold createPayload
      dsimp only
      repeat (first
        | with_reducible exact failFast_ret _ _
        | with_reducible exact findOrCreateHostId_failFast _ _ _ _
        | with_reducible apply failFast_bind
        | intro _
        | split)

theorem createPhase_failFast {σ : Type} (env : Builtins) (client : Client σ) (opts : Options)
    (items : List LocalTest) : FailFast opts (createPhase env client opts items) := by
  induction items with
  | nil => exact failFast_ret _ _
  | cons loc rest ih =>
    unfold createPhase
    exact failFast_bind (createItem_failFast _ _ _ _) (fun _ => ih)

theorem deletePhase_failFast {σ : Type} (client : Client σ) (opts : Options)
    (remoteByName : List (String × RemoteTest)) (names : List String) :
    FailFast opts (deletePhase client remoteByName names) := by
  induction names with
  | nil => exact failFast_ret _ _
  | cons name rest ih =>
    unfold deletePhase
    apply failFast_bind
    · split
      · exact failFast_ret _ _
      · exact failFast_bind (failFast_perform _ _ _ _ rfl rfl (fun _ => rfl))
          (fun _ => failFast_say _ _)
    · exact fun _ => ih

theorem applyPlan_failFast {σ : Type} (env : Builtins) (client : Client σ) (opts : Options)
    (plan : Plan) : FailFast opts (applyPlan env client opts plan) := by
  unfold applyPlan
  refine failFast_bind (updatePhase_failFast _ _ _ _ _) (fun _ => ?_)
  refine failFast_bind (createPhase_failFast _ _ _ _) (fun _ => ?_)
  split
  · exact deletePhase_failFast _ _ _ _
  · split
    · exact failFast_say _ _
    · exact failFast_ret _ _

theorem pushCommand_failFast {σ : Type} (env : Builtins) (client : Client σ) (opts : Options)
    (loaded : Except String (List LocalTest)) :
    FailFast opts (pushCommand env client opts loaded) := by
  unfold pushCommand
  apply failFast_bind
  · split
    · exact failFast_ret _ _
    · exact failFast_raise _ _
  · intro localTests
    refine failFast_bind (failFast_perform _ _ _ _ rfl rfl (fun _ => rfl)) (fun remoteAll => ?_)
    refine failFast_bind (failFast_say _ _) (fun _ => ?_)
    split
    · exact failFast_say _ _
    · refine failFast_bind (failFast_attempt_listHosts _ _) (fun preload => ?_)
      exact failFast_bind (failFast_setHosts _ _) (fun _ => applyPlan_failFast _ _ _ _)

/-- C11, as the code has it. Among the calls of any run of `pushCommand`, a
planned operation that fails is the last call of the run, and `pushCommand`
throws its rejection, so that none of the remaining planned updates, creates
and deletes is attempted.  The failed operations are: a rejected `deleteTest`,
a rejected `createHost`, and a rejected `updateTest` or `createTest` that gets
no retry, which is one rejected with a status other than 400, or with
`tryExtended` off, or one made right after a rejected test call, the retry
with base fields. -/
theorem pushCommand_stops_at_failure {σ : Type} (env : Builtins) (client : Client σ)
    (opts : Options) (loaded : Except String (List LocalTest)) (w : Run σ)
    (new : List Exchange)
    (hnew : (pushCommand env client opts loaded w).2.calls = w.calls ++ new)
    (pre : List Exchange) (x : Exchange) (post : List Exchange) (e : Rejection)
    (hsplit : new = pre ++ x :: post) (hrej : x.reply = .rejected e)
    (hfail : failedOperation opts pre x = true) :
    post = [] ∧ (pushCommand env client opts loaded w).1 = .error (.rejected e) := by
  obtain ⟨n, hc, hstop, _⟩ := (pushCommand_failFast env client opts loaded).out w
  have hn : n = new := List.append_cancel_left (hc.symm.trans hnew)
  subst hn
  exact hstop pre x post e hsplit hrej hfail

/-- C11, as the code has it, at the sample push whose first `updateTest` is
rejected with status 500, and at the sample push whose `updateTest` is
rejected with status 400 and its retry with status 503: either run throws the
rejection of its last call. -/
theorem pushCommand_stops_at_failure_witness :
    (pushCommand tableRuntime scriptedClient applyAll (.ok [localCheckout, localSearch])
      (startOf [.tests [remoteCheckout, remoteSearch, remoteLegacy], .hosts [],
        .rejected { status := some 500 }])).1 = .error (.rejected { status := some 500 }) ∧
    (pushCommand tableRuntime scriptedClient applyAll (.ok [localCheckout, localSearch])
      (startOf [.tests [remoteCheckout, remoteSearch, remoteLegacy], .hosts [],
        .rejected { status := some 400 }, .rejected { status := some 503 }])).1
      = .error (.rejected { status := some 503 }) :=
  ⟨(pushCommand_stops_at_failure tableRuntime scriptedClient applyAll
      (.ok [localCheckout, localSearch])
      (startOf [.tests [remoteCheckout, remoteSearch, remoteLegacy], .hosts [],
        .rejected { status := some 500 }])
      abortedRun.2.calls (by unfold abortedRun; exact (List.nil_append _).symm)
      [⟨.listTests, .tests [remoteCheckout, remoteSearch, remoteLegacy]⟩,
        ⟨.listHosts, .hosts []⟩]
      ⟨.updateTest (.num 11)
        (buildPayloadFromLocal tableRuntime localCheckout true (some remoteCheckout) true),
        .rejected { status := some 500 }⟩
      [] { status := some 500 } (by decide!) rfl (by decide!)).2,
    (pushCommand_stops_at_failure tableRuntime scriptedClient applyAll
      (.ok [localCheckout, localSearch])
      (startOf [.tests [remoteCheckout, remoteSearch, remoteLegacy], .hosts [],
        .rejected { status := some 400 }, .rejected { status := some 503 }])
      failedRetryRun.2.calls (by unfold failedRetryRun; exact (List.nil_append _).symm)
      [⟨.listTests, .tests [remoteCheckout, remoteSearch, remoteLegacy]⟩,
        ⟨.listHosts, .hosts []⟩,
        ⟨.updateTest (.num 11)
          (buildPayloadFromLocal tableRuntime localCheckout true (some remoteCheckout) true),
          .rejected { status := some 400 }⟩]
      ⟨.updateTest (.num 11)
        (buildPayloadFromLocal tableRuntime localCheckout false (some remoteCheckout) false),
        .rejected { status := some 503 }⟩
      [] { status := some 503 } (by decide!) rfl (by decide!)).2⟩

end LfCli
